import Mathlib

/-!
# golongtail: blob store access and the remote block store

* A shallow embedding of `longtailstorelib/blobStore.go`: the `BlobObject` /
  `BlobClient` interfaces and `readBlobWithRetry`.  Backend calls are state
  passing over an arbitrary backend state `σ`, so an object may answer every
  call differently; every call made to the backend, every `time.Sleep` and
  every `log.Printf` is recorded in a trace.
* A model of the remote block store (`put_block`, `get_block`,
  `get_existing_content`, `flush`, `prune_blocks`, open) over an in-memory
  blob backend, written from the specification and from
  `longtailstorelib/remotestore_test.go`.
* Theorems about both.
-/

namespace Longtail

/-! ## Go values -/

/-- Go `[]byte`.  Where a slice may be nil it is an `Option Bytes`, nil being `none`. -/
abbrev Bytes := List UInt8

/-- Go `error` values that the embedded code builds or inspects.  A nil
error is `none : Option Error`. -/
inductive Error where
  /-- `longtaillib.ErrENOENT` -/
  | ErrENOENT
  /-- `os.ErrNotExist` -/
  | ErrNotExist
  /-- any other error value, identified by its message -/
  | Other (msg : String)
  /-- `errors.Wrap(cause, msg)` -/
  | Wrap (cause : Error) (msg : String)
  /-- `longtaillib.ErrEIO` -/
  | ErrEIO
  /-- `longtaillib.ErrENOMEM` -/
  | ErrENOMEM
  /-- an error of type `*types.NoSuchKey` of the S3 SDK -/
  | NoSuchKey (msg : String)
  /-- an error of type `*types.NotFound` of the S3 SDK -/
  | NotFound (msg : String)
  /-- `errors.Wrapf(cause, format, args...)` with string arguments -/
  | Wrapf (cause : Error) (format : String) (args : List String)
  /-- `errors.Wrapf(cause, format, arg)` with an error as argument -/
  | WrapfErr (cause : Error) (format : String) (arg : Error)
  deriving DecidableEq, Repr

/-- `errors.Is(err, target)`: walks the chain of wrapped causes of `err`. -/
def Error.Is : Error → Error → Bool
  | .Wrap cause msg, target =>
      decide (Error.Wrap cause msg = target) || Error.Is cause target
  | .Wrapf cause format args, target =>
      decide (Error.Wrapf cause format args = target) || Error.Is cause target
  | .WrapfErr cause format arg, target =>
      decide (Error.WrapfErr cause format arg = target) || Error.Is cause target
  | e, target => decide (e = target)

/-- `errors.As(err, &nsk)` for `nsk *types.NoSuchKey`: whether the chain of
`err` holds an error of that type. -/
def Error.AsNoSuchKey : Error → Bool
  | .NoSuchKey _ => true
  | .Wrap cause _ => Error.AsNoSuchKey cause
  | .Wrapf cause _ _ => Error.AsNoSuchKey cause
  | .WrapfErr cause _ _ => Error.AsNoSuchKey cause
  | _ => false

/-- `errors.As(err, &notFoundErr)` for `notFoundErr *types.NotFound`. -/
def Error.AsNotFound : Error → Bool
  | .NotFound _ => true
  | .Wrap cause _ => Error.AsNotFound cause
  | .Wrapf cause _ _ => Error.AsNotFound cause
  | .WrapfErr cause _ _ => Error.AsNotFound cause
  | _ => false

/-- `errors.Wrap(err, msg)` on a possibly nil error: nil stays nil. -/
def Wrap (err : Option Error) (msg : String) : Option Error :=
  err.map (fun e => Error.Wrap e msg)

/-- `errors.Wrapf(err, format, args...)` on a possibly nil error: nil stays nil. -/
def Wrapf (err : Option Error) (format : String) (args : List String) : Option Error :=
  err.map (fun e => Error.Wrapf e format args)

/-- `time.Duration` is a count of nanoseconds. -/
abbrev Duration := Nat

/-- `time.Millisecond` -/
def Millisecond : Duration := 1000000

/-- `time.Second` -/
def Second : Duration := 1000 * Millisecond

/-! ## blobStore.go: interfaces -/

/-- `BlobObject` (blobStore.go:15-43).  Each method takes the backend state
and returns its Go result tuple with the next state. -/
structure BlobObject (σ : Type) where
  /-- `Exists() (bool, error)` -/
  Exists : σ → (Bool × Option Error) × σ
  /-- `LockWriteVersion() (bool, error)` -/
  LockWriteVersion : σ → (Bool × Option Error) × σ
  /-- `Read() ([]byte, error)` -/
  Read : σ → (Option Bytes × Option Error) × σ
  /-- `Write(data []byte) (bool, error)` -/
  Write : Bytes → σ → (Bool × Option Error) × σ
  /-- `Delete() error` -/
  Delete : σ → Option Error × σ

/-- `BlobProperties` (blobStore.go:45-48) -/
structure BlobProperties where
  Size : Int
  Name : String
  deriving DecidableEq, Repr

/-- `BlobClient` (blobStore.go:51-57).  `NewObject` returns a handle or a
non-nil error. -/
structure BlobClient (σ : Type) where
  /-- `NewObject(path string) (BlobObject, error)` -/
  NewObject : String → σ → Except Error (BlobObject σ) × σ
  /-- `GetObjects(pathPrefix string) ([]BlobProperties, error)` -/
  GetObjects : String → σ → (List BlobProperties × Option Error) × σ
  /-- `SupportsLocking() bool` -/
  SupportsLocking : Bool
  /-- `String() string` -/
  String : String
  /-- `Close()` -/
  Close : σ → σ

/-- `BlobStore` (blobStore.go:60-63) -/
structure BlobStore (σ : Type) where
  /-- `NewClient(ctx context.Context) (BlobClient, error)` -/
  NewClient : σ → Except Error (BlobClient σ) × σ
  /-- `String() string` -/
  String : String

/-! ## blobStore.go: readBlobWithRetry -/

/-- What `readBlobWithRetry` does to the outside world, in program order. -/
inductive Event where
  /-- `client.NewObject(key)` -/
  | NewObject (key : String)
  /-- `objHandle.Exists()` with its result -/
  | Exists (ok : Bool) (err : Option Error)
  /-- `objHandle.Read()` with its result -/
  | Read (data : Option Bytes) (err : Option Error)
  /-- `time.Sleep(d)` -/
  | Sleep (d : Duration)
  /-- `log.Printf(...)` with the formatted message -/
  | Log (msg : String)
  deriving DecidableEq, Repr

/-- The local variables `blobData`, `err`, `retryCount` of
`readBlobWithRetry`, with the backend state and the trace so far. -/
structure ReadBlob (σ : Type) where
  blobData : Option Bytes
  retryCount : Nat
  err : Option Error
  state : σ
  trace : List Event

/-- One `if err != nil { log.Printf(msg...); [time.Sleep(d)]; retryCount++;
blobData, err = objHandle.Read() }` block of `readBlobWithRetry`
(blobStore.go:159-163, 164-169, 170-175); `delay` is `none` for the block
that does not sleep. -/
def retryRead {σ : Type} (objHandle : BlobObject σ) (msg : String)
    (delay : Option Duration) (v : ReadBlob σ) : ReadBlob σ :=
  match v.err with
  | none => v
  | some _ =>
    let r := objHandle.Read v.state
    { blobData := r.1.1
      retryCount := v.retryCount + 1
      err := r.1.2
      state := r.2
      trace := v.trace ++ [Event.Log msg] ++
        (match delay with
          | none => []
          | some d => [Event.Sleep d]) ++ [Event.Read r.1.1 r.1.2] }

/-- `readBlobWithRetry` (blobStore.go:142-182).  The returned record holds
the three results `([]byte, int, error)` in `blobData`, `retryCount`, `err`. -/
def readBlobWithRetry {σ : Type} (client : BlobClient σ) (key : String) (s : σ) :
    ReadBlob σ :=
  let retryCount := 0
  match client.NewObject key s with
  | (.error err, s1) =>
    { blobData := none, retryCount := retryCount, err := some err, state := s1,
      trace := [Event.NewObject key] }
  | (.ok objHandle, s1) =>
    match objHandle.Exists s1 with
    | ((ok, some err), s2) =>
      { blobData := none, retryCount := retryCount, err := some err, state := s2,
        trace := [Event.NewObject key, Event.Exists ok (some err)] }
    | ((false, none), s2) =>
      { blobData := none, retryCount := retryCount, err := some Error.ErrENOENT,
        state := s2, trace := [Event.NewObject key, Event.Exists false none] }
    | ((true, none), s2) =>
      let r := objHandle.Read s2
      let v0 : ReadBlob σ :=
        { blobData := r.1.1, retryCount := retryCount, err := r.1.2, state := r.2,
          trace := [Event.NewObject key, Event.Exists true none, Event.Read r.1.1 r.1.2] }
      let v1 := retryRead objHandle
        ("Retrying getBlob " ++ key ++ " in store " ++ client.String ++ "\n") none v0
      let v2 := retryRead objHandle
        ("Retrying 500 ms delayed getBlob " ++ key ++ " in store " ++ client.String ++ "\n")
        (some (500 * Millisecond)) v1
      let v3 := retryRead objHandle
        ("Retrying 2 s delayed getBlob " ++ key ++ " in store " ++ client.String ++ "\n")
        (some (2 * Second)) v2
      match v3.err with
      | some err => { v3 with blobData := none, err := some err }
      | none => v3

/-! ## Observers on traces -/

/-- The results of the `Read` calls of a trace, in order. -/
def reads : List Event → List (Option Bytes × Option Error)
  | [] => []
  | Event.Read d e :: t => (d, e) :: reads t
  | _ :: t => reads t

/-- The durations of the `time.Sleep` calls of a trace, in order. -/
def sleeps : List Event → List Duration
  | [] => []
  | Event.Sleep d :: t => d :: sleeps t
  | _ :: t => sleeps t

/-- A `Read` or a `Sleep`, without the result of the `Read`. -/
inductive Step where
  | read
  | sleep (d : Duration)
  deriving DecidableEq, Repr

/-- The `Read` and `Sleep` calls of a trace, in order. -/
def schedule : List Event → List Step
  | [] => []
  | Event.Read _ _ :: t => Step.read :: schedule t
  | Event.Sleep d :: t => Step.sleep d :: schedule t
  | _ :: t => schedule t

/-- The results of `n` successive `Read` calls on an object, from state `s`. -/
def readResponses {σ : Type} (obj : BlobObject σ) : Nat → σ → List (Option Bytes × Option Error)
  | 0, _ => []
  | n + 1, s => (obj.Read s).1 :: readResponses obj n (obj.Read s).2

/-! ## Test doubles for `readBlobWithRetry` -/

/-- An object handle over a script of `Read` results: the state is the list
of results still to be given; a `Read` past the end of the script fails
with `fallback`.  `Exists` answers `present`. -/
def scriptedObject (present : Bool) (fallback : Error) :
    BlobObject (List (Option Bytes × Option Error)) where
  Exists := fun s => ((present, none), s)
  LockWriteVersion := fun s => ((false, none), s)
  Read := fun s =>
    match s with
    | [] => ((none, some fallback), [])
    | r :: rest => (r, rest)
  Write := fun _ s => ((true, none), s)
  Delete := fun s => (none, s)

/-- A client whose every object is `scriptedObject present fallback`. -/
def scriptedClient (present : Bool) (fallback : Error) :
    BlobClient (List (Option Bytes × Option Error)) where
  NewObject := fun _ s => (.ok (scriptedObject present fallback), s)
  GetObjects := fun _ s => (([], none), s)
  SupportsLocking := false
  String := "scripted"
  Close := fun s => s

/-- A client for the examples that fails before any `Read`: `NewObject`
fails with `newErr` when that is set, otherwise the handle it returns
answers `Exists` with `(ok, existsErr)`. -/
def brokenClient (newErr : Option Error) (ok : Bool) (existsErr : Error) :
    BlobClient Unit where
  NewObject := fun _ s =>
    match newErr with
    | some err => (.error err, s)
    | none =>
      (.ok { Exists := fun s => ((ok, some existsErr), s)
             LockWriteVersion := fun s => ((false, none), s)
             Read := fun s => ((some [], none), s)
             Write := fun _ s => ((true, none), s)
             Delete := fun s => (none, s) }, s)
  GetObjects := fun _ s => (([], none), s)
  SupportsLocking := false
  String := "broken"
  Close := fun s => s

/-- The error that `s3BlobObject.Read` returns for a missing key:
`os.ErrNotExist` wrapped twice (s3Store.go:128-129). -/
def notExistError : Error :=
  Error.Wrap (Error.Wrap Error.ErrNotExist "NoSuchKey") "s3BlobObject.Read()"

/-! ## s3Store.go

The S3 SDK client is a collaborator: its five operations are state passing
over an arbitrary state `σ` of the S3 service.  Go strings are sequences of
characters here; `s[i:]` drops the first `i` of them. -/

/-- `url.URL`, the fields that the code reads. -/
structure URL where
  Scheme : String
  Host : String
  Path : String
  deriving DecidableEq, Repr

/-- `S3Options` (s3Store.go:18-20) -/
structure S3Options where
  EndpointResolverURI : String
  deriving DecidableEq, Repr

/-- `s3BlobStore` (s3Store.go:22-26).  The field `prefix` is `pfx`. -/
structure s3BlobStore where
  bucketName : String
  pfx : String
  options : S3Options
  deriving DecidableEq, Repr

/-- `types.Object` of a listing, the fields that the code reads. -/
structure S3Object where
  Key : String
  Size : Int
  deriving DecidableEq, Repr

/-- `s3.ListObjectsV2Output`: the objects of one response page, and whether
the listing goes on after this page. -/
structure ListObjectsV2Output where
  Contents : List S3Object
  IsTruncated : Bool
  deriving DecidableEq, Repr

/-- The operations of `*s3.Client` that s3Store.go calls, each with the
bucket and the key (or key prefix) of its input.  `GetObject` gives the
body as `ioutil.ReadAll(result.Body)` returns it. -/
structure S3API (σ : Type) where
  /-- `GetObject(ctx, &s3.GetObjectInput{Bucket, Key})` -/
  GetObject : String → String → σ → Except Error (Bytes × Option Error) × σ
  /-- `HeadObject(ctx, &s3.HeadObjectInput{Bucket, Key})` -/
  HeadObject : String → String → σ → Option Error × σ
  /-- `PutObject(ctx, &s3.PutObjectInput{Bucket, Key, Body})` -/
  PutObject : String → String → Bytes → σ → Option Error × σ
  /-- `DeleteObject(ctx, &s3.DeleteObjectInput{Bucket, Key})` -/
  DeleteObject : String → String → σ → Option Error × σ
  /-- `ListObjectsV2(ctx, &s3.ListObjectsV2Input{Bucket, Prefix})` -/
  ListObjectsV2 : String → String → σ → Except Error ListObjectsV2Output × σ

/-- `s3BlobClient` (s3Store.go:28-32) -/
structure s3BlobClient (σ : Type) where
  store : s3BlobStore
  client : S3API σ

/-- `s3BlobObject` (s3Store.go:34-38) -/
structure s3BlobObject (σ : Type) where
  client : s3BlobClient σ
  path : String

/-- Go `s[i:]`; `none` is the run-time panic for `i > len(s)`. -/
def sliceFrom (s : String) (i : Nat) : Option String :=
  if i ≤ s.length then some (String.mk (s.data.drop i)) else none

/-- `NewS3BlobStore` (s3Store.go:41-60).  Each option is a function on the
options of the store. -/
def NewS3BlobStore (u : URL) (opts : List (S3Options → S3Options)) :
    Except Error s3BlobStore :=
  if u.Scheme ≠ "s3" then
    .error (Error.Wrap
      (Error.Other ("invalid scheme \x27" ++ u.Scheme ++ "\x27, expected \x27gs\x27"))
      "NewS3BlobStore")
  else
    let pfx := u.Path
    let pfx := if 0 < u.Path.length then String.mk (u.Path.data.drop 1) else pfx
    let pfx := if pfx ≠ "" then pfx ++ "/" else pfx
    .ok { bucketName := u.Host
          pfx := pfx
          options := opts.foldl (fun o opt => opt o) { EndpointResolverURI := "" } }

/-- `s3BlobStore.NewClient` (s3Store.go:62-74); `cfgErr` is the error of
`config.LoadDefaultConfig`, `client` the client made from the config. -/
def s3BlobStore.NewClient {σ : Type} (blobStore : s3BlobStore) (cfgErr : Option Error)
    (client : S3API σ) : Except Error (s3BlobClient σ) :=
  match cfgErr with
  | some err => .error (Error.Wrap err "s3BlobStore.NewClient")
  | none => .ok { store := blobStore, client := client }

/-- `s3BlobStore.String` (s3Store.go:76-78) -/
def s3BlobStore.String (blobStore : s3BlobStore) : String :=
  "s3://" ++ blobStore.bucketName ++ "/" ++ blobStore.pfx

/-- `s3BlobClient.NewObject` (s3Store.go:80-87) -/
def s3BlobClient.NewObject {σ : Type} (blobClient : s3BlobClient σ) (path : String) :
    Except Error (s3BlobObject σ) :=
  let s3Path := blobClient.store.pfx ++ path
  .ok { client := blobClient, path := s3Path }

/-- `s3BlobClient.GetObjects` (s3Store.go:89-104).  The outer `none` is the
run-time panic of `key[len(prefix):]` on a key shorter than the prefix. -/
def s3BlobClient.GetObjects {σ : Type} (blobClient : s3BlobClient σ) (pathPrefix : String)
    (s : σ) : Option ((List BlobProperties × Option Error) × σ) :=
  match blobClient.client.ListObjectsV2 blobClient.store.bucketName
      (blobClient.store.pfx ++ pathPrefix) s with
  | (.error err, s1) => some (([], some (Error.Wrap err "s3BlobClient.GetObjects")), s1)
  | (.ok output, s1) =>
    (output.Contents.foldl
      (fun (items : Option (List BlobProperties)) object =>
        match items with
        | none => none
        | some items =>
          match sliceFrom object.Key blobClient.store.pfx.length with
          | none => none
          | some itemName => some (items ++ [{ Size := object.Size, Name := itemName }]))
      (some [])).map (fun items => ((items, none), s1))

/-- `s3BlobClient.SupportsLocking` (s3Store.go:106-108) -/
def s3BlobClient.SupportsLocking {σ : Type} (_blobClient : s3BlobClient σ) : Bool :=
  false

/-- `s3BlobClient.String` (s3Store.go:114-116) -/
def s3BlobClient.String {σ : Type} (blobClient : s3BlobClient σ) : String :=
  blobClient.store.String

/-- `s3BlobObject.Read` (s3Store.go:118-139) -/
def s3BlobObject.Read {σ : Type} (blobObject : s3BlobObject σ) (s : σ) :
    (Option Bytes × Option Error) × σ :=
  match blobObject.client.client.GetObject blobObject.client.store.bucketName
      blobObject.path s with
  | (.error err, s1) =>
    if err.AsNoSuchKey then
      ((none, some (Error.Wrap (Error.WrapfErr Error.ErrNotExist "%v" err)
        "s3BlobObject.Read()")), s1)
    else ((none, some err), s1)
  | (.ok (_, some err), s1) => ((none, some (Error.Wrap err "s3BlobObject.Read()")), s1)
  | (.ok (data, none), s1) => ((some data, none), s1)

/-- `s3BlobObject.LockWriteVersion` (s3Store.go:141-143) -/
def s3BlobObject.LockWriteVersion {σ : Type} (_blobObject : s3BlobObject σ) (s : σ) :
    (Bool × Option Error) × σ :=
  ((false, none), s)

/-- `s3BlobObject.Exists` (s3Store.go:145-160) -/
def s3BlobObject.Exists {σ : Type} (blobObject : s3BlobObject σ) (s : σ) :
    (Bool × Option Error) × σ :=
  match blobObject.client.client.HeadObject blobObject.client.store.bucketName
      blobObject.path s with
  | (some err, s1) =>
    if err.AsNotFound then ((false, none), s1)
    else ((false, some (Error.Wrap err "s3BlobObject.Exists()")), s1)
  | (none, s1) => ((true, none), s1)

/-- `s3BlobObject.Write` (s3Store.go:162-174) -/
def s3BlobObject.Write {σ : Type} (blobObject : s3BlobObject σ) (data : Bytes) (s : σ) :
    (Bool × Option Error) × σ :=
  match blobObject.client.client.PutObject blobObject.client.store.bucketName
      blobObject.path data s with
  | (some err, s1) => ((true, some (Error.Wrap err "s3BlobObject.Write()")), s1)
  | (none, s1) => ((true, none), s1)

/-- `s3BlobObject.Delete` (s3Store.go:176-187) -/
def s3BlobObject.Delete {σ : Type} (blobObject : s3BlobObject σ) (s : σ) : Option Error × σ :=
  match blobObject.client.client.DeleteObject blobObject.client.store.bucketName
      blobObject.path s with
  | (some err, s1) => (some (Error.Wrap err "s3BlobObject.Delete()"), s1)
  | (none, s1) => (none, s1)

/-- `s3BlobObject.String` (s3Store.go:189-191) -/
def s3BlobObject.String {σ : Type} (blobObject : s3BlobObject σ) : String :=
  blobObject.client.String ++ "/" ++ blobObject.path

/-- An S3 service for the examples: the state is the list of the objects
of the one bucket `bucket`; an operation on another bucket fails, a missing
key is `NoSuchKey` for `GetObject` and `NotFound` for `HeadObject`, and
`PutObject` fails with `putError` when that is set. -/
def listS3 (bucket : String) (putError : Option Error) : S3API (List (String × Bytes)) where
  GetObject := fun b key s =>
    if b ≠ bucket then (.error (Error.Other "NoSuchBucket"), s)
    else
      match s.lookup key with
      | some data => (.ok (data, none), s)
      | none => (.error (Error.Wrap (Error.NoSuchKey key) "operation error S3: GetObject"), s)
  HeadObject := fun b key s =>
    if b ≠ bucket then (some (Error.Other "NoSuchBucket"), s)
    else
      match s.lookup key with
      | some _ => (none, s)
      | none => (some (Error.Wrap (Error.NotFound key) "operation error S3: HeadObject"), s)
  PutObject := fun b key data s =>
    if b ≠ bucket then (some (Error.Other "NoSuchBucket"), s)
    else
      match putError with
      | some err => (some err, s)
      | none => (none, (key, data) :: s.filter (fun kv => decide (kv.1 ≠ key)))
  DeleteObject := fun b key s =>
    if b ≠ bucket then (some (Error.Other "NoSuchBucket"), s)
    else (none, s.filter (fun kv => decide (kv.1 ≠ key)))
  ListObjectsV2 := fun b keyPrefix s =>
    if b ≠ bucket then (.error (Error.Other "NoSuchBucket"), s)
    else
      (.ok { Contents := (s.filter (fun kv => keyPrefix.data.isPrefixOf kv.1.data)).map
               (fun kv => { Key := kv.1, Size := (kv.2.length : Int) })
             IsTruncated := false }, s)

/-- The S3 service of `listS3` with the page limit of `ListObjectsV2`: one
response holds at most `maxKeys` keys (1000 for the service, the request
of s3Store.go:90-94 sets no `MaxKeys`), and `IsTruncated` tells that more
keys match. -/
def pagedS3 (bucket : String) (maxKeys : Nat) : S3API (List (String × Bytes)) where
  GetObject := (listS3 bucket none).GetObject
  HeadObject := (listS3 bucket none).HeadObject
  PutObject := (listS3 bucket none).PutObject
  DeleteObject := (listS3 bucket none).DeleteObject
  ListObjectsV2 := fun b keyPrefix s =>
    if b ≠ bucket then (.error (Error.Other "NoSuchBucket"), s)
    else
      let matching := s.filter (fun kv => keyPrefix.data.isPrefixOf kv.1.data)
      (.ok { Contents := (matching.take maxKeys).map
               (fun kv => { Key := kv.1, Size := (kv.2.length : Int) })
             IsTruncated := decide (maxKeys < matching.length) }, s)

/-- A bucket of `n` objects `chunks/0`, `chunks/1`, ... for the examples. -/
def chunkObjects (n : Nat) : List (String × Bytes) :=
  (List.range n).map (fun i => ("chunks/" ++ toString i, []))

/-! ## blobStore.go: URIs

`url.Parse` of the Go library and the constructors `NewGCSBlobStore` and
`NewFSBlobStore`, whose files are not part of the sources at hand, are the
fields of a `Backends`; `β` is the type of the stores, `BlobStore σ` where
the store is used. -/

/-- What `createBlobStoreForURI` calls outside blobStore.go and
s3Store.go. -/
structure Backends (β : Type) where
  /-- `url.Parse(rawURL string) (*URL, error)` -/
  Parse : String → Except Error URL
  /-- `NewGCSBlobStore(u *url.URL, defaultHashes bool) (BlobStore, error)` -/
  NewGCSBlobStore : URL → Bool → Except Error β
  /-- `NewFSBlobStore(prefix string) (BlobStore, error)` -/
  NewFSBlobStore : String → Except Error β
  /-- A `*s3BlobStore` as a `BlobStore` value. -/
  ofS3 : s3BlobStore → β

/-- `createBlobStoreForURI` (blobStore.go:65-83).  `none` is the run-time
panic of `blobStoreURL.Path[1:]`. -/
def createBlobStoreForURI {β : Type} (bk : Backends β) (uri : String) :
    Option (Except Error β) :=
  match bk.Parse uri with
  | .ok blobStoreURL =>
    if blobStoreURL.Scheme = "gs" then
      some (bk.NewGCSBlobStore blobStoreURL false)
    else if blobStoreURL.Scheme = "s3" then
      some ((NewS3BlobStore blobStoreURL []).map bk.ofS3)
    else if blobStoreURL.Scheme = "abfs" then
      some (.error (Error.Other "azure Gen1 storage not yet implemented"))
    else if blobStoreURL.Scheme = "abfss" then
      some (.error (Error.Other "azure Gen2 storage not yet implemented"))
    else if blobStoreURL.Scheme = "file" then
      match sliceFrom blobStoreURL.Path 1 with
      | some path => some (bk.NewFSBlobStore path)
      | none => none
    else some (bk.NewFSBlobStore uri)
  | .error _ => some (bk.NewFSBlobStore uri)

/-- `strings.LastIndex(s, sep)` for a separator of one character, on the
characters of `s`; `none` is the result `-1`.  The two separators of
`splitURI` are ASCII characters, which stand for themselves in UTF-8, so a
split of the characters is the split of the bytes. -/
def LastIndex (sep : Char) : List Char → Option Nat
  | [] => none
  | c :: rest =>
    match LastIndex sep rest with
    | some i => some (i + 1)
    | none => if c = sep then some 0 else none

/-- Go `s[:i]`; `none` is the run-time panic for `i > len(s)`. -/
def sliceTo (s : String) (i : Nat) : Option String :=
  if i ≤ s.length then some (String.mk (s.data.take i)) else none

/-- `splitURI` (blobStore.go:85-94).  `none` is the run-time panic of a
slice expression out of range. -/
def splitURI (uri : String) : Option (String × String) :=
  let i := LastIndex '/' uri.data
  let i := if i = none then LastIndex '\\' uri.data else i
  match i with
  | none => some ("", uri)
  | some i =>
    match sliceTo uri i, sliceFrom uri (i + 1) with
    | some uriParent, some uriName => some (uriParent, uriName)
    | _, _ => none

/-- `ReadFromURI` (blobStore.go:97-117).  `none` is a run-time panic; the
deferred `client.Close()` runs on every return after `NewClient`. -/
def ReadFromURI {σ : Type} (bk : Backends (BlobStore σ)) (uri : String) (s : σ) :
    Option ((Option Bytes × Option Error) × σ) :=
  match splitURI uri with
  | none => none
  | some (uriParent, uriName) =>
    match createBlobStoreForURI bk uriParent with
    | none => none
    | some (.error err) => some ((none, some err), s)
    | some (.ok blobStore) =>
      match blobStore.NewClient s with
      | (.error err, s1) => some ((none, some err), s1)
      | (.ok client, s1) =>
        match client.NewObject uriName s1 with
        | (.error err, s2) => some ((none, some err), client.Close s2)
        | (.ok object, s2) =>
          match object.Read s2 with
          | ((_, some err), s3) => some ((none, some err), client.Close s3)
          | ((vbuffer, none), s3) => some ((vbuffer, none), client.Close s3)

/-- `WriteToURI` (blobStore.go:120-140).  `none` is a run-time panic; the
boolean of `Write` is dropped. -/
def WriteToURI {σ : Type} (bk : Backends (BlobStore σ)) (uri : String) (data : Bytes)
    (s : σ) : Option (Option Error × σ) :=
  match splitURI uri with
  | none => none
  | some (uriParent, uriName) =>
    match createBlobStoreForURI bk uriParent with
    | none => none
    | some (.error err) => some (some err, s)
    | some (.ok blobStore) =>
      match blobStore.NewClient s with
      | (.error err, s1) => some (some err, s1)
      | (.ok client, s1) =>
        match client.NewObject uriName s1 with
        | (.error err, s2) => some (some err, client.Close s2)
        | (.ok object, s2) =>
          match object.Write data s2 with
          | ((_, some err), s3) => some (some err, client.Close s3)
          | ((_, none), s3) => some (none, client.Close s3)

/-- The results of `url.Parse` for the URIs of the examples; another
string is taken as a bare path. -/
def parseExamples (uri : String) : Except Error URL :=
  if uri = "s3://bucket/path/" then .ok { Scheme := "s3", Host := "bucket", Path := "/path/" }
  else if uri = "s3://bucket/path" then .ok { Scheme := "s3", Host := "bucket", Path := "/path" }
  else if uri = "gs://bucket/path" then .ok { Scheme := "gs", Host := "bucket", Path := "/path" }
  else if uri = "file:///tmp/store" then .ok { Scheme := "file", Host := "", Path := "/tmp/store" }
  else if uri = "file://host" then .ok { Scheme := "file", Host := "host", Path := "" }
  else if uri = "file:" then .ok { Scheme := "file", Host := "", Path := "" }
  else if uri = "abfs://account/path" then
    .ok { Scheme := "abfs", Host := "account", Path := "/path" }
  else if uri = "abfss://account/path" then
    .ok { Scheme := "abfss", Host := "account", Path := "/path" }
  else if uri = "fsblob://test/storage" then
    .ok { Scheme := "fsblob", Host := "test", Path := "/storage" }
  else if uri = "%zz" then .error (Error.Other "invalid URL escape")
  else .ok { Scheme := "", Host := "", Path := uri }

/-- The stores of the examples, by kind and root. -/
inductive StoreKind where
  | s3 (store : s3BlobStore)
  | gcs (u : URL)
  | fs (root : String)

/-- Backends that return the kind of the store that was asked for. -/
def kindBackends : Backends StoreKind where
  Parse := parseExamples
  NewGCSBlobStore := fun u _ => .ok (StoreKind.gcs u)
  NewFSBlobStore := fun root => .ok (StoreKind.fs root)
  ofS3 := StoreKind.s3

/-! ## cmd/longtail/cmd_upsync.go

`upsync` calls collaborators of other packages; what they return is given
by an `UpsyncEnv`, and every call is recorded in a trace; the constructors
of helper objects and the deferred `Dispose` calls are left out.  The
statistics are the names of the entries, without the measured times. -/

/-- The calls of `upsync` to its collaborators. -/
inductive UpsyncCall where
  /-- `longtailutils.MakeRegexPathFilter` -/
  | MakeRegexPathFilter
  /-- `sourceFolderScanner.scan` -/
  | Scan
  /-- `getCompressionType` -/
  | GetCompressionType
  /-- `getHashIdentifier` -/
  | GetHashIdentifier
  /-- `sourceIndexReader.read` -/
  | ReadSourceIndex
  /-- `createBlockStoreForURI(blobStoreURI, ...)` -/
  | CreateBlockStoreForURI (uri : String)
  /-- `sourceIndexReader.get` -/
  | GetSourceIndex
  /-- `longtailutils.GetExistingStoreIndexSync` -/
  | GetExistingStoreIndexSync
  /-- `longtaillib.CreateMissingContent` -/
  | CreateMissingContent
  /-- `longtaillib.WriteContent` -/
  | WriteContent
  /-- `longtailutils.FlushStoresSync` -/
  | FlushStoresSync
  /-- `GetStats` of the named store -/
  | GetStats (store : String)
  /-- `longtaillib.WriteVersionIndexToBuffer` -/
  | WriteVersionIndexToBuffer
  /-- `longtailstorelib.WriteToURI(uri, ...)` -/
  | WriteToURI (uri : String)
  /-- `longtaillib.MergeStoreIndex` -/
  | MergeStoreIndex
  /-- `longtaillib.WriteStoreIndexToBuffer` -/
  | WriteStoreIndexToBuffer
  /-- `ioutil.TempFile` -/
  | TempFile
  /-- `v.WriteConfigAs` -/
  | WriteConfigAs
  /-- `ioutil.ReadFile` -/
  | ReadFile
  /-- `os.Remove` -/
  | Remove
  deriving DecidableEq, Repr

/-- What the collaborators of `upsync` return in one run: an `error`, or an
errno, or a count.  `ErrnoToError` is `longtaillib.ErrnoToError`. -/
structure UpsyncEnv where
  MakeRegexPathFilter : Option Error
  getCompressionType : Option Error
  getHashIdentifier : Option Error
  createBlockStoreForURI : Option Error
  sourceIndexReaderGet : Option Error
  GetExistingStoreIndexSync : Int
  CreateMissingContent : Int
  GetBlockCount : Nat
  WriteContent : Int
  FlushStoresSync : Int
  indexStoreGetStats : Int
  remoteStoreGetStats : Int
  WriteVersionIndexToBuffer : Int
  WriteToURITarget : Option Error
  MergeStoreIndex : Int
  WriteStoreIndexToBuffer : Int
  WriteToURIVersionLocalStoreIndex : Option Error
  TempFile : Option Error
  tmpFilePath : String
  WriteConfigAs : Option Error
  ReadFile : Option Error
  WriteToURIGetConfig : Option Error
  ErrnoToError : Int → Error → Option Error

/-- The arguments of `upsync` that `upsync` itself looks at. -/
structure UpsyncArgs where
  blobStoreURI : String
  sourceFolderPath : String
  sourceIndexPath : String
  targetFilePath : String
  versionLocalStoreIndexPath : String
  getConfigPath : String
  deriving DecidableEq, Repr

/-- The results `(storeStats, timeStats, err)` of `upsync`, with the trace
of its calls. -/
structure UpsyncResult where
  storeStats : List String
  timeStats : List String
  err : Option Error
  trace : List UpsyncCall
  deriving DecidableEq, Repr

/-- Records a call. -/
def UpsyncResult.call (r : UpsyncResult) (c : UpsyncCall) : UpsyncResult :=
  { r with trace := r.trace ++ [c] }

/-- `timeStats = append(timeStats, longtailutils.TimeStat{name, ...})` -/
def UpsyncResult.time (r : UpsyncResult) (name : String) : UpsyncResult :=
  { r with timeStats := r.timeStats ++ [name] }

/-- `storeStats = append(storeStats, longtailutils.StoreStat{name, ...})` -/
def UpsyncResult.stat (r : UpsyncResult) (name : String) : UpsyncResult :=
  { r with storeStats := r.storeStats ++ [name] }

/-- `return storeStats, timeStats, err` -/
def UpsyncResult.ret (r : UpsyncResult) (err : Option Error) : UpsyncResult :=
  { r with err := err }

/-- `upsync`, the block `if getConfigPath != ""` and the final return
(cmd_upsync.go:194-230). -/
def upsyncWriteGetConfig (env : UpsyncEnv) (args : UpsyncArgs) (r : UpsyncResult) :
    UpsyncResult :=
  if args.getConfigPath ≠ "" then
    let r := r.call UpsyncCall.TempFile
    match env.TempFile with
    | some err => r.ret (Wrapf (some err) "upsync: ioutil.TempFile() failed" [])
    | none =>
      let r := r.call UpsyncCall.WriteConfigAs
      match env.WriteConfigAs with
      | some err => r.ret (Wrapf (some err) "upsync: v.WriteConfigAs() failed" [])
      | none =>
        let r := r.call UpsyncCall.ReadFile
        match env.ReadFile with
        | some err =>
          r.ret (Wrapf (some err) "upsync: ioutil.ReadFile(%s) failed" [env.tmpFilePath])
        | none =>
          let r := (r.call UpsyncCall.Remove).call (UpsyncCall.WriteToURI args.getConfigPath)
          match env.WriteToURIGetConfig with
          | some err =>
            r.ret (Wrapf (some err) "upsync: longtailstorelib.WriteToURI(%s) failed"
              [args.getConfigPath])
          | none => (r.time "Write get config").ret none
  else r.ret none

/-- `upsync`, the block `if versionLocalStoreIndexPath != ""`
(cmd_upsync.go:175-192), and what follows it. -/
def upsyncWriteVersionLocalStoreIndex (env : UpsyncEnv) (args : UpsyncArgs)
    (r : UpsyncResult) : UpsyncResult :=
  if args.versionLocalStoreIndexPath ≠ "" then
    let r := r.call UpsyncCall.MergeStoreIndex
    if env.MergeStoreIndex ≠ 0 then
      r.ret (Wrapf (env.ErrnoToError env.MergeStoreIndex Error.ErrENOMEM)
        "upsync: longtaillib.MergeStoreIndex() failed" [])
    else
      let r := r.call UpsyncCall.WriteStoreIndexToBuffer
      if env.WriteStoreIndexToBuffer ≠ 0 then
        r.ret (Wrapf (env.ErrnoToError env.WriteStoreIndexToBuffer Error.ErrENOMEM)
          "upsync: longtaillib.WriteStoreIndexToBuffer() failed" [])
      else
        let r := r.call (UpsyncCall.WriteToURI args.versionLocalStoreIndexPath)
        match env.WriteToURIVersionLocalStoreIndex with
        | some err => r.ret (Wrapf (some err) "upsync: longtailstorelib.WriteToURL() failed" [])
        | none => upsyncWriteGetConfig env args (r.time "Write version store index")
  else upsyncWriteGetConfig env args r

/-- `upsync`, the statistics of the stores and the write of the version
index to `targetFilePath` (cmd_upsync.go:153-173), and what follows. -/
def upsyncWriteVersionIndex (env : UpsyncEnv) (args : UpsyncArgs) (r : UpsyncResult) :
    UpsyncResult :=
  let r := r.call (UpsyncCall.GetStats "indexStore")
  let r := if env.indexStoreGetStats = 0 then r.stat "Compress" else r
  let r := r.call (UpsyncCall.GetStats "remoteStore")
  let r := if env.remoteStoreGetStats = 0 then r.stat "Remote" else r
  let r := r.call UpsyncCall.WriteVersionIndexToBuffer
  if env.WriteVersionIndexToBuffer ≠ 0 then
    r.ret (Wrapf (env.ErrnoToError env.WriteVersionIndexToBuffer Error.ErrEIO)
      "upsync: longtaillib.WriteVersionIndexToBuffer() failed" [])
  else
    let r := r.call (UpsyncCall.WriteToURI args.targetFilePath)
    match env.WriteToURITarget with
    | some err =>
      r.ret (Wrapf (some err) "upsync: longtaillib.longtailstorelib.WriteToURL() failed" [])
    | none => upsyncWriteVersionLocalStoreIndex env args (r.time "Write version index")

/-- `upsync`, the flush of the stores (cmd_upsync.go:139-151), and what
follows. -/
def upsyncFlush (env : UpsyncEnv) (args : UpsyncArgs) (r : UpsyncResult) : UpsyncResult :=
  let r := r.call UpsyncCall.FlushStoresSync
  if env.FlushStoresSync ≠ 0 then
    r.ret (Wrapf (env.ErrnoToError env.FlushStoresSync Error.ErrEIO)
      "longtailutils.FlushStoresSync: Failed for \x60%v\x60" ["stores"])
  else upsyncWriteVersionIndex env args (r.time "Flush")

/-- `upsync`, the write of the missing content (cmd_upsync.go:119-137), and
what follows. -/
def upsyncWriteContent (env : UpsyncEnv) (args : UpsyncArgs) (r : UpsyncResult) :
    UpsyncResult :=
  if 0 < env.GetBlockCount then
    let r := r.call UpsyncCall.WriteContent
    if env.WriteContent ≠ 0 then
      r.ret (Wrapf (env.ErrnoToError env.WriteContent Error.ErrEIO)
        "upsync: longtaillib.WriteContent(%s) failed" [args.sourceFolderPath])
    else upsyncFlush env args (r.time "Write version content")
  else upsyncFlush env args (r.time "Write version content")

/-- `upsync`, the existing and the missing content (cmd_upsync.go:98-117),
and what follows. -/
def upsyncGetMissingContent (env : UpsyncEnv) (args : UpsyncArgs) (r : UpsyncResult) :
    UpsyncResult :=
  let r := r.call UpsyncCall.GetExistingStoreIndexSync
  if env.GetExistingStoreIndexSync ≠ 0 then
    r.ret (Wrapf (env.ErrnoToError env.GetExistingStoreIndexSync Error.ErrEIO)
      "upsync: longtailutils.GetExistingStoreIndexSync(%s) failed" [args.blobStoreURI])
  else
    let r := r.call UpsyncCall.CreateMissingContent
    if env.CreateMissingContent ≠ 0 then
      r.ret (Wrapf (env.ErrnoToError env.CreateMissingContent Error.ErrEIO)
        "upsync: longtaillib.CreateMissingContent(%s) failed" [args.sourceFolderPath])
    else upsyncWriteContent env args (r.time "Get content index")

/-- `upsync` (cmd_upsync.go:16-230), from its start to the read of the
source index (lines 36-96), and what follows. -/
def upsync (env : UpsyncEnv) (args : UpsyncArgs) : UpsyncResult :=
  let r : UpsyncResult := { storeStats := [], timeStats := [], err := none, trace := [] }
  let r := r.call UpsyncCall.MakeRegexPathFilter
  match env.MakeRegexPathFilter with
  | some err => r.ret (some err)
  | none =>
    let r := if args.sourceIndexPath = "" then r.call UpsyncCall.Scan else r
    let r := r.call UpsyncCall.GetCompressionType
    match env.getCompressionType with
    | some err => r.ret (some err)
    | none =>
      let r := r.call UpsyncCall.GetHashIdentifier
      match env.getHashIdentifier with
      | some err => r.ret (some err)
      | none =>
        let r := (r.time "Setup").call UpsyncCall.ReadSourceIndex
        let r := r.call (UpsyncCall.CreateBlockStoreForURI args.blobStoreURI)
        match env.createBlockStoreForURI with
        | some err => r.ret (some err)
        | none =>
          let r := r.call UpsyncCall.GetSourceIndex
          match env.sourceIndexReaderGet with
          | some err => r.ret (some err)
          | none => upsyncGetMissingContent env args (r.time "Read source index")

/-- An environment for the examples in which every collaborator succeeds,
one block is missing, and `ErrnoToError` gives nil for 0 and the fallback
error for every other errno. -/
def okEnv : UpsyncEnv :=
  { MakeRegexPathFilter := none
    getCompressionType := none
    getHashIdentifier := none
    createBlockStoreForURI := none
    sourceIndexReaderGet := none
    GetExistingStoreIndexSync := 0
    CreateMissingContent := 0
    GetBlockCount := 1
    WriteContent := 0
    FlushStoresSync := 0
    indexStoreGetStats := 0
    remoteStoreGetStats := 0
    WriteVersionIndexToBuffer := 0
    WriteToURITarget := none
    MergeStoreIndex := 0
    WriteStoreIndexToBuffer := 0
    WriteToURIVersionLocalStoreIndex := none
    TempFile := none
    tmpFilePath := "/tmp/longtail-1"
    WriteConfigAs := none
    ReadFile := none
    WriteToURIGetConfig := none
    ErrnoToError := fun errno fallback => if errno = 0 then none else some fallback }

/-- The arguments of the upsync of `TestUpsyncWithBrokenLSI`. -/
def brokenLSIArgs : UpsyncArgs :=
  { blobStoreURI := "fsblob://test/storage"
    sourceFolderPath := "test/version/v1"
    sourceIndexPath := ""
    targetFilePath := "fsblob://test/index/v1.lvi"
    versionLocalStoreIndexPath := "fsblob://test/index/v1.lsi"
    getConfigPath := "" }

/-! ## The remote block store

The implementation of `NewRemoteBlockStore`, of the block path function and
of the in-memory blob store `NewTestBlobStore` is in other files of the
package; `remotestore_test.go` exercises them.  They are modelled here from
the specification, and from what the tests show where the tests say more. -/

/-- Modelled from the spec: `ChunkHash`, a 64-bit content fingerprint (§3). -/
abbrev ChunkHash := Nat

/-- Modelled from the spec: `BlockHash`, a 64-bit block identifier (§3). -/
abbrev BlockHash := Nat

/-- Modelled from the spec: `Chunk`, `(ChunkHash, size, bytes)` (§3). -/
structure Chunk where
  hash : ChunkHash
  size : Nat
  bytes : Bytes
  deriving DecidableEq, Repr

/-- Modelled from the spec: `StoredBlock`, the header `(BlockHash,
HashIdentifier, tag, compression_id)` and the ordered list of chunks (§3). -/
structure StoredBlock where
  blockHash : BlockHash
  hashIdentifier : Nat
  tag : Nat
  compressionId : Nat
  chunks : List Chunk
  deriving DecidableEq, Repr

/-- Modelled from the spec: one entry of the `StoreIndex` mapping,
`BlockHash → (tag, HashIdentifier, chunk hashes, chunk sizes)` (§3). -/
structure BlockIndexEntry where
  blockHash : BlockHash
  tag : Nat
  hashIdentifier : Nat
  chunkHashes : List ChunkHash
  chunkSizes : List Nat
  deriving DecidableEq, Repr

/-- Modelled from the spec: the index entry (block header) of a stored block. -/
def StoredBlock.indexEntry (b : StoredBlock) : BlockIndexEntry :=
  { blockHash := b.blockHash
    tag := b.tag
    hashIdentifier := b.hashIdentifier
    chunkHashes := b.chunks.map (fun c => c.hash)
    chunkSizes := b.chunks.map (fun c => c.size) }

/-- Modelled from the spec: `StoreIndex` (§3), the entries in ascending
order of `BlockHash`, the stable order of the serialized form. -/
abbrev StoreIndex := List BlockIndexEntry

/-- Modelled from the spec: `block_hashes()` of a `StoreIndex` (§4.B). -/
def StoreIndex.blockHashes (a : StoreIndex) : List BlockHash :=
  a.map (fun e => e.blockHash)

/-- Modelled from the spec: `block_count()` of a `StoreIndex` (§4.B). -/
def StoreIndex.blockCount (a : StoreIndex) : Nat := a.length

/-- Modelled from the spec: `chunk_hashes()` of a `StoreIndex` (§4.B), the
chunk hashes of all blocks concatenated in block order. -/
def StoreIndex.chunkHashes (a : StoreIndex) : List ChunkHash :=
  a.flatMap (fun e => e.chunkHashes)

/-- Modelled from the spec: `chunk_count()` of a `StoreIndex` (§4.B). -/
def StoreIndex.chunkCount (a : StoreIndex) : Nat := (StoreIndex.chunkHashes a).length

/-- Modelled from the spec: the invariant of a `StoreIndex` (§3), no
`BlockHash` twice, entries ascending by `BlockHash`. -/
def StoreIndex.Valid (a : StoreIndex) : Prop :=
  (StoreIndex.blockHashes a).Pairwise (fun x y => x < y)

/-- Modelled from the spec: adding one entry to a `StoreIndex`; an entry
whose `BlockHash` is already there is dropped (§3: merging with an
existing hash is a no-op). -/
def StoreIndex.insert (e : BlockIndexEntry) : StoreIndex → StoreIndex
  | [] => [e]
  | x :: xs =>
    if e.blockHash < x.blockHash then e :: x :: xs
    else if e.blockHash = x.blockHash then x :: xs
    else x :: StoreIndex.insert e xs

/-- Modelled from the spec: `merge(a, b)` (§4.B), union by `BlockHash`; on
collision the entry of `a` wins. -/
def StoreIndex.merge (a : StoreIndex) (b : List BlockIndexEntry) : StoreIndex :=
  b.foldl (fun acc e => StoreIndex.insert e acc) a

/-- Modelled from the spec: `subtract(a, block_hashes)` (§4.B), remove the
listed blocks. -/
def StoreIndex.subtract (a : StoreIndex) (hs : List BlockHash) : StoreIndex :=
  a.filter (fun e => decide (e.blockHash ∉ hs))

/-! ### ExistingContentResolver (§4.F) -/

/-- Modelled from the spec: `useful(b) = |b.chunks ∩ required|` (§4.F step 2). -/
def useful (required : List ChunkHash) (b : BlockIndexEntry) : Nat :=
  (b.chunkHashes.filter (fun c => decide (c ∈ required))).length

/-- Modelled from the spec: the candidate test of §4.F step 3,
`useful(b) > 0` and `usage(b) * 100 ≥ min_usage%` with
`usage(b) = useful(b) / |b.chunks|`, cleared of the division. -/
def isCandidate (required : List ChunkHash) (minUsagePercent : Nat)
    (b : BlockIndexEntry) : Bool :=
  decide (0 < useful required b) &&
    decide (minUsagePercent * b.chunkHashes.length ≤ useful required b * 100)

/-- Modelled from the spec: the order of the greedy selection (§4.F step
4), `useful(b)` descending, ties by `BlockHash` ascending. -/
def candidateOrder (required : List ChunkHash) (a b : BlockIndexEntry) : Prop :=
  useful required b < useful required a ∨
    (useful required a = useful required b ∧ a.blockHash ≤ b.blockHash)

instance (required : List ChunkHash) : DecidableRel (candidateOrder required) :=
  fun a b => by unfold candidateOrder; exact inferInstance

/-- Modelled from the spec: one step of the greedy selection (§4.F step 4).
The state is the list of selected blocks and the list of covered chunk
hashes; a candidate that still contributes a requested chunk not yet
covered is selected and its chunks are marked covered. -/
def greedyStep (required : List ChunkHash)
    (st : List BlockIndexEntry × List ChunkHash) (b : BlockIndexEntry) :
    List BlockIndexEntry × List ChunkHash :=
  if b.chunkHashes.any (fun c => decide (c ∈ required) && !decide (c ∈ st.2)) then
    (st.1 ++ [b], st.2 ++ b.chunkHashes)
  else st

/-- Modelled from the spec: the blocks selected by the greedy selection
of §4.F step 4, in the order of their selection. -/
def greedySelect (required : List ChunkHash) (minUsagePercent : Nat) (a : StoreIndex) :
    List BlockIndexEntry :=
  (((a.filter (isCandidate required minUsagePercent)).insertionSort
    (candidateOrder required)).foldl (greedyStep required) ([], [])).1

/-- Modelled from the spec: `project(a, chunk_hashes, min_block_usage_percent)`
(§4.B, §4.F step 5), the `StoreIndex` that holds the selected blocks only. -/
def StoreIndex.project (a : StoreIndex) (chunkHashes : List ChunkHash)
    (minUsagePercent : Nat) : StoreIndex :=
  a.filter (fun b => decide (b ∈ greedySelect chunkHashes minUsagePercent a))

/-! ### Block path and block codec -/

/-- Modelled from the spec: the `w` lowercase hex digits of `n`, most
significant first (§6). -/
def hexDigits : Nat → Nat → List Char
  | 0, _ => []
  | w + 1, n => hexDigits w (n / 16) ++ [Nat.digitChar (n % 16)]

/-- Modelled from the spec: `hex(h)`, the lowercase hex of the 64-bit
`BlockHash` padded to 16 digits (§6). -/
def hex (h : BlockHash) : String := String.mk (hexDigits 16 h)

/-- Modelled from the spec: `block_path(h) = "chunks/" + hex(h)[0:4] + "/0x"
+ hex(h) + ".lsb"` (§3), the `getBlockPath("chunks", h)` of the tests. -/
def block_path (h : BlockHash) : String :=
  "chunks/" ++ String.mk ((hex h).data.take 4) ++ "/0x" ++ hex h ++ ".lsb"

/-- Modelled from the spec: the errors of `decode` (§4.C). -/
inductive DecodeError where
  | Malformed
  | UnknownCodec
  | HashMismatch
  deriving DecidableEq, Repr

/-- Modelled from the spec: the `BlockCodec` (§4.C) and the serialized
form of the `StoreIndex` (§4.B), consumed abstractly: `encode`/`decode` of
a stored block and `serialize`/`parse` of a store index (`none` is
`Malformed`). -/
structure Codec where
  encode : StoredBlock → Bytes
  decode : Bytes → Except DecodeError StoredBlock
  serialize : StoreIndex → Bytes
  parse : Bytes → Option StoreIndex

/-! ### The in-memory blob backend of the tests -/

/-- Modelled from the spec: an object of the in-memory test backend
(`NewTestBlobStore`), its content and its version for `lock_write_version`
(§4.A). -/
structure MemBlob where
  generation : Nat
  data : Bytes
  deriving DecidableEq, Repr

/-- Modelled from the spec: the in-memory test backend `NewTestBlobStore(_,
supportsLocking)`, a map from keys to objects (§4.A, component A). -/
structure MemBlobStore where
  blobs : List (String × MemBlob)
  supportsLocking : Bool
  deriving DecidableEq, Repr

/-- Modelled from the spec: the object stored under a key, if any. -/
def lookupBlob (key : String) : List (String × MemBlob) → Option MemBlob
  | [] => none
  | kv :: rest => if kv.1 = key then some kv.2 else lookupBlob key rest

/-- Modelled from the spec: storing `data` under a key, as a new object or
as the next version of the object that is there. -/
def putBlob (key : String) (data : Bytes) : List (String × MemBlob) → List (String × MemBlob)
  | [] => [(key, { generation := 0, data := data })]
  | kv :: rest =>
    if kv.1 = key then (kv.1, { generation := kv.2.generation + 1, data := data }) :: rest
    else kv :: putBlob key data rest

/-- Modelled from the spec: `exists(key)` (§4.A). -/
def MemBlobStore.exists (m : MemBlobStore) (key : String) : Bool :=
  (lookupBlob key m.blobs).isSome

/-- Modelled from the spec: `read(key)` (§4.A); `none` is `NotFound`. -/
def MemBlobStore.read (m : MemBlobStore) (key : String) : Option Bytes :=
  (lookupBlob key m.blobs).map (fun b => b.data)

/-- Modelled from the spec: `write(key, bytes)` (§4.A), unconditional
overwrite. -/
def MemBlobStore.write (m : MemBlobStore) (key : String) (data : Bytes) : MemBlobStore :=
  { m with blobs := putBlob key data m.blobs }

/-- Modelled from the spec: `delete(key)` (§4.A); deleting a key that is
not there changes nothing. -/
def MemBlobStore.delete (m : MemBlobStore) (key : String) : MemBlobStore :=
  { m with blobs := m.blobs.filter (fun kv => decide (kv.1 ≠ key)) }

/-- Modelled from the spec: `list(prefix)` (§4.A), the keys that start
with the prefix, with the size of their object. -/
def MemBlobStore.list (m : MemBlobStore) (pfx : String) : List (String × Nat) :=
  (m.blobs.filter (fun kv => pfx.data.isPrefixOf kv.1.data)).map
    (fun kv => (kv.1, kv.2.data.length))

/-- Modelled from the spec: the token of `lock_write_version` (§4.A), the
version of the object at the time of the lock, `none` when there is no
object. -/
abbrev WriteToken := Option Nat

/-- Modelled from the spec: `lock_write_version(key) → token | None`
(§4.A); `none` when the backend does not support locking. -/
def MemBlobStore.lockWriteVersion (m : MemBlobStore) (key : String) : Option WriteToken :=
  if m.supportsLocking then some ((lookupBlob key m.blobs).map (fun b => b.generation))
  else none

/-- Modelled from the spec: the outcomes of `write_if_unchanged` (§4.A). -/
inductive WriteOutcome where
  | Committed
  | Conflict
  deriving DecidableEq, Repr

/-- Modelled from the spec: `write_if_unchanged(key, bytes, token)` (§4.A),
`Conflict` when the version of the object moved since the lock. -/
def MemBlobStore.writeIfUnchanged (m : MemBlobStore) (key : String) (data : Bytes)
    (token : WriteToken) : WriteOutcome × MemBlobStore :=
  if (lookupBlob key m.blobs).map (fun b => b.generation) = token then
    (WriteOutcome.Committed, m.write key data)
  else (WriteOutcome.Conflict, m)

/-- Modelled from the spec: an object handle of the in-memory test backend
seen through the `BlobObject` interface of blobStore.go; `Read` of a
missing object returns `(nil, nil)` as the interface comment says. -/
def memObject (key : String) : BlobObject MemBlobStore where
  Exists := fun m => ((m.exists key, none), m)
  LockWriteVersion := fun m => ((m.supportsLocking, none), m)
  Read := fun m => ((m.read key, none), m)
  Write := fun data m => ((true, none), m.write key data)
  Delete := fun m => (none, m.delete key)

/-- Modelled from the spec: the client of the in-memory test backend seen
through the `BlobClient` interface of blobStore.go. -/
def memClient (supportsLocking : Bool) : BlobClient MemBlobStore where
  NewObject := fun key m => (.ok (memObject key), m)
  GetObjects := fun pfx m =>
    (((m.list pfx).map (fun kv => { Size := (kv.2 : Int), Name := kv.1 }), none), m)
  SupportsLocking := supportsLocking
  String := "testblob"
  Close := fun s => s

/-! ### RemoteBlockStore (§4.D) -/

/-- Modelled from the spec: the mode of a `RemoteBlockStore` (§4.D). -/
inductive AccessType where
  | Init
  | ReadWrite
  | ReadOnly
  deriving DecidableEq, Repr

/-- Modelled from the spec: the error taxonomy of §7, as far as the store
operations produce it.  The tests read `BlockMissing` as errno `ENOENT` and
`BadBlock` as errno `EBADF`. -/
inductive StoreError where
  | BlockMissing
  | BadBlock
  | UnknownCodec
  | IndexCorrupt
  | Transport
  | FlushContention
  | StoreUninitialized
  | PermissionDenied
  deriving DecidableEq, Repr

/-- Modelled from the spec: the private state of a `RemoteBlockStore`
(§4.D), the in-memory store index, `pending_added` and the mode.  The
backend is passed to every operation and returned by it. -/
structure RemoteBlockStore where
  index : StoreIndex
  pendingAdded : List BlockIndexEntry
  mode : AccessType
  deriving DecidableEq, Repr

/-- Modelled from the spec: the key of the consolidated store index (§3). -/
def storeIndexKey : String := "store.lsi"

/-- Modelled from the spec: the recovery scan of `open` (§4.D), list all
keys under `chunks/`, fetch each block header, reconstruct a `StoreIndex`.
As `TestBlockScanning` shows (remotestore_test.go:400-471), an object
counts only if it decodes to a block whose block path is its key. -/
def recoveryScan (codec : Codec) (m : MemBlobStore) : StoreIndex :=
  StoreIndex.merge [] ((m.list "chunks/").filterMap (fun kv =>
    match m.read kv.1 with
    | none => none
    | some bytes =>
      match codec.decode bytes with
      | .ok b => if block_path b.blockHash = kv.1 then some b.indexEntry else none
      | .error _ => none))

/-- Modelled from the spec: `open(backend, prefix, workers, mode)` (§4.D),
for the empty prefix of the tests.  A `store.lsi` that is there is parsed
(`Malformed` gives `IndexCorrupt`).  Without `store.lsi`, `ReadWrite` runs
the recovery scan and writes the index back, and `ReadOnly` fails with
`StoreUninitialized` (§4.D step 2, §7).  Where the tests say more than the
spec: `Init` without `store.lsi` runs the recovery scan as well
(`TestBlockScanning`, remotestore_test.go:421-470), and on a backend that
holds no object at all a `ReadOnly` open succeeds, with an empty index
(`TestCreateRemoteBlobStore`, `TestEmptyGetExistingContent`,
remotestore_test.go:12-27, 100-132). -/
def openStore (codec : Codec) (mode : AccessType) (m : MemBlobStore) :
    Except StoreError RemoteBlockStore × MemBlobStore :=
  match m.read storeIndexKey with
  | some bytes =>
    match codec.parse bytes with
    | none => (.error StoreError.IndexCorrupt, m)
    | some idx => (.ok { index := idx, pendingAdded := [], mode := mode }, m)
  | none =>
    match mode with
    | AccessType.ReadOnly =>
      if m.blobs.isEmpty then (.ok { index := [], pendingAdded := [], mode := mode }, m)
      else (.error StoreError.StoreUninitialized, m)
    | _ =>
      let idx := recoveryScan codec m
      (.ok { index := idx, pendingAdded := [], mode := mode },
        m.write storeIndexKey (codec.serialize idx))

/-- Modelled from the spec: the results of a successful `put_block` (§4.D). -/
inductive PutResult where
  | AlreadyPresent
  | Stored
  deriving DecidableEq, Repr

/-- Modelled from the spec: `put_block(block)` (§4.D).  A block whose hash
is in the in-memory index or in `pending_added` is `AlreadyPresent`, with no
I/O; else it is encoded and uploaded to `block_path(hash)` and appended to
`pending_added`.  In `ReadOnly` mode the result is `PermissionDenied` (§9).
The in-memory backend has no transient failure, so no upload is retried. -/
def put_block (codec : Codec) (s : RemoteBlockStore) (m : MemBlobStore) (block : StoredBlock) :
    Except StoreError PutResult × RemoteBlockStore × MemBlobStore :=
  if s.mode = AccessType.ReadOnly then (.error StoreError.PermissionDenied, s, m)
  else if block.blockHash ∈ StoreIndex.blockHashes s.index ∨
      block.blockHash ∈ StoreIndex.blockHashes s.pendingAdded then
    (.ok PutResult.AlreadyPresent, s, m)
  else
    (.ok PutResult.Stored,
      { s with pendingAdded := s.pendingAdded ++ [block.indexEntry] },
      m.write (block_path block.blockHash) (codec.encode block))

/-- Modelled from the spec: `get_block(block_hash)` (§4.D).  The object at
`block_path(hash)` is read with `readBlobWithRetry` of blobStore.go;
`ErrENOENT` is `BlockMissing`, any other error `Transport`; the bytes are
decoded, `HashMismatch` and `Malformed` are `BadBlock`, an unknown codec is
`UnknownCodec`.  As `TestBlockScanning` shows (remotestore_test.go:439-442),
a block whose own hash is not the requested one is a `BadBlock`. -/
def get_block (codec : Codec) (m : MemBlobStore) (h : BlockHash) :
    Except StoreError StoredBlock × MemBlobStore :=
  let r := readBlobWithRetry (memClient m.supportsLocking) (block_path h) m
  match r.err with
  | some Error.ErrENOENT => (.error StoreError.BlockMissing, r.state)
  | some _ => (.error StoreError.Transport, r.state)
  | none =>
    match r.blobData with
    | none => (.error StoreError.BlockMissing, r.state)
    | some bytes =>
      match codec.decode bytes with
      | .error DecodeError.UnknownCodec => (.error StoreError.UnknownCodec, r.state)
      | .error _ => (.error StoreError.BadBlock, r.state)
      | .ok b =>
        if b.blockHash = h then (.ok b, r.state) else (.error StoreError.BadBlock, r.state)

/-- Modelled from the spec: `get_existing_content(chunk_hashes,
min_block_usage_percent)` (§4.D), the projection of the in-memory index
with `pending_added`, filtered by §4.F. -/
def get_existing_content (s : RemoteBlockStore) (chunkHashes : List ChunkHash)
    (minBlockUsagePercent : Nat) : StoreIndex :=
  StoreIndex.project (StoreIndex.merge s.index s.pendingAdded) chunkHashes minBlockUsagePercent

/-- Modelled from the spec: `MaxCasRetries = 10` (§4.D, flush step 3). -/
def MaxCasRetries : Nat := 10

/-- Modelled from the spec: the loop of `flush()` (§4.D, steps 3a-3g) for
the pending blocks `P`, with the number of rounds left; it returns the
merged index, or `IndexCorrupt`, or `FlushContention` when the rounds are
used up. -/
def flushLoop (codec : Codec) (P : List BlockIndexEntry) :
    Nat → MemBlobStore → Except StoreError StoreIndex × MemBlobStore
  | 0, m => (.error StoreError.FlushContention, m)
  | n + 1, m =>
    let token := m.lockWriteVersion storeIndexKey
    let remote : Option StoreIndex :=
      match m.read storeIndexKey with
      | none => some []
      | some bytes => codec.parse bytes
    match remote with
    | none => (.error StoreError.IndexCorrupt, m)
    | some remote =>
      let merged := StoreIndex.merge remote P
      let newBytes := codec.serialize merged
      match token with
      | some t =>
        match m.writeIfUnchanged storeIndexKey newBytes t with
        | (WriteOutcome.Committed, m1) => (.ok merged, m1)
        | (WriteOutcome.Conflict, m1) => flushLoop codec P n m1
      | none => (.ok merged, m.write storeIndexKey newBytes)

/-- Modelled from the spec: `flush()` (§4.D).  `pending_added` is
snapshot and cleared; with nothing pending the result is Ok; else the
pending blocks are merged into the remote index by `flushLoop` and the
in-memory index is replaced by the merged one.  When the rounds are used up
`pending_added` is restored and the result is `FlushContention`. -/
def flush (codec : Codec) (s : RemoteBlockStore) (m : MemBlobStore) :
    Except StoreError Unit × RemoteBlockStore × MemBlobStore :=
  if s.pendingAdded = [] then (.ok (), s, m)
  else
    match flushLoop codec s.pendingAdded MaxCasRetries m with
    | (.ok merged, m1) => (.ok (), { s with index := merged, pendingAdded := [] }, m1)
    | (.error StoreError.FlushContention, m1) => (.error StoreError.FlushContention, s, m1)
    | (.error e, m1) => (.error e, { s with pendingAdded := [] }, m1)

/-- Modelled from the spec: step 4 of `prune_blocks` (§4.D), writing the
index to `store.lsi` under the protocol of flush: with locking, lock and
write if unchanged, again on `Conflict`; without locking, write. -/
def writeIndexLoop (codec : Codec) (idx : StoreIndex) :
    Nat → MemBlobStore → Except StoreError Unit × MemBlobStore
  | 0, m => (.error StoreError.FlushContention, m)
  | n + 1, m =>
    match m.lockWriteVersion storeIndexKey with
    | some t =>
      match m.writeIfUnchanged storeIndexKey (codec.serialize idx) t with
      | (WriteOutcome.Committed, m1) => (.ok (), m1)
      | (WriteOutcome.Conflict, m1) => writeIndexLoop codec idx n m1
    | none => (.ok (), m.write storeIndexKey (codec.serialize idx))

/-- Modelled from the spec: `prune_blocks(keep_block_hashes)` (§4.D), only
valid in `ReadWrite` (in another mode the result is `PermissionDenied`):
implicit flush, `to_remove = block_hashes() \ keep`, delete `block_path(h)`
for each of them, write `subtract(index, to_remove)` back to `store.lsi`,
return `|to_remove|`. -/
def prune_blocks (codec : Codec) (s : RemoteBlockStore) (m : MemBlobStore)
    (keep : List BlockHash) : Except StoreError Nat × RemoteBlockStore × MemBlobStore :=
  if s.mode ≠ AccessType.ReadWrite then (.error StoreError.PermissionDenied, s, m)
  else
    match flush codec s m with
    | (.error e, s1, m1) => (.error e, s1, m1)
    | (.ok _, s1, m1) =>
      let toRemove := (StoreIndex.blockHashes s1.index).filter (fun h => decide (h ∉ keep))
      let m2 := toRemove.foldl (fun acc h => acc.delete (block_path h)) m1
      let newIndex := StoreIndex.subtract s1.index toRemove
      match writeIndexLoop codec newIndex MaxCasRetries m2 with
      | (.error e, m3) => (.error e, s1, m3)
      | (.ok _, m3) => (.ok toRemove.length, { s1 with index := newIndex }, m3)

/-- Modelled from the spec: disposing (closing) the store (§4.D, state
machine).  The spec says that closing drops what is pending;
`TestRestoreStore` and `PruneStoreTest` (remotestore_test.go:243-356,
473-600) find the blocks that were put before a dispose without flush when
the store is opened again, so the model flushes on dispose.  The result is
the backend that the store leaves behind. -/
def dispose (codec : Codec) (s : RemoteBlockStore) (m : MemBlobStore) : MemBlobStore :=
  (flush codec s m).2.2

instance (a : StoreIndex) : Decidable (StoreIndex.Valid a) := by
  unfold StoreIndex.Valid; exact inferInstance

/-- A number written in unary, `n` zero bytes closed by a one byte. -/
def encNat (n : Nat) : Bytes := List.replicate n 0 ++ [1]

/-- Reads a number written by `encNat`, and returns the rest of the input. -/
def decNat : Bytes → Option (Nat × Bytes)
  | [] => none
  | b :: rest =>
    if b = 0 then
      match decNat rest with
      | none => none
      | some r => some (r.1 + 1, r.2)
    else some (0, rest)

/-- Reads `n` items with `dec`, and returns the rest of the input. -/
def decMany {α : Type} (dec : Bytes → Option (α × Bytes)) : Nat → Bytes → Option (List α × Bytes)
  | 0, bs => some ([], bs)
  | n + 1, bs =>
    match dec bs with
    | none => none
    | some x =>
      match decMany dec n x.2 with
      | none => none
      | some xs => some (x.1 :: xs.1, xs.2)

/-- A list of numbers, its length first. -/
def encNats (xs : List Nat) : Bytes := encNat xs.length ++ xs.flatMap encNat

/-- Reads a list written by `encNats`. -/
def decNats (bs : Bytes) : Option (List Nat × Bytes) :=
  match decNat bs with
  | none => none
  | some n => decMany decNat n.1 n.2

/-- An index entry: block hash, tag, hash identifier, chunk hashes, chunk sizes. -/
def encEntry (e : BlockIndexEntry) : Bytes :=
  encNat e.blockHash ++ (encNat e.tag ++ (encNat e.hashIdentifier ++
    (encNats e.chunkHashes ++ encNats e.chunkSizes)))

/-- Reads an index entry written by `encEntry`. -/
def decEntry (bs : Bytes) : Option (BlockIndexEntry × Bytes) :=
  match decNat bs with
  | none => none
  | some h =>
    match decNat h.2 with
    | none => none
    | some t =>
      match decNat t.2 with
      | none => none
      | some i =>
        match decNats i.2 with
        | none => none
        | some cs =>
          match decNats cs.2 with
          | none => none
          | some zs =>
            some ({ blockHash := h.1, tag := t.1, hashIdentifier := i.1,
                    chunkHashes := cs.1, chunkSizes := zs.1 }, zs.2)

/-- A chunk: hash, size, number of bytes, bytes. -/
def encChunk (c : Chunk) : Bytes :=
  encNat c.hash ++ (encNat c.size ++ (encNat c.bytes.length ++ c.bytes))

/-- Reads a chunk written by `encChunk`. -/
def decChunk (bs : Bytes) : Option (Chunk × Bytes) :=
  match decNat bs with
  | none => none
  | some h =>
    match decNat h.2 with
    | none => none
    | some z =>
      match decNat z.2 with
      | none => none
      | some n =>
        if n.1 ≤ n.2.length then
          some ({ hash := h.1, size := z.1, bytes := n.2.take n.1 }, n.2.drop n.1)
        else none

/-- Reads a stored block: the four header fields, the number of chunks, the chunks. -/
def decBlock (bs : Bytes) : Option StoredBlock :=
  match decNat bs with
  | none => none
  | some h =>
    match decNat h.2 with
    | none => none
    | some i =>
      match decNat i.2 with
      | none => none
      | some t =>
        match decNat t.2 with
        | none => none
        | some c =>
          match decNat c.2 with
          | none => none
          | some n =>
            match decMany decChunk n.1 n.2 with
            | some (chunks, []) =>
              some { blockHash := h.1, hashIdentifier := i.1, tag := t.1,
                     compressionId := c.1, chunks := chunks }
            | _ => none

/-- The codec of the examples.  `parse` rejects an index that is not in
ascending order of block hash. -/
def testCodec : Codec where
  encode := fun b =>
    encNat b.blockHash ++ (encNat b.hashIdentifier ++ (encNat b.tag ++
      (encNat b.compressionId ++ (encNat b.chunks.length ++ b.chunks.flatMap encChunk))))
  decode := fun bs =>
    match decBlock bs with
    | some b => .ok b
    | none => .error DecodeError.Malformed
  serialize := fun a => encNat a.length ++ a.flatMap encEntry
  parse := fun bs =>
    match decNat bs with
    | none => none
    | some n =>
      match decMany decEntry n.1 n.2 with
      | some (a, []) => if StoreIndex.Valid a then some a else none
      | _ => none

/-- A block of three chunks with the hashes `seed + 1`, `seed + 2`,
`seed + 3`, the chunk hashes that the tests ask for after
`storeBlockFromSeed(seed)`; its block hash is `100 + seed`. -/
def testBlock (seed : Nat) : StoredBlock :=
  { blockHash := 100 + seed
    hashIdentifier := 7
    tag := 3
    compressionId := 0
    chunks := [{ hash := seed + 1, size := 1, bytes := [1] },
               { hash := seed + 2, size := 2, bytes := [2, 2] },
               { hash := seed + 3, size := 3, bytes := [3, 3, 3] }] }

/-- An empty in-memory backend. -/
def emptyBackend (supportsLocking : Bool) : MemBlobStore :=
  { blobs := [], supportsLocking := supportsLocking }

/-- The store and the backend after `put_block` of each of the blocks, in order. -/
def putBlocks (codec : Codec) :
    List StoredBlock → RemoteBlockStore × MemBlobStore → RemoteBlockStore × MemBlobStore
  | [], st => st
  | b :: rest, st => putBlocks codec rest (put_block codec st.1 st.2 b).2

/-- The results of `put_block` of each of the blocks, in order. -/
def putResults (codec : Codec) :
    List StoredBlock → RemoteBlockStore × MemBlobStore → List (Except StoreError PutResult)
  | [], _ => []
  | b :: rest, st =>
    (put_block codec st.1 st.2 b).1 :: putResults codec rest (put_block codec st.1 st.2 b).2

/-- A freshly opened `ReadWrite` store over an empty backend, with the backend. -/
def freshStore (supportsLocking : Bool) : RemoteBlockStore × MemBlobStore :=
  ({ index := [], pendingAdded := [], mode := AccessType.ReadWrite },
    (openStore testCodec AccessType.ReadWrite (emptyBackend supportsLocking)).2)

/-- A block with the single chunk of hash 1, a chunk that `testBlock 0` holds too. -/
def sharedChunkBlock : StoredBlock :=
  { blockHash := 101
    hashIdentifier := 7
    tag := 3
    compressionId := 0
    chunks := [{ hash := 1, size := 1, bytes := [1] }] }

/-- The store of `TestGetExistingContent`: the blocks of the seeds 0, 10, 20,
30, 40, 50 put into a fresh store, then flushed. -/
def sixBlockStore : RemoteBlockStore :=
  (flush testCodec
    (putBlocks testCodec [testBlock 0, testBlock 10, testBlock 20, testBlock 30,
      testBlock 40, testBlock 50] (freshStore true)).1
    (putBlocks testCodec [testBlock 0, testBlock 10, testBlock 20, testBlock 30,
      testBlock 40, testBlock 50] (freshStore true)).2).2.1

/-- The chunk hashes that `TestGetExistingContent` asks for. -/
def sixBlockRequest : List ChunkHash := [1, 2, 11, 13, 21, 22, 32, 33, 41, 43, 51]

/-- The store of `PruneStoreTest` before the prune, with its backend: the
blocks of the seeds 0, 10, 20 put into a fresh store and flushed, and the
store opened again in `ReadWrite` mode on that backend. -/
def threeBlockStore (supportsLocking : Bool) :
    Except StoreError RemoteBlockStore × MemBlobStore :=
  openStore testCodec AccessType.ReadWrite
    (flush testCodec
      (putBlocks testCodec [testBlock 0, testBlock 10, testBlock 20]
        (freshStore supportsLocking)).1
      (putBlocks testCodec [testBlock 0, testBlock 10, testBlock 20]
        (freshStore supportsLocking)).2).2.2

/-- The state of the store of `threeBlockStore`: the three blocks indexed,
nothing pending. -/
def threeBlockState : RemoteBlockStore :=
  { index := [(testBlock 0).indexEntry, (testBlock 10).indexEntry, (testBlock 20).indexEntry]
    pendingAdded := []
    mode := AccessType.ReadWrite }

/-- The backend of `TestBlockScanning`, without `store.lsi`: a block at its
block path, a block at the block path of its hash plus one, and two blocks
at such paths moved under a further `chunks/`. -/
def scanBackend : MemBlobStore :=
  ((((emptyBackend true).write (block_path (testBlock 7).blockHash)
      (testCodec.encode (testBlock 7))).write
      (block_path ((testBlock 14).blockHash + 1)) (testCodec.encode (testBlock 14))).write
      ("chunks/" ++ block_path (testBlock 21).blockHash)
      (testCodec.encode (testBlock 21))).write
      ("chunks/" ++ block_path ((testBlock 33).blockHash + 2))
      (testCodec.encode (testBlock 33))

/-- Modelled from the spec: the in-memory test backend seen through the
`BlobStore` interface of blobStore.go. -/
def memStore : BlobStore MemBlobStore where
  NewClient := fun m => (.ok (memClient m.supportsLocking), m)
  String := "testblob"

/-- Backends for the examples in which every store is the in-memory
store. -/
def memBackends : Backends (BlobStore MemBlobStore) where
  Parse := parseExamples
  NewGCSBlobStore := fun _ _ => .ok memStore
  NewFSBlobStore := fun _ => .ok memStore
  ofS3 := fun _ => memStore

/-! ## readBlobWithRetry: the ways a call ends -/

theorem retryRead_none {σ : Type} (obj : BlobObject σ) (msg : String) (delay : Option Duration)
    (v : ReadBlob σ) (h : v.err = none) : retryRead obj msg delay v = v := by
  unfold retryRead; rw [h]

theorem readBlobWithRetry_newObject_error {σ : Type} (client : BlobClient σ) (key : String)
    (s s1 : σ) (e : Error) (hn : client.NewObject key s = (.error e, s1)) :
    readBlobWithRetry client key s =
      { blobData := none, retryCount := 0, err := some e, state := s1,
        trace := [Event.NewObject key] } := by
  unfold readBlobWithRetry; rw [hn]

theorem readBlobWithRetry_exists_error {σ : Type} (client : BlobClient σ) (key : String)
    (s s1 s2 : σ) (obj : BlobObject σ) (ok : Bool) (e : Error)
    (hn : client.NewObject key s = (.ok obj, s1))
    (hx : obj.Exists s1 = ((ok, some e), s2)) :
    readBlobWithRetry client key s =
      { blobData := none, retryCount := 0, err := some e, state := s2,
        trace := [Event.NewObject key, Event.Exists ok (some e)] } := by
  unfold readBlobWithRetry; rw [hn]; simp only []; rw [hx]; cases ok <;> rfl

theorem readBlobWithRetry_absent {σ : Type} (client : BlobClient σ) (key : String)
    (s s1 s2 : σ) (obj : BlobObject σ)
    (hn : client.NewObject key s = (.ok obj, s1))
    (hx : obj.Exists s1 = ((false, none), s2)) :
    readBlobWithRetry client key s =
      { blobData := none, retryCount := 0, err := some Error.ErrENOENT, state := s2,
        trace := [Event.NewObject key, Event.Exists false none] } := by
  unfold readBlobWithRetry; rw [hn]; simp only []; rw [hx]

/-- The five ways in which a call on an existing object ends. -/
theorem readBlobWithRetry_present {σ : Type} (client : BlobClient σ) (key : String)
    (s s1 s2 : σ) (obj : BlobObject σ)
    (hn : client.NewObject key s = (.ok obj, s1))
    (hx : obj.Exists s1 = ((true, none), s2)) :
    ∃ r1 r2 r3 r4 : Option Bytes × Option Error,
      readResponses obj 4 s2 = [r1, r2, r3, r4] ∧
      ((r1.2 = none ∧
          (readBlobWithRetry client key s).blobData = r1.1 ∧
          (readBlobWithRetry client key s).retryCount = 0 ∧
          (readBlobWithRetry client key s).err = none ∧
          reads (readBlobWithRetry client key s).trace = [r1] ∧
          schedule (readBlobWithRetry client key s).trace = [Step.read] ∧
          sleeps (readBlobWithRetry client key s).trace = []) ∨
       (r1.2 ≠ none ∧ r2.2 = none ∧
          (readBlobWithRetry client key s).blobData = r2.1 ∧
          (readBlobWithRetry client key s).retryCount = 1 ∧
          (readBlobWithRetry client key s).err = none ∧
          reads (readBlobWithRetry client key s).trace = [r1, r2] ∧
          schedule (readBlobWithRetry client key s).trace = [Step.read, Step.read] ∧
          sleeps (readBlobWithRetry client key s).trace = []) ∨
       (r1.2 ≠ none ∧ r2.2 ≠ none ∧ r3.2 = none ∧
          (readBlobWithRetry client key s).blobData = r3.1 ∧
          (readBlobWithRetry client key s).retryCount = 2 ∧
          (readBlobWithRetry client key s).err = none ∧
          reads (readBlobWithRetry client key s).trace = [r1, r2, r3] ∧
          schedule (readBlobWithRetry client key s).trace =
            [Step.read, Step.read, Step.sleep (500 * Millisecond), Step.read] ∧
          sleeps (readBlobWithRetry client key s).trace = [500 * Millisecond]) ∨
       (r1.2 ≠ none ∧ r2.2 ≠ none ∧ r3.2 ≠ none ∧
          (readBlobWithRetry client key s).blobData = (if r4.2 = none then r4.1 else none) ∧
          (readBlobWithRetry client key s).retryCount = 3 ∧
          (readBlobWithRetry client key s).err = r4.2 ∧
          reads (readBlobWithRetry client key s).trace = [r1, r2, r3, r4] ∧
          schedule (readBlobWithRetry client key s).trace =
            [Step.read, Step.read, Step.sleep (500 * Millisecond), Step.read,
              Step.sleep (2 * Second), Step.read] ∧
          sleeps (readBlobWithRetry client key s).trace = [500 * Millisecond, 2 * Second])) := by
  refine ⟨(obj.Read s2).1, (obj.Read (obj.Read s2).2).1,
    (obj.Read (obj.Read (obj.Read s2).2).2).1,
    (obj.Read (obj.Read (obj.Read (obj.Read s2).2).2).2).1, rfl, ?_⟩
  unfold readBlobWithRetry; rw [hn]; simp only []; rw [hx]; simp only []
  rcases h1 : (obj.Read s2).1.2 with _ | e1
  · left
    simp [retryRead, h1, reads, schedule, sleeps, Prod.ext_iff]
  · right
    rcases h2 : (obj.Read (obj.Read s2).2).1.2 with _ | e2
    · left
      simp [retryRead, h1, h2, reads, schedule, sleeps, Prod.ext_iff]
    · right
      rcases h3 : (obj.Read (obj.Read (obj.Read s2).2).2).1.2 with _ | e3
      · left
        simp [retryRead, h1, h2, h3, reads, schedule, sleeps, Prod.ext_iff]
      · right
        rcases h4 : (obj.Read (obj.Read (obj.Read (obj.Read s2).2).2).2).1.2 with _ | e4
        · simp [retryRead, h1, h2, h3, h4, reads, schedule, sleeps, Prod.ext_iff]
        · simp [retryRead, h1, h2, h3, h4, reads, schedule, sleeps, Prod.ext_iff]

/-- C1: `readBlobWithRetry` calls `Read` at most 4 times; a `Read` that
succeeds is the last `Read` of the call; the returned retry count is the
number of `Read`s that failed and were followed by another `Read`, and it
is at most 3. -/
theorem C1_readBlobWithRetry_read_bound {σ : Type} (client : BlobClient σ) (key : String)
    (s : σ) :
    (reads (readBlobWithRetry client key s).trace).length ≤ 4 ∧
    (∀ i d, (reads (readBlobWithRetry client key s).trace)[i]? = some (d, none) →
      i + 1 = (reads (readBlobWithRetry client key s).trace).length) ∧
    (readBlobWithRetry client key s).retryCount =
      ((reads (readBlobWithRetry client key s).trace).dropLast.filter
        (fun x => x.2.isSome)).length ∧
    (readBlobWithRetry client key s).retryCount ≤ 3 := by
  rcases hn : client.NewObject key s with ⟨e | obj, s1⟩
  · rw [readBlobWithRetry_newObject_error client key s s1 e hn]
    simp [reads]
  · rcases hx : obj.Exists s1 with ⟨⟨ok, _ | e⟩, s2⟩
    · cases ok
      · rw [readBlobWithRetry_absent client key s s1 s2 obj hn hx]
        simp [reads]
      · obtain ⟨r1, r2, r3, r4, -, h⟩ := readBlobWithRetry_present client key s s1 s2 obj hn hx
        rcases h with ⟨h1, -, hc, -, hr, -⟩ | ⟨h1, h2, -, hc, -, hr, -⟩ |
          ⟨h1, h2, h3, -, hc, -, hr, -⟩ | ⟨h1, h2, h3, -, hc, -, hr, -⟩
        · rw [hr, hc]
          refine ⟨by simp, ?_, by simp, by simp⟩
          intro i d hi
          rcases i with _ | i
          · rfl
          · simp at hi
        · rw [hr, hc]
          obtain ⟨e1, he1⟩ := Option.ne_none_iff_exists'.mp h1
          refine ⟨by simp, ?_, by simp [he1], by simp⟩
          intro i d hi
          rcases i with _ | _ | i
          · simp at hi; rw [hi] at he1; simp at he1
          · rfl
          · simp at hi
        · rw [hr, hc]
          obtain ⟨e1, he1⟩ := Option.ne_none_iff_exists'.mp h1
          obtain ⟨e2, he2⟩ := Option.ne_none_iff_exists'.mp h2
          refine ⟨by simp, ?_, by simp [he1, he2], by simp⟩
          intro i d hi
          rcases i with _ | _ | _ | i
          · simp at hi; rw [hi] at he1; simp at he1
          · simp at hi; rw [hi] at he2; simp at he2
          · rfl
          · simp at hi
        · rw [hr, hc]
          obtain ⟨e1, he1⟩ := Option.ne_none_iff_exists'.mp h1
          obtain ⟨e2, he2⟩ := Option.ne_none_iff_exists'.mp h2
          obtain ⟨e3, he3⟩ := Option.ne_none_iff_exists'.mp h3
          refine ⟨by simp, ?_, by simp [he1, he2, he3], by simp⟩
          intro i d hi
          rcases i with _ | _ | _ | _ | i
          · simp at hi; rw [hi] at he1; simp at he1
          · simp at hi; rw [hi] at he2; simp at he2
          · simp at hi; rw [hi] at he3; simp at he3
          · rfl
          · simp at hi
    · rw [readBlobWithRetry_exists_error client key s s1 s2 obj ok e hn hx]
      simp [reads]

/-- C2: for an object that exists, `readBlobWithRetry` returns an error
exactly when the initial `Read` and the three retries all fail; then the
data is nil, the retry count is 3, all four `Read`s were made and the error
is that of the last one.  Otherwise the error is nil and the data is that of
the first `Read` that succeeded, which is the last `Read` made. -/
theorem C2_readBlobWithRetry_error_iff_all_fail {σ : Type} (client : BlobClient σ)
    (key : String) (s s1 s2 : σ) (obj : BlobObject σ)
    (hn : client.NewObject key s = (.ok obj, s1))
    (hx : obj.Exists s1 = ((true, none), s2)) :
    ((readBlobWithRetry client key s).err ≠ none ↔
      ∀ x ∈ readResponses obj 4 s2, x.2 ≠ none) ∧
    ((readBlobWithRetry client key s).err ≠ none →
      (readBlobWithRetry client key s).blobData = none ∧
      (readBlobWithRetry client key s).retryCount = 3 ∧
      reads (readBlobWithRetry client key s).trace = readResponses obj 4 s2 ∧
      ∃ d, (readResponses obj 4 s2).getLast? =
        some (d, (readBlobWithRetry client key s).err)) ∧
    ((readBlobWithRetry client key s).err = none →
      ∃ pre d post, readResponses obj 4 s2 = pre ++ (d, none) :: post ∧
        (∀ x ∈ pre, x.2 ≠ none) ∧
        reads (readBlobWithRetry client key s).trace = pre ++ [(d, none)] ∧
        (readBlobWithRetry client key s).blobData = d) := by
  obtain ⟨r1, r2, r3, r4, hresp, h⟩ := readBlobWithRetry_present client key s s1 s2 obj hn hx
  rw [hresp]
  rcases h with ⟨h1, hd, hc, he, hr, -⟩ | ⟨h1, h2, hd, hc, he, hr, -⟩ |
    ⟨h1, h2, h3, hd, hc, he, hr, -⟩ | ⟨h1, h2, h3, hd, hc, he, hr, -⟩
  · rw [he, hr, hd]
    refine ⟨by simp [h1], by simp, fun _ => ⟨[], r1.1, [r2, r3, r4], ?_, by simp, ?_, rfl⟩⟩
    · simp [Prod.ext_iff, h1]
    · simp [Prod.ext_iff, h1]
  · rw [he, hr, hd]
    refine ⟨by simp [h2], by simp, fun _ => ⟨[r1], r2.1, [r3, r4], ?_, by simpa using h1, ?_, rfl⟩⟩
    · simp [Prod.ext_iff, h2]
    · simp [Prod.ext_iff, h2]
  · rw [he, hr, hd]
    refine ⟨by simp [h3], by simp, fun _ => ⟨[r1, r2], r3.1, [r4], ?_, ?_, ?_, rfl⟩⟩
    · simp [Prod.ext_iff, h3]
    · simp [h1, h2]
    · simp [Prod.ext_iff, h3]
  · rw [he, hr, hd, hc]
    refine ⟨by simp [h1, h2, h3], ?_, ?_⟩
    · intro h4
      simp [h4, Prod.ext_iff]
    · intro h4
      refine ⟨[r1, r2, r3], r4.1, [], ?_, ?_, ?_, by simp [h4]⟩
      · simp [Prod.ext_iff, h4]
      · simp [h1, h2, h3]
      · simp [Prod.ext_iff, h4]

/-- Witness of C2: an object whose first `Read` fails and whose second
`Read` returns three bytes. -/
theorem C2_witness :
    (scriptedClient true (Error.Other "timeout")).NewObject "key"
        [(none, some (Error.Other "timeout")), (some [1, 2, 3], none)] =
      (.ok (scriptedObject true (Error.Other "timeout")),
        [(none, some (Error.Other "timeout")), (some [1, 2, 3], none)]) ∧
    (scriptedObject true (Error.Other "timeout")).Exists
        [(none, some (Error.Other "timeout")), (some [1, 2, 3], none)] =
      ((true, none), [(none, some (Error.Other "timeout")), (some [1, 2, 3], none)]) ∧
    ((readBlobWithRetry (scriptedClient true (Error.Other "timeout")) "key"
        [(none, some (Error.Other "timeout")), (some [1, 2, 3], none)]).err ≠ none ↔
      ∀ x ∈ readResponses (scriptedObject true (Error.Other "timeout")) 4
        [(none, some (Error.Other "timeout")), (some [1, 2, 3], none)], x.2 ≠ none) :=
  ⟨rfl, rfl,
    (C2_readBlobWithRetry_error_iff_all_fail
      (scriptedClient true (Error.Other "timeout")) "key"
      [(none, some (Error.Other "timeout")), (some [1, 2, 3], none)]
      [(none, some (Error.Other "timeout")), (some [1, 2, 3], none)]
      [(none, some (Error.Other "timeout")), (some [1, 2, 3], none)]
      (scriptedObject true (Error.Other "timeout")) rfl rfl).1⟩

/-- C3: if `Exists` reports `(false, nil)`, `readBlobWithRetry` returns nil
data, retry count 0 and `ErrENOENT`, and makes no `Read` and no `Sleep`. -/
theorem C3_readBlobWithRetry_absent {σ : Type} (client : BlobClient σ) (key : String)
    (s s1 s2 : σ) (obj : BlobObject σ)
    (hn : client.NewObject key s = (.ok obj, s1))
    (hx : obj.Exists s1 = ((false, none), s2)) :
    (readBlobWithRetry client key s).blobData = none ∧
    (readBlobWithRetry client key s).retryCount = 0 ∧
    (readBlobWithRetry client key s).err = some Error.ErrENOENT ∧
    reads (readBlobWithRetry client key s).trace = [] ∧
    sleeps (readBlobWithRetry client key s).trace = [] := by
  rw [readBlobWithRetry_absent client key s s1 s2 obj hn hx]
  simp [reads, sleeps]

/-- Witness of C3: a client whose object does not exist. -/
theorem C3_witness :
    (scriptedClient false (Error.Other "timeout")).NewObject "key" [] =
      (.ok (scriptedObject false (Error.Other "timeout")), []) ∧
    (scriptedObject false (Error.Other "timeout")).Exists [] = ((false, none), []) ∧
    (readBlobWithRetry (scriptedClient false (Error.Other "timeout")) "key" []).err =
      some Error.ErrENOENT ∧
    reads (readBlobWithRetry (scriptedClient false (Error.Other "timeout")) "key" []).trace
      = [] :=
  have h := C3_readBlobWithRetry_absent (scriptedClient false (Error.Other "timeout")) "key"
    [] [] [] (scriptedObject false (Error.Other "timeout")) rfl rfl
  ⟨rfl, rfl, h.2.2.1, h.2.2.2.1⟩

/-- C4: the backoff schedule of `readBlobWithRetry` is `[0, 500 ms, 2 s]`.
On an existing object the `Read`s and `Sleep`s of a call are fixed by which
`Read`s fail: a first `Read` without error is the only step; a failed first
`Read` is followed by the second `Read` with no sleep between them; a failed
second `Read` is followed by a sleep of exactly 500 ms and the third
`Read`; a failed third `Read` is followed by a sleep of exactly 2 s and the
fourth `Read`, after which the call ends.  In every call, the steps are an
initial part of that sequence, a call whose first `Read` succeeds does not
sleep, and the time slept is at most 2500 ms.  The last part is the run on
a scripted object whose first two `Read`s fail. -/
theorem C4_readBlobWithRetry_backoff {σ : Type} (client : BlobClient σ) (key : String)
    (s : σ) :
    (∀ s1 s2 obj, client.NewObject key s = (.ok obj, s1) →
      obj.Exists s1 = ((true, none), s2) →
      ∃ r1 r2 r3 r4 : Option Bytes × Option Error,
        readResponses obj 4 s2 = [r1, r2, r3, r4] ∧
        (r1.2 = none →
          schedule (readBlobWithRetry client key s).trace = [Step.read]) ∧
        (r1.2 ≠ none → r2.2 = none →
          schedule (readBlobWithRetry client key s).trace = [Step.read, Step.read]) ∧
        (r1.2 ≠ none → r2.2 ≠ none → r3.2 = none →
          schedule (readBlobWithRetry client key s).trace =
            [Step.read, Step.read, Step.sleep (500 * Millisecond), Step.read]) ∧
        (r1.2 ≠ none → r2.2 ≠ none → r3.2 ≠ none →
          schedule (readBlobWithRetry client key s).trace =
            [Step.read, Step.read, Step.sleep (500 * Millisecond), Step.read,
              Step.sleep (2 * Second), Step.read])) ∧
    (schedule (readBlobWithRetry client key s).trace = [] ∨
      schedule (readBlobWithRetry client key s).trace = [Step.read] ∨
      schedule (readBlobWithRetry client key s).trace = [Step.read, Step.read] ∨
      schedule (readBlobWithRetry client key s).trace =
        [Step.read, Step.read, Step.sleep (500 * Millisecond), Step.read] ∨
      schedule (readBlobWithRetry client key s).trace =
        [Step.read, Step.read, Step.sleep (500 * Millisecond), Step.read,
          Step.sleep (2 * Second), Step.read]) ∧
    (∀ d rest, reads (readBlobWithRetry client key s).trace = (d, none) :: rest →
      sleeps (readBlobWithRetry client key s).trace = []) ∧
    (sleeps (readBlobWithRetry client key s).trace).sum ≤ 2500 * Millisecond ∧
    schedule (readBlobWithRetry (scriptedClient true Error.ErrEIO) "key"
        [(none, some Error.ErrEIO), (none, some Error.ErrEIO), (some [1], none)]).trace =
      [Step.read, Step.read, Step.sleep (500 * Millisecond), Step.read] ∧
    sleeps (readBlobWithRetry (scriptedClient true Error.ErrEIO) "key"
        [(none, some Error.ErrEIO), (none, some Error.ErrEIO), (none, some Error.ErrEIO),
          (some [1], none)]).trace =
      [500 * Millisecond, 2 * Second] := by
  have hall : (schedule (readBlobWithRetry client key s).trace = [] ∨
      schedule (readBlobWithRetry client key s).trace = [Step.read] ∨
      schedule (readBlobWithRetry client key s).trace = [Step.read, Step.read] ∨
      schedule (readBlobWithRetry client key s).trace =
        [Step.read, Step.read, Step.sleep (500 * Millisecond), Step.read] ∨
      schedule (readBlobWithRetry client key s).trace =
        [Step.read, Step.read, Step.sleep (500 * Millisecond), Step.read,
          Step.sleep (2 * Second), Step.read]) ∧
    (∀ d rest, reads (readBlobWithRetry client key s).trace = (d, none) :: rest →
      sleeps (readBlobWithRetry client key s).trace = []) ∧
    (sleeps (readBlobWithRetry client key s).trace).sum ≤ 2500 * Millisecond := by
    rcases hn : client.NewObject key s with ⟨e | obj, s1⟩
    · rw [readBlobWithRetry_newObject_error client key s s1 e hn]
      simp [schedule, sleeps]
    · rcases hx : obj.Exists s1 with ⟨⟨ok, _ | e⟩, s2⟩
      · cases ok
        · rw [readBlobWithRetry_absent client key s s1 s2 obj hn hx]
          simp [schedule, sleeps]
        · obtain ⟨r1, r2, r3, r4, -, h⟩ :=
            readBlobWithRetry_present client key s s1 s2 obj hn hx
          rcases h with ⟨h1, -, -, -, hr, hs, hz⟩ | ⟨h1, h2, -, -, -, hr, hs, hz⟩ |
            ⟨h1, h2, h3, -, -, -, hr, hs, hz⟩ | ⟨h1, h2, h3, -, -, -, hr, hs, hz⟩
          · rw [hs, hz]; simp
          · rw [hs, hz]; simp
          · rw [hs, hz, hr]
            refine ⟨by simp, ?_, by simp [Millisecond]⟩
            intro d rest hd
            simp at hd
            rw [hd.1] at h1
            simp at h1
          · rw [hs, hz, hr]
            refine ⟨by simp, ?_, by simp [Millisecond, Second]⟩
            intro d rest hd
            simp at hd
            rw [hd.1] at h1
            simp at h1
      · rw [readBlobWithRetry_exists_error client key s s1 s2 obj ok e hn hx]
        simp [schedule, sleeps]
  refine ⟨?_, hall.1, hall.2.1, hall.2.2, by rfl, by rfl⟩
  intro s1 s2 obj hn hx
  obtain ⟨r1, r2, r3, r4, hresp, h⟩ := readBlobWithRetry_present client key s s1 s2 obj hn hx
  refine ⟨r1, r2, r3, r4, hresp, ?_, ?_, ?_, ?_⟩
  · intro a1
    rcases h with ⟨-, -, -, -, -, hs, -⟩ | ⟨h1, -⟩ | ⟨h1, -⟩ | ⟨h1, -⟩
    · exact hs
    · exact absurd a1 h1
    · exact absurd a1 h1
    · exact absurd a1 h1
  · intro a1 a2
    rcases h with ⟨h1, -⟩ | ⟨-, -, -, -, -, -, hs, -⟩ | ⟨-, h2, -⟩ | ⟨-, h2, -⟩
    · exact absurd h1 a1
    · exact hs
    · exact absurd a2 h2
    · exact absurd a2 h2
  · intro a1 a2 a3
    rcases h with ⟨h1, -⟩ | ⟨-, h2, -⟩ | ⟨-, -, -, -, -, -, -, hs, -⟩ | ⟨-, -, h3, -⟩
    · exact absurd h1 a1
    · exact absurd h2 a2
    · exact hs
    · exact absurd a3 h3
  · intro a1 a2 a3
    rcases h with ⟨h1, -⟩ | ⟨-, h2, -⟩ | ⟨-, -, h3, -⟩ | ⟨-, -, -, -, -, -, -, hs, -⟩
    · exact absurd h1 a1
    · exact absurd h2 a2
    · exact absurd h3 a3
    · exact hs

/-- Counterexample to C5: the object exists and every `Read` fails with the
not-found error that wraps `os.ErrNotExist`; `readBlobWithRetry` does not
return after a single `Read` with retry count 0, it reads four times and
returns retry count 3. -/
theorem C5_counterexample :
    (scriptedObject true notExistError).Exists [] = ((true, none), []) ∧
    ((scriptedObject true notExistError).Read []).1 = (none, some notExistError) ∧
    notExistError.Is Error.ErrNotExist = true ∧
    (readBlobWithRetry (scriptedClient true notExistError) "key" []).err =
      some notExistError ∧
    (reads (readBlobWithRetry (scriptedClient true notExistError) "key" []).trace).length
      = 4 ∧
    (readBlobWithRetry (scriptedClient true notExistError) "key" []).retryCount = 3 ∧
    ¬ ((reads (readBlobWithRetry (scriptedClient true notExistError) "key" []).trace).length
        = 1 ∧
      (readBlobWithRetry (scriptedClient true notExistError) "key" []).retryCount = 0) := by
  refine ⟨rfl, rfl, by decide, rfl, rfl, rfl, ?_⟩
  intro h
  have h3 : (readBlobWithRetry (scriptedClient true notExistError) "key" []).retryCount = 3 :=
    rfl
  rw [h.2] at h3
  exact absurd h3 (by decide)

/-- C5, amended: `readBlobWithRetry` does not look at the kind of a `Read`
error.  When the first `Read` of an existing object fails, with whatever
error, the `Read` is retried: at least two `Read`s are made and the retry
count is at least 1; an error is returned only when all four `Read`s
failed, with retry count 3, and it is the error of the fourth `Read`. -/
theorem C5_readBlobWithRetry_retries_every_error {σ : Type} (client : BlobClient σ)
    (key : String) (s s1 s2 : σ) (obj : BlobObject σ) (e : Error)
    (hn : client.NewObject key s = (.ok obj, s1))
    (hx : obj.Exists s1 = ((true, none), s2))
    (hread : (obj.Read s2).1.2 = some e) :
    2 ≤ (reads (readBlobWithRetry client key s).trace).length ∧
    1 ≤ (readBlobWithRetry client key s).retryCount ∧
    ((readBlobWithRetry client key s).err ≠ none →
      (readBlobWithRetry client key s).retryCount = 3 ∧
      reads (readBlobWithRetry client key s).trace = readResponses obj 4 s2 ∧
      (∀ x ∈ readResponses obj 4 s2, x.2 ≠ none) ∧
      ∃ d, (readResponses obj 4 s2).getLast? =
        some (d, (readBlobWithRetry client key s).err)) := by
  obtain ⟨r1, r2, r3, r4, hresp, h⟩ := readBlobWithRetry_present client key s s1 s2 obj hn hx
  have hr1 : r1.2 = some e := by
    have h0 : (readResponses obj 4 s2).head? = some r1 := by rw [hresp]; rfl
    simp only [readResponses, List.head?_cons, Option.some.injEq] at h0
    rw [← h0]; exact hread
  rw [hresp]
  rcases h with ⟨h1, -⟩ | ⟨h1, h2, hd, hc, he, hr, -⟩ |
    ⟨h1, h2, h3, hd, hc, he, hr, -⟩ | ⟨h1, h2, h3, hd, hc, he, hr, -⟩
  · rw [hr1] at h1; simp at h1
  · rw [he, hr, hc]; simp
  · rw [he, hr, hc]; simp
  · rw [he, hr, hc]
    refine ⟨by simp, by simp, fun h4 => ⟨rfl, rfl, by simp [h1, h2, h3, h4], ?_⟩⟩
    simp [Prod.ext_iff]

/-- Witness of the amended C5: every `Read` of an existing object fails
with the not-found error. -/
theorem C5_witness :
    (scriptedClient true notExistError).NewObject "key" [] =
      (.ok (scriptedObject true notExistError), []) ∧
    (scriptedObject true notExistError).Exists [] = ((true, none), []) ∧
    ((scriptedObject true notExistError).Read []).1.2 = some notExistError ∧
    2 ≤ (reads (readBlobWithRetry (scriptedClient true notExistError) "key" []).trace).length ∧
    1 ≤ (readBlobWithRetry (scriptedClient true notExistError) "key" []).retryCount :=
  have h := C5_readBlobWithRetry_retries_every_error (scriptedClient true notExistError)
    "key" [] [] [] (scriptedObject true notExistError) notExistError rfl rfl rfl
  ⟨rfl, rfl, rfl, h.1, h.2.1⟩

/-! ## The in-memory backend and `get_block` -/

theorem lookupBlob_putBlob_same (key : String) (data : Bytes) (l : List (String × MemBlob)) :
    ∃ g, lookupBlob key (putBlob key data l) = some { generation := g, data := data } := by
  induction l with
  | nil => exact ⟨0, by simp [putBlob, lookupBlob]⟩
  | cons kv rest ih =>
    by_cases hk : kv.1 = key
    · exact ⟨kv.2.generation + 1, by simp [putBlob, lookupBlob, hk]⟩
    · obtain ⟨g, hg⟩ := ih
      exact ⟨g, by simp [putBlob, lookupBlob, hk, hg]⟩

theorem lookupBlob_putBlob_other (key key2 : String) (data : Bytes)
    (l : List (String × MemBlob)) (hne : key2 ≠ key) :
    lookupBlob key2 (putBlob key data l) = lookupBlob key2 l := by
  induction l with
  | nil => simp [putBlob, lookupBlob, Ne.symm hne]
  | cons kv rest ih =>
    by_cases hk : kv.1 = key
    · have hk2 : ¬ kv.1 = key2 := fun h => hne (h ▸ hk)
      rw [putBlob, if_pos hk, lookupBlob, lookupBlob, if_neg hk2, if_neg hk2]
    · rw [putBlob, if_neg hk, lookupBlob, lookupBlob, ih]

theorem readBlobWithRetry_mem_absent (locking : Bool) (key : String) (m : MemBlobStore)
    (h : lookupBlob key m.blobs = none) :
    readBlobWithRetry (memClient locking) key m =
      { blobData := none, retryCount := 0, err := some Error.ErrENOENT, state := m,
        trace := [Event.NewObject key, Event.Exists false none] } :=
  readBlobWithRetry_absent (memClient locking) key m m m (memObject key) rfl
    (by simp [memObject, MemBlobStore.exists, h])

theorem readBlobWithRetry_mem_present (locking : Bool) (key : String) (m : MemBlobStore)
    (blob : MemBlob) (h : lookupBlob key m.blobs = some blob) :
    readBlobWithRetry (memClient locking) key m =
      { blobData := some blob.data, retryCount := 0, err := none, state := m,
        trace := [Event.NewObject key, Event.Exists true none,
          Event.Read (some blob.data) none] } := by
  simp [readBlobWithRetry, memClient, memObject, MemBlobStore.exists, MemBlobStore.read,
    retryRead, h]

theorem get_block_absent (codec : Codec) (m : MemBlobStore) (h : BlockHash)
    (hm : lookupBlob (block_path h) m.blobs = none) :
    get_block codec m h = (.error StoreError.BlockMissing, m) := by
  unfold get_block
  rw [readBlobWithRetry_mem_absent m.supportsLocking (block_path h) m hm]

theorem get_block_present (codec : Codec) (m : MemBlobStore) (h : BlockHash) (blob : MemBlob)
    (hm : lookupBlob (block_path h) m.blobs = some blob) :
    get_block codec m h =
      (match codec.decode blob.data with
        | .error DecodeError.UnknownCodec => (.error StoreError.UnknownCodec, m)
        | .error _ => (.error StoreError.BadBlock, m)
        | .ok b => if b.blockHash = h then (.ok b, m) else (.error StoreError.BadBlock, m)) := by
  unfold get_block
  rw [readBlobWithRetry_mem_present m.supportsLocking (block_path h) m blob hm]

/-- C9: `get_block(h)` fails with `BlockMissing` (errno `ENOENT`) when no
object exists at `block_path(h)`, fails with `BadBlock` (errno `EBADF`) when
the object there decodes to a block whose own hash is not `h`, succeeds
with the decoded block when the object decodes to a block with hash `h`,
and succeeds in no other case. -/
theorem C9_get_block_missing_or_bad (codec : Codec) (m : MemBlobStore) (h : BlockHash) :
    (m.exists (block_path h) = false →
      get_block codec m h = (.error StoreError.BlockMissing, m)) ∧
    (∀ bytes b, m.read (block_path h) = some bytes → codec.decode bytes = .ok b →
      b.blockHash ≠ h → get_block codec m h = (.error StoreError.BadBlock, m)) ∧
    (∀ bytes b, m.read (block_path h) = some bytes → codec.decode bytes = .ok b →
      b.blockHash = h → get_block codec m h = (.ok b, m)) ∧
    (∀ b m1, get_block codec m h = (.ok b, m1) →
      m.exists (block_path h) = true ∧ b.blockHash = h ∧
      ∃ bytes, m.read (block_path h) = some bytes ∧ codec.decode bytes = .ok b) := by
  refine ⟨?_, ?_, ?_, ?_⟩
  · intro hx
    apply get_block_absent
    simpa [MemBlobStore.exists] using hx
  · intro bytes b hr hd hne
    simp only [MemBlobStore.read, Option.map_eq_some'] at hr
    obtain ⟨blob, hblob, hbytes⟩ := hr
    rw [get_block_present codec m h blob hblob, hbytes, hd]
    simp [hne]
  · intro bytes b hr hd heq
    simp only [MemBlobStore.read, Option.map_eq_some'] at hr
    obtain ⟨blob, hblob, hbytes⟩ := hr
    rw [get_block_present codec m h blob hblob, hbytes, hd]
    simp [heq]
  · intro b m1 hg
    rcases hl : lookupBlob (block_path h) m.blobs with _ | blob
    · rw [get_block_absent codec m h hl] at hg
      simp at hg
    · rw [get_block_present codec m h blob hl] at hg
      refine ⟨by simp [MemBlobStore.exists, hl], ?_⟩
      rcases hd : codec.decode blob.data with e | b2
      · rw [hd] at hg
        cases e <;> simp at hg
      · rw [hd] at hg
        by_cases hb : b2.blockHash = h
        · simp [hb] at hg
          refine ⟨hg.1 ▸ hb, blob.data, by simp [MemBlobStore.read, hl], ?_⟩
          rw [hd, hg.1]
        · simp [hb] at hg

/-- Counterexample to C6: two blocks with the same block hash that differ
in their tag are put into a freshly opened `ReadWrite` store.  Both puts
complete without error, and `get_block` of the hash completes without
error, but the block it yields is the first one, not the second. -/
theorem C6_counterexample :
    (openStore testCodec AccessType.ReadWrite (emptyBackend true)).1 =
      .ok { index := [], pendingAdded := [], mode := AccessType.ReadWrite } ∧
    (put_block testCodec { index := [], pendingAdded := [], mode := AccessType.ReadWrite }
      (openStore testCodec AccessType.ReadWrite (emptyBackend true)).2 (testBlock 0)).1 =
      .ok PutResult.Stored ∧
    (put_block testCodec
      (put_block testCodec { index := [], pendingAdded := [], mode := AccessType.ReadWrite }
        (openStore testCodec AccessType.ReadWrite (emptyBackend true)).2 (testBlock 0)).2.1
      (put_block testCodec { index := [], pendingAdded := [], mode := AccessType.ReadWrite }
        (openStore testCodec AccessType.ReadWrite (emptyBackend true)).2 (testBlock 0)).2.2
      { testBlock 0 with tag := 4 }).1 = .ok PutResult.AlreadyPresent ∧
    (get_block testCodec
      (put_block testCodec
        (put_block testCodec { index := [], pendingAdded := [], mode := AccessType.ReadWrite }
          (openStore testCodec AccessType.ReadWrite (emptyBackend true)).2 (testBlock 0)).2.1
        (put_block testCodec { index := [], pendingAdded := [], mode := AccessType.ReadWrite }
          (openStore testCodec AccessType.ReadWrite (emptyBackend true)).2 (testBlock 0)).2.2
        { testBlock 0 with tag := 4 }).2.2
      ({ testBlock 0 with tag := 4 } : StoredBlock).blockHash).1 = .ok (testBlock 0) ∧
    testBlock 0 ≠ { testBlock 0 with tag := 4 } := by
  refine ⟨rfl, rfl, rfl, rfl, by decide⟩

/-- C6, amended: for any block `B` that the block codec decodes back from
its encoding, put into a `ReadWrite` store that holds no block with the
hash of `B` (neither in its index nor pending): the put completes without
error, and `get_block(B.hash)` on that store completes without error and
yields `B`. -/
theorem C6_put_get_roundtrip (codec : Codec) (s : RemoteBlockStore) (m : MemBlobStore)
    (B : StoredBlock) (hmode : s.mode = AccessType.ReadWrite)
    (hindex : B.blockHash ∉ StoreIndex.blockHashes s.index)
    (hpending : B.blockHash ∉ StoreIndex.blockHashes s.pendingAdded)
    (hB : codec.decode (codec.encode B) = .ok B) :
    (put_block codec s m B).1 = .ok PutResult.Stored ∧
    (get_block codec (put_block codec s m B).2.2 B.blockHash).1 = .ok B := by
  have hput : put_block codec s m B = (.ok PutResult.Stored,
      { s with pendingAdded := s.pendingAdded ++ [B.indexEntry] },
      m.write (block_path B.blockHash) (codec.encode B)) := by
    simp [put_block, hmode, hindex, hpending]
  rw [hput]
  refine ⟨rfl, ?_⟩
  obtain ⟨g, hg⟩ := lookupBlob_putBlob_same (block_path B.blockHash) (codec.encode B) m.blobs
  rw [get_block_present codec _ B.blockHash _ (by simpa [MemBlobStore.write] using hg)]
  simp [hB]

set_option maxRecDepth 8000 in
/-- Witness of the amended C6: a block put into a freshly opened store. -/
theorem C6_witness :
    (openStore testCodec AccessType.ReadWrite (emptyBackend false)).1 =
      .ok { index := [], pendingAdded := [], mode := AccessType.ReadWrite } ∧
    testCodec.decode (testCodec.encode (testBlock 20)) = .ok (testBlock 20) ∧
    (put_block testCodec { index := [], pendingAdded := [], mode := AccessType.ReadWrite }
      (openStore testCodec AccessType.ReadWrite (emptyBackend false)).2 (testBlock 20)).1 =
      .ok PutResult.Stored ∧
    (get_block testCodec
      (put_block testCodec { index := [], pendingAdded := [], mode := AccessType.ReadWrite }
        (openStore testCodec AccessType.ReadWrite (emptyBackend false)).2 (testBlock 20)).2.2
      (testBlock 20).blockHash).1 = .ok (testBlock 20) :=
  have h := C6_put_get_roundtrip testCodec
    { index := [], pendingAdded := [], mode := AccessType.ReadWrite }
    (openStore testCodec AccessType.ReadWrite (emptyBackend false)).2 (testBlock 20)
    rfl (by decide) (by decide) rfl
  ⟨rfl, rfl, h.1, h.2⟩

/-! ## Block paths -/

theorem block_path_data (h : BlockHash) :
    ∃ rest, (block_path h).data = 'c' :: 'h' :: 'u' :: 'n' :: 'k' :: 's' :: '/' :: rest := by
  unfold block_path
  generalize hex h = x
  rw [String.data_append, String.data_append, String.data_append, String.data_append]
  exact ⟨_, rfl⟩

theorem block_path_ne_storeIndexKey (h : BlockHash) : block_path h ≠ storeIndexKey := by
  intro heq
  have hd := congrArg String.data heq
  obtain ⟨rest, hrest⟩ := block_path_data h
  rw [hrest] at hd
  have hs : storeIndexKey.data = ['s', 't', 'o', 'r', 'e', '.', 'l', 's', 'i'] := rfl
  rw [hs] at hd
  have := (List.cons.inj hd).1
  exact absurd this (by decide)

theorem chunks_prefix_block_path (h : BlockHash) :
    "chunks/".data.isPrefixOf (block_path h).data = true := by
  obtain ⟨rest, hrest⟩ := block_path_data h
  rw [hrest]
  have hs : "chunks/".data = ['c', 'h', 'u', 'n', 'k', 's', '/'] := rfl
  rw [hs]
  exact List.isPrefixOf_iff_prefix.mpr ⟨rest, rfl⟩

/-! ## Store index: insert and merge -/

theorem StoreIndex.subset_insert (e : BlockIndexEntry) (l : StoreIndex) :
    ∀ x ∈ l, x ∈ StoreIndex.insert e l := by
  induction l with
  | nil => intro x hx; cases hx
  | cons y ys ih =>
    intro x hx
    unfold StoreIndex.insert
    split_ifs with h1 h2
    · exact List.mem_cons_of_mem _ hx
    · exact hx
    · rcases List.mem_cons.mp hx with rfl | hx
      · exact List.mem_cons_self _ _
      · exact List.mem_cons_of_mem _ (ih x hx)

theorem StoreIndex.mem_insert (e : BlockIndexEntry) (l : StoreIndex) :
    ∀ x ∈ StoreIndex.insert e l, x ∈ l ∨ x = e := by
  induction l with
  | nil => intro x hx; simp [StoreIndex.insert] at hx; exact Or.inr hx
  | cons y ys ih =>
    intro x hx
    unfold StoreIndex.insert at hx
    split_ifs at hx with h1 h2
    · rcases List.mem_cons.mp hx with rfl | hx
      · exact Or.inr rfl
      · exact Or.inl hx
    · exact Or.inl hx
    · rcases List.mem_cons.mp hx with rfl | hx
      · exact Or.inl (List.mem_cons_self _ _)
      · rcases ih x hx with h | h
        · exact Or.inl (List.mem_cons_of_mem _ h)
        · exact Or.inr h

theorem StoreIndex.self_mem_insert (e : BlockIndexEntry) (l : StoreIndex) :
    e ∈ StoreIndex.insert e l ∨ ∃ y ∈ l, y.blockHash = e.blockHash := by
  induction l with
  | nil => left; simp [StoreIndex.insert]
  | cons y ys ih =>
    unfold StoreIndex.insert
    split_ifs with h1 h2
    · left; exact List.mem_cons_self _ _
    · right; exact ⟨y, List.mem_cons_self _ _, h2.symm⟩
    · rcases ih with h | ⟨z, hz, hzh⟩
      · left; exact List.mem_cons_of_mem _ h
      · right; exact ⟨z, List.mem_cons_of_mem _ hz, hzh⟩

theorem StoreIndex.valid_insert (e : BlockIndexEntry) (l : StoreIndex)
    (hl : StoreIndex.Valid l) : StoreIndex.Valid (StoreIndex.insert e l) := by
  induction l with
  | nil => simp [StoreIndex.insert, StoreIndex.Valid, StoreIndex.blockHashes]
  | cons y ys ih =>
    simp only [StoreIndex.Valid, StoreIndex.blockHashes, List.map_cons,
      List.pairwise_cons] at hl
    unfold StoreIndex.insert
    split_ifs with h1 h2
    · simp only [StoreIndex.Valid, StoreIndex.blockHashes, List.map_cons, List.pairwise_cons]
      refine ⟨?_, hl⟩
      intro a ha
      rcases List.mem_cons.mp ha with rfl | ha
      · exact h1
      · exact lt_trans h1 (hl.1 a ha)
    · simpa only [StoreIndex.Valid, StoreIndex.blockHashes, List.map_cons,
        List.pairwise_cons] using hl
    · have hv := ih hl.2
      simp only [StoreIndex.Valid, StoreIndex.blockHashes, List.map_cons, List.pairwise_cons]
      refine ⟨?_, hv⟩
      intro a ha
      obtain ⟨x, hx, rfl⟩ := List.mem_map.mp ha
      rcases StoreIndex.mem_insert e ys x hx with hx | rfl
      · exact hl.1 _ (List.mem_map.mpr ⟨x, hx, rfl⟩)
      · exact lt_of_le_of_ne (not_lt.mp h1) (Ne.symm h2)

theorem StoreIndex.subset_merge (b : List BlockIndexEntry) :
    ∀ (a : StoreIndex), ∀ x ∈ a, x ∈ StoreIndex.merge a b := by
  induction b with
  | nil => intro a x hx; exact hx
  | cons y ys ih =>
    intro a x hx
    exact ih (StoreIndex.insert y a) x (StoreIndex.subset_insert y a x hx)

theorem StoreIndex.mem_merge (b : List BlockIndexEntry) :
    ∀ (a : StoreIndex), ∀ x ∈ StoreIndex.merge a b, x ∈ a ∨ x ∈ b := by
  induction b with
  | nil => intro a x hx; exact Or.inl hx
  | cons y ys ih =>
    intro a x hx
    rcases ih (StoreIndex.insert y a) x hx with h | h
    · rcases StoreIndex.mem_insert y a x h with h | rfl
      · exact Or.inl h
      · exact Or.inr (List.mem_cons_self _ _)
    · exact Or.inr (List.mem_cons_of_mem _ h)

theorem StoreIndex.valid_merge (b : List BlockIndexEntry) :
    ∀ (a : StoreIndex), StoreIndex.Valid a → StoreIndex.Valid (StoreIndex.merge a b) := by
  induction b with
  | nil => intro a ha; exact ha
  | cons y ys ih =>
    intro a ha
    exact ih (StoreIndex.insert y a) (StoreIndex.valid_insert y a ha)

theorem StoreIndex.merge_nil (a : StoreIndex) : StoreIndex.merge a [] = a := rfl

/-- An entry of `b` is in `merge a b` when every entry of `a` or `b` with
its block hash is that entry. -/
theorem StoreIndex.mem_merge_of_unique (b : List BlockIndexEntry) :
    ∀ (a : StoreIndex) (x : BlockIndexEntry), x ∈ b →
      (∀ y, y ∈ a ∨ y ∈ b → y.blockHash = x.blockHash → y = x) →
      x ∈ StoreIndex.merge a b := by
  induction b with
  | nil => intro a x hx; cases hx
  | cons y ys ih =>
    intro a x hx huniq
    rcases List.mem_cons.mp hx with rfl | hx
    · show x ∈ StoreIndex.merge (StoreIndex.insert x a) ys
      apply StoreIndex.subset_merge
      rcases StoreIndex.self_mem_insert x a with h | ⟨z, hz, hzh⟩
      · exact h
      · have := huniq z (Or.inl hz) hzh
        exact StoreIndex.subset_insert x a x (this ▸ hz)
    · apply ih (StoreIndex.insert y a) x hx
      intro z hz hzh
      rcases hz with hz | hz
      · rcases StoreIndex.mem_insert y a z hz with hz | rfl
        · exact huniq z (Or.inl hz) hzh
        · exact huniq z (Or.inr (List.mem_cons_self _ _)) hzh
      · exact huniq z (Or.inr (List.mem_cons_of_mem _ hz)) hzh

theorem StoreIndex.valid_subtract (a : StoreIndex) (hs : List BlockHash)
    (ha : StoreIndex.Valid a) : StoreIndex.Valid (StoreIndex.subtract a hs) := by
  unfold StoreIndex.Valid StoreIndex.blockHashes StoreIndex.subtract at *
  exact List.Pairwise.sublist (List.Sublist.map _ (List.filter_sublist _)) ha

theorem StoreIndex.project_subset (a : StoreIndex) (C : List ChunkHash) (t : Nat) :
    ∀ e ∈ StoreIndex.project a C t, e ∈ a := by
  intro e he
  exact (List.mem_filter.mp he).1

/-! ## The recovery scan -/

theorem lookupBlob_mem (key : String) (blob : MemBlob) (l : List (String × MemBlob))
    (h : lookupBlob key l = some blob) : (key, blob) ∈ l := by
  induction l with
  | nil => simp [lookupBlob] at h
  | cons kv rest ih =>
    by_cases hk : kv.1 = key
    · rw [lookupBlob, if_pos hk] at h
      have h2 : kv.2 = blob := Option.some.inj h
      have : kv = (key, blob) := Prod.ext hk h2
      rw [this]; exact List.mem_cons_self _ _
    · rw [lookupBlob, if_neg hk] at h
      exact List.mem_cons_of_mem _ (ih h)

theorem recoveryScan_mem (codec : Codec) (m : MemBlobStore) (e : BlockIndexEntry) :
    e ∈ recoveryScan codec m ↔
      ∃ bytes b, m.read (block_path b.blockHash) = some bytes ∧
        codec.decode bytes = .ok b ∧ e = b.indexEntry := by
  have hscan : ∀ y, y ∈ (m.list "chunks/").filterMap (fun kv =>
      match m.read kv.1 with
      | none => none
      | some bytes =>
        match codec.decode bytes with
        | .ok b => if block_path b.blockHash = kv.1 then some b.indexEntry else none
        | .error _ => none) →
      ∃ bytes b, m.read (block_path b.blockHash) = some bytes ∧
        codec.decode bytes = .ok b ∧ y = b.indexEntry := by
    intro y hy
    obtain ⟨kv, -, hf⟩ := List.mem_filterMap.mp hy
    rcases hr : m.read kv.1 with _ | bytes
    · rw [hr] at hf; simp at hf
    · simp only [hr] at hf
      rcases hd : codec.decode bytes with err | b
      · simp [hd] at hf
      · simp only [hd] at hf
        by_cases hp : block_path b.blockHash = kv.1
        · simp only [hp, if_true, Option.some.injEq] at hf
          exact ⟨bytes, b, by rw [hp]; exact hr, hd, hf.symm⟩
        · simp [hp] at hf
  constructor
  · intro he
    rcases StoreIndex.mem_merge _ [] e he with h | h
    · cases h
    · exact hscan e h
  · rintro ⟨bytes, b, hr, hd, rfl⟩
    apply StoreIndex.mem_merge_of_unique
    · apply List.mem_filterMap.mpr
      have hr2 := hr
      simp only [MemBlobStore.read, Option.map_eq_some'] at hr2
      obtain ⟨blob, hblob, hbytes⟩ := hr2
      refine ⟨(block_path b.blockHash, blob.data.length), ?_, ?_⟩
      · simp only [MemBlobStore.list, List.mem_map, List.mem_filter]
        exact ⟨(block_path b.blockHash, blob),
          ⟨lookupBlob_mem _ _ _ hblob, chunks_prefix_block_path _⟩, rfl⟩
      · simp [hr, hd]
    · intro y hy hyh
      rcases hy with hy | hy
      · cases hy
      · obtain ⟨bytes2, b2, hr2, hd2, rfl⟩ := hscan y hy
        have hh : b2.blockHash = b.blockHash := hyh
        rw [hh, hr] at hr2
        have hb : bytes = bytes2 := Option.some.inj hr2
        rw [← hb, hd] at hd2
        have : b = b2 := by injection hd2
        rw [this]

/-- C10: a store opened in `Init` or `ReadWrite` mode over a backend
without `store.lsi` rebuilds its index by scanning: the open succeeds, and
the index holds exactly the entries of the blocks that an object decodes
to at the block path of its own block hash.  Every block and every chunk
of `get_existing_content` comes from such an entry, so an object at
another path, or whose block hash is not the one of its path, adds no block
and no chunk. -/
theorem C10_open_rebuilds_index_by_scan (codec : Codec) (mode : AccessType)
    (m : MemBlobStore) (hmode : mode ≠ AccessType.ReadOnly)
    (hlsi : m.exists storeIndexKey = false) :
    ∃ s m1, openStore codec mode m = (.ok s, m1) ∧
      s.pendingAdded = [] ∧
      (∀ e, e ∈ s.index ↔
        ∃ bytes b, m.read (block_path b.blockHash) = some bytes ∧
          codec.decode bytes = .ok b ∧ e = b.indexEntry) ∧
      (∀ C t, ∀ e ∈ get_existing_content s C t, e ∈ s.index) ∧
      (∀ C t, ∀ c ∈ StoreIndex.chunkHashes (get_existing_content s C t),
        ∃ bytes b, m.read (block_path b.blockHash) = some bytes ∧
          codec.decode bytes = .ok b ∧ c ∈ b.indexEntry.chunkHashes) := by
  have hread : m.read storeIndexKey = none := by
    have hl : lookupBlob storeIndexKey m.blobs = none := by
      simpa [MemBlobStore.exists] using hlsi
    simp [MemBlobStore.read, hl]
  have hopen : openStore codec mode m =
      (.ok { index := recoveryScan codec m, pendingAdded := [], mode := mode },
        m.write storeIndexKey (codec.serialize (recoveryScan codec m))) := by
    unfold openStore
    rw [hread]
    cases mode
    · rfl
    · rfl
    · exact absurd rfl hmode
  have hsub : ∀ C t, ∀ e ∈ get_existing_content
      { index := recoveryScan codec m, pendingAdded := [], mode := mode } C t,
      e ∈ recoveryScan codec m := by
    intro C t e he
    exact StoreIndex.project_subset _ C t e he
  refine ⟨_, _, hopen, rfl, fun e => recoveryScan_mem codec m e, hsub, ?_⟩
  intro C t c hc
  simp only [StoreIndex.chunkHashes, List.mem_flatMap] at hc
  obtain ⟨e, he, hce⟩ := hc
  obtain ⟨bytes, b, hr, hd, rfl⟩ := (recoveryScan_mem codec m e).mp (hsub C t e he)
  exact ⟨bytes, b, hr, hd, hce⟩

/-! ## The greedy selection -/

theorem greedy_fold_mono (required : List ChunkHash) (l : List BlockIndexEntry) :
    ∀ (st : List BlockIndexEntry × List ChunkHash), ∀ x ∈ st.1,
      x ∈ (l.foldl (greedyStep required) st).1 := by
  induction l with
  | nil => intro st x hx; exact hx
  | cons b bs ih =>
    intro st x hx
    apply ih
    unfold greedyStep
    split_ifs
    · exact List.mem_append_left _ hx
    · exact hx

theorem greedy_fold_subset (required : List ChunkHash) (l : List BlockIndexEntry) :
    ∀ (st : List BlockIndexEntry × List ChunkHash),
      ∀ x ∈ (l.foldl (greedyStep required) st).1, x ∈ st.1 ∨ x ∈ l := by
  induction l with
  | nil => intro st x hx; exact Or.inl hx
  | cons b bs ih =>
    intro st x hx
    rcases ih _ x hx with h | h
    · unfold greedyStep at h
      split_ifs at h
      · rcases List.mem_append.mp h with h | h
        · exact Or.inl h
        · exact Or.inr (by rw [List.mem_singleton.mp h]; exact List.mem_cons_self _ _)
      · exact Or.inl h
    · exact Or.inr (List.mem_cons_of_mem _ h)

theorem greedy_fold_covers (required : List ChunkHash) (l : List BlockIndexEntry) :
    ∀ (st : List BlockIndexEntry × List ChunkHash),
      (∀ c ∈ st.2, ∃ x ∈ st.1, c ∈ x.chunkHashes) →
      ∀ b ∈ l, ∀ c ∈ b.chunkHashes, c ∈ required →
        ∃ x ∈ (l.foldl (greedyStep required) st).1, c ∈ x.chunkHashes := by
  induction l with
  | nil => intro st _ b hb; cases hb
  | cons y ys ih =>
    intro st hst b hb c hc hreq
    have hst2 : ∀ c ∈ (greedyStep required st y).2,
        ∃ x ∈ (greedyStep required st y).1, c ∈ x.chunkHashes := by
      intro c hc
      unfold greedyStep at hc ⊢
      split_ifs at hc ⊢
      · rcases List.mem_append.mp hc with hc | hc
        · obtain ⟨x, hx, hxc⟩ := hst c hc
          exact ⟨x, List.mem_append_left _ hx, hxc⟩
        · exact ⟨y, List.mem_append_right _ (List.mem_singleton.mpr rfl), hc⟩
      · exact hst c hc
    rcases List.mem_cons.mp hb with rfl | hb
    · have hnow : ∃ x ∈ (greedyStep required st b).1, c ∈ x.chunkHashes := by
        unfold greedyStep
        split_ifs with hany
        · exact ⟨b, List.mem_append_right _ (List.mem_singleton.mpr rfl), hc⟩
        · have hcov : c ∈ st.2 := by
            by_contra hn
            apply hany
            rw [List.any_eq_true]
            exact ⟨c, hc, by simp [hreq, hn]⟩
          exact hst c hcov
      obtain ⟨x, hx, hxc⟩ := hnow
      exact ⟨x, greedy_fold_mono required ys _ x hx, hxc⟩
    · exact ih _ hst2 b hb c hc hreq

theorem useful_pos_iff (required : List ChunkHash) (b : BlockIndexEntry) :
    0 < useful required b ↔ ∃ c ∈ b.chunkHashes, c ∈ required := by
  unfold useful
  rw [List.length_pos_iff_exists_mem]
  constructor
  · rintro ⟨c, hc⟩
    have := List.mem_filter.mp hc
    exact ⟨c, this.1, by simpa using this.2⟩
  · rintro ⟨c, hc, hr⟩
    exact ⟨c, List.mem_filter.mpr ⟨hc, by simpa using hr⟩⟩

theorem isCandidate_zero (required : List ChunkHash) (b : BlockIndexEntry) :
    isCandidate required 0 b = true ↔ ∃ c ∈ b.chunkHashes, c ∈ required := by
  unfold isCandidate
  rw [← useful_pos_iff]
  simp

theorem greedySelect_subset (required : List ChunkHash) (t : Nat) (a : StoreIndex) :
    ∀ x ∈ greedySelect required t a, x ∈ a ∧ isCandidate required t x = true := by
  intro x hx
  unfold greedySelect at hx
  rcases greedy_fold_subset required _ _ x hx with h | h
  · cases h
  · have := (List.perm_insertionSort (candidateOrder required) _).mem_iff.mp h
    exact List.mem_filter.mp this

theorem greedySelect_covers (required : List ChunkHash) (t : Nat) (a : StoreIndex) :
    ∀ b ∈ a, isCandidate required t b = true → ∀ c ∈ b.chunkHashes, c ∈ required →
      ∃ x ∈ greedySelect required t a, c ∈ x.chunkHashes := by
  intro b hb hcand c hc hreq
  unfold greedySelect
  apply greedy_fold_covers required _ ([], []) (by intro c hc; cases hc) b _ c hc hreq
  exact (List.perm_insertionSort (candidateOrder required) _).mem_iff.mpr
    (List.mem_filter.mpr ⟨hb, hcand⟩)

/-! ## get_existing_content -/

/-- Counterexample to C7: `testBlock 0` and `sharedChunkBlock` are put into a
fresh store; both are indexed and both contain the chunk hash 1, but
`get_existing_content([1], 0)` returns one block, not the two. -/
theorem C7_counterexample :
    (testBlock 0).indexEntry ∈ StoreIndex.merge
      (putBlocks testCodec [testBlock 0, sharedChunkBlock] (freshStore true)).1.index
      (putBlocks testCodec [testBlock 0, sharedChunkBlock] (freshStore true)).1.pendingAdded ∧
    sharedChunkBlock.indexEntry ∈ StoreIndex.merge
      (putBlocks testCodec [testBlock 0, sharedChunkBlock] (freshStore true)).1.index
      (putBlocks testCodec [testBlock 0, sharedChunkBlock] (freshStore true)).1.pendingAdded ∧
    1 ∈ (testBlock 0).indexEntry.chunkHashes ∧
    1 ∈ sharedChunkBlock.indexEntry.chunkHashes ∧
    get_existing_content
      (putBlocks testCodec [testBlock 0, sharedChunkBlock] (freshStore true)).1 [1] 0 =
      [(testBlock 0).indexEntry] ∧
    StoreIndex.blockCount (get_existing_content
      (putBlocks testCodec [testBlock 0, sharedChunkBlock] (freshStore true)).1 [1] 0) ≠ 2 := by
  refine ⟨by decide, by decide, by decide, by decide, by decide, by decide⟩

/-- C7, amended: with `min_block_usage_percent = 0`, every block of
`get_existing_content(C, 0)` is an entry of the store index, with its
complete chunk list, that contains a chunk hash of `C`, and every chunk
hash of `C` that some indexed block contains is contained in a returned
block.  When no chunk hash of `C` is contained in two different indexed
blocks, the result is exactly the indexed blocks that contain a chunk hash
of `C`: the block count is their number and the chunk count the sum of
their chunk counts. -/
theorem C7_get_existing_content_zero_usage (s : RemoteBlockStore) (C : List ChunkHash) :
    (∀ e ∈ get_existing_content s C 0,
      e ∈ StoreIndex.merge s.index s.pendingAdded ∧ ∃ c ∈ e.chunkHashes, c ∈ C) ∧
    (∀ b ∈ StoreIndex.merge s.index s.pendingAdded, ∀ c ∈ b.chunkHashes, c ∈ C →
      ∃ e ∈ get_existing_content s C 0, c ∈ e.chunkHashes) ∧
    ((∀ b1 ∈ StoreIndex.merge s.index s.pendingAdded,
        ∀ b2 ∈ StoreIndex.merge s.index s.pendingAdded,
        ∀ c ∈ C, c ∈ b1.chunkHashes → c ∈ b2.chunkHashes → b1 = b2) →
      get_existing_content s C 0 =
        (StoreIndex.merge s.index s.pendingAdded).filter
          (fun b => b.chunkHashes.any (fun c => decide (c ∈ C))) ∧
      StoreIndex.blockCount (get_existing_content s C 0) =
        ((StoreIndex.merge s.index s.pendingAdded).filter
          (fun b => b.chunkHashes.any (fun c => decide (c ∈ C)))).length ∧
      StoreIndex.chunkCount (get_existing_content s C 0) =
        (((StoreIndex.merge s.index s.pendingAdded).filter
          (fun b => b.chunkHashes.any (fun c => decide (c ∈ C)))).map
            (fun b => b.chunkHashes.length)).sum) := by
  have hmem : ∀ e, e ∈ get_existing_content s C 0 ↔
      e ∈ StoreIndex.merge s.index s.pendingAdded ∧
        e ∈ greedySelect C 0 (StoreIndex.merge s.index s.pendingAdded) := by
    intro e
    simp [get_existing_content, StoreIndex.project, List.mem_filter]
  refine ⟨?_, ?_, ?_⟩
  · intro e he
    obtain ⟨hm, hg⟩ := (hmem e).mp he
    exact ⟨hm, (isCandidate_zero C e).mp (greedySelect_subset C 0 _ e hg).2⟩
  · intro b hb c hc hreq
    obtain ⟨x, hx, hxc⟩ := greedySelect_covers C 0 _ b hb
      ((isCandidate_zero C b).mpr ⟨c, hc, hreq⟩) c hc hreq
    exact ⟨x, (hmem x).mpr ⟨(greedySelect_subset C 0 _ x hx).1, hx⟩, hxc⟩
  · intro hdisj
    have heq : get_existing_content s C 0 =
        (StoreIndex.merge s.index s.pendingAdded).filter
          (fun b => b.chunkHashes.any (fun c => decide (c ∈ C))) := by
      unfold get_existing_content StoreIndex.project
      apply List.filter_congr
      intro b hb
      rw [Bool.eq_iff_iff, decide_eq_true_iff, List.any_eq_true]
      constructor
      · intro hg
        obtain ⟨c, hc, hreq⟩ := (isCandidate_zero C b).mp (greedySelect_subset C 0 _ b hg).2
        exact ⟨c, hc, by simpa using hreq⟩
      · rintro ⟨c, hc, hreq⟩
        have hreq2 : c ∈ C := by simpa using hreq
        obtain ⟨x, hx, hxc⟩ := greedySelect_covers C 0 _ b hb
          ((isCandidate_zero C b).mpr ⟨c, hc, hreq2⟩) c hc hreq2
        have hxb : x = b := hdisj x (greedySelect_subset C 0 _ x hx).1 b hb c hreq2 hxc hc
        rw [← hxb]; exact hx
    refine ⟨heq, ?_, ?_⟩
    · rw [heq]; rfl
    · rw [heq]
      simp [StoreIndex.chunkCount, StoreIndex.chunkHashes, List.length_flatMap, Function.comp_def]

/-- Witness of the amended C7, the case of `TestGetExistingContent`: six
blocks of three chunks each, no chunk in two blocks, touched by 11
requested hashes, give 6 blocks and 18 chunks. -/
theorem C7_witness :
    StoreIndex.blockCount (get_existing_content sixBlockStore sixBlockRequest 0) = 6 ∧
    StoreIndex.chunkCount (get_existing_content sixBlockStore sixBlockRequest 0) = 18 ∧
    sixBlockRequest.length = 11 ∧
    get_existing_content sixBlockStore sixBlockRequest 0 =
      (StoreIndex.merge sixBlockStore.index sixBlockStore.pendingAdded).filter
        (fun b => b.chunkHashes.any (fun c => decide (c ∈ sixBlockRequest))) :=
  ⟨by decide, by decide, by decide,
    ((C7_get_existing_content_zero_usage sixBlockStore sixBlockRequest).2.2
      (by decide)).1⟩

/-! ## The codec of the examples -/

theorem decNat_encNat (n : Nat) (rest : Bytes) : decNat (encNat n ++ rest) = some (n, rest) := by
  induction n with
  | zero => simp [encNat, decNat]
  | succ k ih =>
    have h : encNat (k + 1) ++ rest = 0 :: (encNat k ++ rest) := by
      simp [encNat, List.replicate_succ]
    rw [h, decNat, if_pos rfl, ih]

theorem decMany_flatMap {α : Type} (enc : α → Bytes) (dec : Bytes → Option (α × Bytes))
    (h : ∀ x rest, dec (enc x ++ rest) = some (x, rest)) (xs : List α) (rest : Bytes) :
    decMany dec xs.length (xs.flatMap enc ++ rest) = some (xs, rest) := by
  induction xs with
  | nil => simp [decMany]
  | cons x xs ih =>
    simp only [List.length_cons, List.flatMap_cons, List.append_assoc, decMany, h, ih]

theorem decNats_encNats (xs : List Nat) (rest : Bytes) :
    decNats (encNats xs ++ rest) = some (xs, rest) := by
  simp only [decNats, encNats, List.append_assoc, decNat_encNat]
  exact decMany_flatMap encNat decNat decNat_encNat xs rest

theorem decEntry_encEntry (e : BlockIndexEntry) (rest : Bytes) :
    decEntry (encEntry e ++ rest) = some (e, rest) := by
  simp only [decEntry, encEntry, List.append_assoc, decNat_encNat, decNats_encNats]

theorem testCodec_parse_serialize (a : StoreIndex) (ha : StoreIndex.Valid a) :
    testCodec.parse (testCodec.serialize a) = some a := by
  have h := decMany_flatMap encEntry decEntry decEntry_encEntry a []
  simp only [List.append_nil] at h
  simp only [testCodec, decNat_encNat, h, if_pos ha]

theorem testCodec_parse_valid (bytes : Bytes) (a : StoreIndex)
    (h : testCodec.parse bytes = some a) : StoreIndex.Valid a := by
  simp only [testCodec] at h
  rcases hn : decNat bytes with _ | n
  · rw [hn] at h; simp at h
  · rw [hn] at h
    simp only [] at h
    rcases hm : decMany decEntry n.1 n.2 with _ | ⟨b, r⟩
    · rw [hm] at h; simp at h
    · rw [hm] at h
      rcases r with _ | ⟨r0, r⟩
      · simp only [] at h
        by_cases hv : StoreIndex.Valid b
        · rw [if_pos hv] at h
          exact (Option.some.inj h) ▸ hv
        · rw [if_neg hv] at h; simp at h
      · simp at h

/-! ## flush and prune_blocks -/

theorem lookupBlob_filter_none (key : String) (p : String × MemBlob → Bool)
    (l : List (String × MemBlob)) (h : lookupBlob key l = none) :
    lookupBlob key (l.filter p) = none := by
  induction l with
  | nil => rfl
  | cons kv rest ih =>
    by_cases hk : kv.1 = key
    · rw [lookupBlob, if_pos hk] at h; simp at h
    · rw [lookupBlob, if_neg hk] at h
      rw [List.filter_cons]
      split_ifs
      · rw [lookupBlob, if_neg hk]; exact ih h
      · exact ih h

theorem lookupBlob_delete_same (key : String) (l : List (String × MemBlob)) :
    lookupBlob key (l.filter (fun kv => decide (kv.1 ≠ key))) = none := by
  induction l with
  | nil => rfl
  | cons kv rest ih =>
    by_cases hk : kv.1 = key
    · rw [List.filter_cons, if_neg (by simp [hk])]; exact ih
    · rw [List.filter_cons, if_pos (by simp [hk]), lookupBlob, if_neg hk]; exact ih

theorem lookupBlob_deleteAll_keep_none (key : String) (hs : List BlockHash) :
    ∀ (m : MemBlobStore), lookupBlob key m.blobs = none →
      lookupBlob key (hs.foldl (fun acc h => acc.delete (block_path h)) m).blobs = none := by
  induction hs with
  | nil => intro m h; exact h
  | cons x xs ih =>
    intro m h
    exact ih _ (lookupBlob_filter_none key _ m.blobs h)

theorem lookupBlob_deleteAll (hs : List BlockHash) (h : BlockHash) (hh : h ∈ hs) :
    ∀ (m : MemBlobStore),
      lookupBlob (block_path h) (hs.foldl (fun acc h => acc.delete (block_path h)) m).blobs
        = none := by
  induction hs with
  | nil => cases hh
  | cons x xs ih =>
    intro m
    rcases List.mem_cons.mp hh with rfl | hx
    · exact lookupBlob_deleteAll_keep_none _ xs _ (lookupBlob_delete_same _ m.blobs)
    · exact ih hx _

theorem writeIfUnchanged_locked (m : MemBlobStore) (key : String) (data : Bytes) :
    m.writeIfUnchanged key data ((lookupBlob key m.blobs).map (fun b => b.generation)) =
      (WriteOutcome.Committed, m.write key data) := by
  simp [MemBlobStore.writeIfUnchanged]

theorem writeIndexLoop_succ (codec : Codec) (idx : StoreIndex) (n : Nat) (m : MemBlobStore) :
    writeIndexLoop codec idx (n + 1) m =
      (.ok (), m.write storeIndexKey (codec.serialize idx)) := by
  unfold writeIndexLoop MemBlobStore.lockWriteVersion
  by_cases hl : m.supportsLocking = true
  · simp only [hl, if_true, writeIfUnchanged_locked]
  · simp only [hl]
    rfl

theorem flushLoop_succ (codec : Codec) (P : List BlockIndexEntry) (n : Nat) (m : MemBlobStore)
    (remote : StoreIndex)
    (hremote : (match m.read storeIndexKey with
      | none => some []
      | some bytes => codec.parse bytes) = some remote) :
    flushLoop codec P (n + 1) m =
      (.ok (StoreIndex.merge remote P),
        m.write storeIndexKey (codec.serialize (StoreIndex.merge remote P))) := by
  unfold flushLoop MemBlobStore.lockWriteVersion
  simp only [hremote]
  by_cases hl : m.supportsLocking = true
  · simp only [hl, if_true, writeIfUnchanged_locked]
  · simp only [hl]
    rfl

theorem flushLoop_corrupt (codec : Codec) (P : List BlockIndexEntry) (n : Nat) (m : MemBlobStore)
    (hremote : (match m.read storeIndexKey with
      | none => some []
      | some bytes => codec.parse bytes) = none) :
    flushLoop codec P (n + 1) m = (.error StoreError.IndexCorrupt, m) := by
  unfold flushLoop
  simp only [hremote]

/-- What a successful flush leaves: the mode, nothing pending, a valid index. -/
theorem flush_ok (codec : Codec) (s s1 : RemoteBlockStore) (m m1 : MemBlobStore)
    (hpv : ∀ bytes I, codec.parse bytes = some I → StoreIndex.Valid I)
    (hvalid : StoreIndex.Valid s.index)
    (hflush : flush codec s m = (.ok (), s1, m1)) :
    s1.mode = s.mode ∧ s1.pendingAdded = [] ∧ StoreIndex.Valid s1.index := by
  unfold flush at hflush
  by_cases hp : s.pendingAdded = []
  · rw [if_pos hp] at hflush
    have : s = s1 := (Prod.mk.inj (Prod.mk.inj hflush).2).1
    rw [← this]
    exact ⟨rfl, hp, hvalid⟩
  · rw [if_neg hp] at hflush
    rcases hrem : (match m.read storeIndexKey with
      | none => some []
      | some bytes => codec.parse bytes) with _ | remote
    · rw [show MaxCasRetries = 9 + 1 from rfl, flushLoop_corrupt codec _ 9 m hrem] at hflush
      simp at hflush
    · rw [show MaxCasRetries = 9 + 1 from rfl, flushLoop_succ codec _ 9 m remote hrem] at hflush
      have hs1 := (Prod.mk.inj (Prod.mk.inj hflush).2).1
      rw [← hs1]
      refine ⟨rfl, rfl, StoreIndex.valid_merge _ _ ?_⟩
      rcases hr : m.read storeIndexKey with _ | bytes
      · rw [hr] at hrem
        have : ([] : StoreIndex) = remote := Option.some.inj hrem
        rw [← this]
        exact List.Pairwise.nil
      · rw [hr] at hrem
        exact hpv bytes remote hrem

/-- C8: `prune_blocks(keep)` returns the number of blocks of the store
index (the index after the implicit flush of the prune) whose hash is not
in `keep`; after it a flush changes nothing, and on the store opened again
`get_existing_content` returns only entries of that index whose hash is in
`keep`, and `get_block` of a pruned hash fails with `BlockMissing` (errno
`ENOENT`).  The backend is any in-memory backend, with or without version
locking; the codec is any codec whose `parse` inverts `serialize` on valid
indexes and yields valid indexes only. -/
theorem C8_prune_blocks (codec : Codec) (s s1 : RemoteBlockStore) (m m1 : MemBlobStore)
    (keep : List BlockHash)
    (hrt : ∀ I, StoreIndex.Valid I → codec.parse (codec.serialize I) = some I)
    (hpv : ∀ bytes I, codec.parse bytes = some I → StoreIndex.Valid I)
    (hmode : s.mode = AccessType.ReadWrite)
    (hvalid : StoreIndex.Valid s.index)
    (hflush : flush codec s m = (.ok (), s1, m1)) :
    ∃ s2 m2,
      prune_blocks codec s m keep =
        (.ok (s1.index.filter (fun e => decide (e.blockHash ∉ keep))).length, s2, m2) ∧
      flush codec s2 m2 = (.ok (), s2, m2) ∧
      ∃ s3, openStore codec AccessType.ReadWrite m2 = (.ok s3, m2) ∧
        (∀ C t, ∀ e ∈ get_existing_content s3 C t, e.blockHash ∈ keep ∧ e ∈ s1.index) ∧
        (∀ h ∈ StoreIndex.blockHashes s1.index, h ∉ keep →
          get_block codec m2 h = (.error StoreError.BlockMissing, m2)) := by
  obtain ⟨hmode1, hpend1, hvalid1⟩ := flush_ok codec s s1 m m1 hpv hvalid hflush
  have hcount : ((StoreIndex.blockHashes s1.index).filter (fun h => decide (h ∉ keep))).length =
      (s1.index.filter (fun e => decide (e.blockHash ∉ keep))).length := by
    unfold StoreIndex.blockHashes
    rw [List.filter_map, List.length_map]
    rfl
  have hmemRemove : ∀ h, h ∈ (StoreIndex.blockHashes s1.index).filter
      (fun h => decide (h ∉ keep)) ↔ h ∈ StoreIndex.blockHashes s1.index ∧ h ∉ keep := by
    intro h
    simp [List.mem_filter]
  generalize htr : (StoreIndex.blockHashes s1.index).filter (fun h => decide (h ∉ keep)) =
    toRemove at hcount hmemRemove
  have hprune : prune_blocks codec s m keep =
      (.ok toRemove.length,
        { s1 with index := StoreIndex.subtract s1.index toRemove },
        ((toRemove.foldl (fun acc h => acc.delete (block_path h)) m1).write storeIndexKey
          (codec.serialize (StoreIndex.subtract s1.index toRemove)))) := by
    unfold prune_blocks
    rw [if_neg (by simp [hmode]), hflush]
    simp only []
    rw [show MaxCasRetries = 9 + 1 from rfl, writeIndexLoop_succ, htr]
  have hread : ((toRemove.foldl (fun acc h => acc.delete (block_path h)) m1).write
      storeIndexKey (codec.serialize (StoreIndex.subtract s1.index toRemove))).read
        storeIndexKey = some (codec.serialize (StoreIndex.subtract s1.index toRemove)) := by
    obtain ⟨g, hg⟩ := lookupBlob_putBlob_same storeIndexKey
      (codec.serialize (StoreIndex.subtract s1.index toRemove))
      (toRemove.foldl (fun acc h => acc.delete (block_path h)) m1).blobs
    simp only [MemBlobStore.read, MemBlobStore.write, hg, Option.map_some']
  refine ⟨{ s1 with index := StoreIndex.subtract s1.index toRemove },
    (toRemove.foldl (fun acc h => acc.delete (block_path h)) m1).write storeIndexKey
      (codec.serialize (StoreIndex.subtract s1.index toRemove)),
    hprune.trans (by rw [hcount]), ?_,
    { index := StoreIndex.subtract s1.index toRemove, pendingAdded := [],
      mode := AccessType.ReadWrite }, ?_, ?_, ?_⟩
  · unfold flush
    rw [if_pos hpend1]
  · unfold openStore
    rw [hread]
    simp only [hrt _ (StoreIndex.valid_subtract _ _ hvalid1)]
  · intro C t e he
    have he2 : e ∈ StoreIndex.subtract s1.index toRemove :=
      StoreIndex.project_subset _ C t e he
    unfold StoreIndex.subtract at he2
    obtain ⟨hmem, hnot⟩ := List.mem_filter.mp he2
    refine ⟨?_, hmem⟩
    by_contra hk
    have : e.blockHash ∈ toRemove :=
      (hmemRemove e.blockHash).mpr ⟨List.mem_map.mpr ⟨e, hmem, rfl⟩, hk⟩
    simp [this] at hnot
  · intro h hh hk
    apply get_block_absent
    simp only [MemBlobStore.write]
    rw [lookupBlob_putBlob_other _ _ _ _ (block_path_ne_storeIndexKey h)]
    exact lookupBlob_deleteAll _ h ((hmemRemove h).mpr ⟨hh, hk⟩) m1

set_option maxRecDepth 100000 in
/-- Witness of C8, the case of `PruneStoreTest`: three blocks, the first
and the third are kept; the prune returns 1. -/
theorem C8_witness :
    (∀ I, StoreIndex.Valid I → testCodec.parse (testCodec.serialize I) = some I) ∧
    (∀ bytes I, testCodec.parse bytes = some I → StoreIndex.Valid I) ∧
    (threeBlockStore true).1 = .ok threeBlockState ∧
    threeBlockState.mode = AccessType.ReadWrite ∧
    StoreIndex.Valid threeBlockState.index ∧
    flush testCodec threeBlockState (threeBlockStore true).2 =
      (.ok (), threeBlockState, (threeBlockStore true).2) ∧
    (threeBlockState.index.filter (fun e => decide (e.blockHash ∉
      [(testBlock 0).blockHash, (testBlock 20).blockHash]))).length = 1 ∧
    (∃ s2 m2,
      prune_blocks testCodec threeBlockState (threeBlockStore true).2
          [(testBlock 0).blockHash, (testBlock 20).blockHash] =
        (.ok (threeBlockState.index.filter (fun e => decide (e.blockHash ∉
          [(testBlock 0).blockHash, (testBlock 20).blockHash]))).length, s2, m2) ∧
      flush testCodec s2 m2 = (.ok (), s2, m2) ∧
      ∃ s3, openStore testCodec AccessType.ReadWrite m2 = (.ok s3, m2) ∧
        (∀ C t, ∀ e ∈ get_existing_content s3 C t,
          e.blockHash ∈ [(testBlock 0).blockHash, (testBlock 20).blockHash] ∧
          e ∈ threeBlockState.index) ∧
        (∀ h ∈ StoreIndex.blockHashes threeBlockState.index,
          h ∉ [(testBlock 0).blockHash, (testBlock 20).blockHash] →
          get_block testCodec m2 h = (.error StoreError.BlockMissing, m2))) :=
  ⟨testCodec_parse_serialize, testCodec_parse_valid, rfl, rfl, by decide, rfl, by decide,
    C8_prune_blocks testCodec threeBlockState threeBlockState
      (threeBlockStore true).2 (threeBlockStore true).2
      [(testBlock 0).blockHash, (testBlock 20).blockHash]
      testCodec_parse_serialize testCodec_parse_valid rfl (by decide) rfl⟩

set_option maxRecDepth 100000 in
/-- Witness of C10, the case of `TestBlockScanning`: of the four blocks on
the backend only the one at the block path of its own hash is indexed. -/
theorem C10_witness :
    AccessType.Init ≠ AccessType.ReadOnly ∧
    scanBackend.exists storeIndexKey = false ∧
    (openStore testCodec AccessType.Init scanBackend).1 =
      .ok { index := [(testBlock 7).indexEntry], pendingAdded := [], mode := AccessType.Init } ∧
    (∃ s m1, openStore testCodec AccessType.Init scanBackend = (.ok s, m1) ∧
      s.pendingAdded = [] ∧
      (∀ e, e ∈ s.index ↔
        ∃ bytes b, scanBackend.read (block_path b.blockHash) = some bytes ∧
          testCodec.decode bytes = .ok b ∧ e = b.indexEntry) ∧
      (∀ C t, ∀ e ∈ get_existing_content s C t, e ∈ s.index) ∧
      (∀ C t, ∀ c ∈ StoreIndex.chunkHashes (get_existing_content s C t),
        ∃ bytes b, scanBackend.read (block_path b.blockHash) = some bytes ∧
          testCodec.decode bytes = .ok b ∧ c ∈ b.indexEntry.chunkHashes)) :=
  ⟨by decide, by decide, by rfl,
    C10_open_rebuilds_index_by_scan testCodec AccessType.Init scanBackend
      (by decide) (by decide)⟩

/-! ## s3Store.go -/

/-- C14: the S3 backend does not support version locking:
`s3BlobClient.SupportsLocking` returns false for every client, and
`s3BlobObject.LockWriteVersion` returns `(false, nil)` for every object in
every state of the service, which it leaves as it is. -/
theorem C14_s3_no_locking {σ : Type} (blobClient : s3BlobClient σ)
    (blobObject : s3BlobObject σ) (s : σ) :
    blobClient.SupportsLocking = false ∧
    blobObject.LockWriteVersion s = ((false, none), s) :=
  ⟨rfl, rfl⟩

theorem s3_write_state {σ : Type} (blobObject : s3BlobObject σ) (data : Bytes) (s : σ) :
    (blobObject.Write data s).2 =
      (blobObject.client.client.PutObject blobObject.client.store.bucketName
        blobObject.path data s).2 := by
  unfold s3BlobObject.Write
  rcases blobObject.client.client.PutObject blobObject.client.store.bucketName
    blobObject.path data s with ⟨_ | e, s1⟩ <;> rfl

/-- C15: `s3BlobObject.Write` is an unconditional overwrite: for every
object, data and state it makes the `PutObject` call on the bucket and key
of the object, whatever `LockWriteVersion` call came before, and whatever
`PutObject` answers it does not return `(false, nil)`. -/
theorem C15_s3_write_unconditional {σ : Type} (blobObject : s3BlobObject σ) (data : Bytes)
    (s : σ) :
    (blobObject.Write data s).1 ≠ (false, none) ∧
    (blobObject.Write data s).2 =
      (blobObject.client.client.PutObject blobObject.client.store.bucketName
        blobObject.path data s).2 ∧
    blobObject.Write data (blobObject.LockWriteVersion s).2 = blobObject.Write data s ∧
    (blobObject.Write data (blobObject.LockWriteVersion s).2).1 ≠ (false, none) := by
  have h1 : (blobObject.Write data s).1 ≠ (false, none) := by
    unfold s3BlobObject.Write
    rcases blobObject.client.client.PutObject blobObject.client.store.bucketName
      blobObject.path data s with ⟨_ | e, s1⟩ <;> simp
  exact ⟨h1, s3_write_state blobObject data s, rfl, h1⟩

/-- C16, what the code does: `s3BlobObject.Write` returns `true` whatever
`PutObject` answers, with the wrapped error of `PutObject` when it fails;
on the service of the examples with a failing `PutObject` the result is
`(true, err)`, where the `BlobObject` contract asks for `(false, err)`. -/
theorem C16_s3_write_returns_true_on_failure {σ : Type} (blobObject : s3BlobObject σ)
    (data : Bytes) (s : σ) :
    (blobObject.Write data s).1 =
      (true, Wrap (blobObject.client.client.PutObject blobObject.client.store.bucketName
        blobObject.path data s).1 "s3BlobObject.Write()") ∧
    (s3BlobObject.Write
      { client := { store := { bucketName := "bucket", pfx := "", options := ⟨""⟩ },
                    client := listS3 "bucket" (some (Error.Other "AccessDenied")) },
        path := "store.lsi" } [1, 2, 3] []).1 =
      (true, some (Error.Wrap (Error.Other "AccessDenied") "s3BlobObject.Write()")) := by
  refine ⟨?_, by rfl⟩
  unfold s3BlobObject.Write
  rcases blobObject.client.client.PutObject blobObject.client.store.bucketName
    blobObject.path data s with ⟨_ | e, s1⟩ <;> rfl

/-- C17: `s3BlobObject.Read` maps the failures of `GetObject` to two kinds:
for an error whose chain holds a `NoSuchKey` the data is nil and the error
returned has `os.ErrNotExist` in its chain; any other error of `GetObject`
is returned as it is, with nil data; when `GetObject` and the read of the
body succeed the bytes of the body are returned with a nil error. -/
theorem C17_s3_read_error_mapping {σ : Type} (blobObject : s3BlobObject σ) (s : σ) :
    (∀ e s1, blobObject.client.client.GetObject blobObject.client.store.bucketName
        blobObject.path s = (.error e, s1) → e.AsNoSuchKey = true →
      ∃ err, blobObject.Read s = ((none, some err), s1) ∧
        err.Is Error.ErrNotExist = true) ∧
    (∀ e s1, blobObject.client.client.GetObject blobObject.client.store.bucketName
        blobObject.path s = (.error e, s1) → e.AsNoSuchKey = false →
      blobObject.Read s = ((none, some e), s1)) ∧
    (∀ data s1, blobObject.client.client.GetObject blobObject.client.store.bucketName
        blobObject.path s = (.ok (data, none), s1) →
      blobObject.Read s = ((some data, none), s1)) := by
  refine ⟨?_, ?_, ?_⟩
  · intro e s1 hg hk
    refine ⟨Error.Wrap (Error.WrapfErr Error.ErrNotExist "%v" e) "s3BlobObject.Read()", ?_, ?_⟩
    · unfold s3BlobObject.Read
      rw [hg]
      simp [hk]
    · simp [Error.Is]
  · intro e s1 hg hk
    unfold s3BlobObject.Read
    rw [hg]
    simp [hk]
  · intro data s1 hg
    unfold s3BlobObject.Read
    rw [hg]

/-- Counterexample to C18: on the service of the examples with an empty
bucket, `Read` of a key that does not exist (`GetObject` fails with
`NoSuchKey`) returns nil data with a non-nil error, not `(nil, nil)`. -/
theorem C18_counterexample :
    ((listS3 "bucket" none).GetObject "bucket" "chunks/missing.lsb" []).1 =
      .error (Error.Wrap (Error.NoSuchKey "chunks/missing.lsb")
        "operation error S3: GetObject") ∧
    (s3BlobObject.Read
      { client := { store := { bucketName := "bucket", pfx := "", options := ⟨""⟩ },
                    client := listS3 "bucket" none },
        path := "chunks/missing.lsb" } []).1 =
      (none, some (Error.Wrap (Error.WrapfErr Error.ErrNotExist "%v"
        (Error.Wrap (Error.NoSuchKey "chunks/missing.lsb") "operation error S3: GetObject"))
        "s3BlobObject.Read()")) ∧
    (s3BlobObject.Read
      { client := { store := { bucketName := "bucket", pfx := "", options := ⟨""⟩ },
                    client := listS3 "bucket" none },
        path := "chunks/missing.lsb" } []).1 ≠ (none, none) := by
  refine ⟨by rfl, by rfl, by decide⟩

/-- C18, amended: for the S3 backend, a `Read` of a key that does not exist
(`GetObject` fails with `NoSuchKey`) returns nil data and a non-nil error
that has `os.ErrNotExist` in its chain; `s3BlobObject.Read` returns nil
data together with a nil error in no case. -/
theorem C18_s3_read_missing_key_is_error {σ : Type} (blobObject : s3BlobObject σ) (s : σ) :
    (blobObject.Read s).1 ≠ (none, none) ∧
    (∀ e s1, blobObject.client.client.GetObject blobObject.client.store.bucketName
        blobObject.path s = (.error e, s1) → e.AsNoSuchKey = true →
      (blobObject.Read s).1.1 = none ∧
      ∃ err, (blobObject.Read s).1.2 = some err ∧ err.Is Error.ErrNotExist = true) := by
  refine ⟨?_, ?_⟩
  · unfold s3BlobObject.Read
    rcases blobObject.client.client.GetObject blobObject.client.store.bucketName
      blobObject.path s with ⟨e | ⟨data, _ | e⟩, s1⟩
    · by_cases hk : e.AsNoSuchKey = true <;> simp [hk]
    · simp
    · simp
  · intro e s1 hg hk
    have : blobObject.Read s = ((none, some (Error.Wrap
        (Error.WrapfErr Error.ErrNotExist "%v" e) "s3BlobObject.Read()")), s1) := by
      unfold s3BlobObject.Read
      rw [hg]
      simp [hk]
    rw [this]
    exact ⟨rfl, _, rfl, by simp [Error.Is]⟩

/-- C19: `s3BlobObject.Exists` returns `(true, nil)` exactly when
`HeadObject` succeeds, `(false, nil)` exactly when `HeadObject` fails with
an error whose chain holds a `NotFound`, and `(false, err)` with the
wrapped error for every other failure; it never returns `true` together
with an error. -/
theorem C19_s3_exists_three_valued {σ : Type} (blobObject : s3BlobObject σ) (s : σ) :
    ((blobObject.Exists s).1 = (true, none) ↔
      (blobObject.client.client.HeadObject blobObject.client.store.bucketName
        blobObject.path s).1 = none) ∧
    ((blobObject.Exists s).1 = (false, none) ↔
      ∃ e, (blobObject.client.client.HeadObject blobObject.client.store.bucketName
        blobObject.path s).1 = some e ∧ e.AsNotFound = true) ∧
    (∀ e, (blobObject.client.client.HeadObject blobObject.client.store.bucketName
        blobObject.path s).1 = some e → e.AsNotFound = false →
      (blobObject.Exists s).1 = (false, some (Error.Wrap e "s3BlobObject.Exists()"))) ∧
    (∀ e, (blobObject.Exists s).1 ≠ (true, some e)) ∧
    (blobObject.Exists s).2 =
      (blobObject.client.client.HeadObject blobObject.client.store.bucketName
        blobObject.path s).2 := by
  unfold s3BlobObject.Exists
  rcases blobObject.client.client.HeadObject blobObject.client.store.bucketName
    blobObject.path s with ⟨_ | e, s1⟩
  · simp
  · by_cases hk : e.AsNotFound = true
    · simp [hk]
    · simp [hk]

theorem drop_leading_slash (P : String) : String.mk (("/" ++ P).data.drop 1) = P := by
  rw [String.data_append]
  show String.mk P.data = P
  cases P
  rfl

theorem length_leading_slash (P : String) : 0 < ("/" ++ P).length := by
  rw [String.length, String.data_append]
  show 0 < ('/' :: P.data).length
  simp

/-- C20: for the store made from the URL `s3://B/P` with `P` non-empty
(scheme `s3`, host `B`, path `/P`), `NewObject(r)` addresses the bucket `B`
and the key `P + "/" + r` for every relative path `r`, so the store index is
at the key `P/store.lsi`, and a `Write` on the object is a `PutObject` on
that bucket and key; for the URL `s3://B` (empty path) the key is `r`
itself. -/
theorem C20_s3_key_layout {σ : Type} (B P r : String) (opts : List (S3Options → S3Options))
    (api : S3API σ) (hP : P ≠ "") :
    (∃ st, NewS3BlobStore { Scheme := "s3", Host := B, Path := "/" ++ P } opts = .ok st ∧
      st.bucketName = B ∧ st.pfx = P ++ "/" ∧
      (∃ obj, s3BlobClient.NewObject { store := st, client := api } r = .ok obj ∧
        obj.client.store.bucketName = B ∧ obj.path = P ++ "/" ++ r ∧
        ∀ data s, (obj.Write data s).2 = (api.PutObject B (P ++ "/" ++ r) data s).2) ∧
      (∃ obj, s3BlobClient.NewObject { store := st, client := api } "store.lsi" = .ok obj ∧
        obj.client.store.bucketName = B ∧ obj.path = P ++ "/" ++ "store.lsi")) ∧
    (∃ st, NewS3BlobStore { Scheme := "s3", Host := B, Path := "" } opts = .ok st ∧
      st.bucketName = B ∧ st.pfx = "" ∧
      ∃ obj, s3BlobClient.NewObject { store := st, client := api } r = .ok obj ∧
        obj.client.store.bucketName = B ∧ obj.path = r) := by
  have hst : NewS3BlobStore { Scheme := "s3", Host := B, Path := "/" ++ P } opts =
      .ok { bucketName := B, pfx := P ++ "/",
            options := opts.foldl (fun o opt => opt o) { EndpointResolverURI := "" } } := by
    unfold NewS3BlobStore
    simp only [ne_eq, not_true_eq_false, if_false, length_leading_slash, if_true,
      drop_leading_slash, hP, not_false_eq_true]
  have hst0 : NewS3BlobStore { Scheme := "s3", Host := B, Path := "" } opts =
      .ok { bucketName := B, pfx := "",
            options := opts.foldl (fun o opt => opt o) { EndpointResolverURI := "" } } := by
    unfold NewS3BlobStore
    simp
  refine ⟨⟨_, hst, rfl, rfl, ⟨_, rfl, rfl, rfl, ?_⟩, ⟨_, rfl, rfl, rfl⟩⟩,
    ⟨_, hst0, rfl, rfl, ⟨_, rfl, rfl, ?_⟩⟩⟩
  · intro data s
    exact s3_write_state _ data s
  · show "" ++ r = r
    cases r
    rfl

/-- Witness of C20: the store of `s3://bucket/path`. -/
theorem C20_witness :
    "path" ≠ "" ∧
    (∃ st, NewS3BlobStore { Scheme := "s3", Host := "bucket", Path := "/" ++ "path" } [] =
        .ok st ∧
      st.bucketName = "bucket" ∧ st.pfx = "path" ++ "/" ∧
      (∃ obj, s3BlobClient.NewObject { store := st, client := listS3 "bucket" none }
          "chunks/0000/0x0000000000000001.lsb" = .ok obj ∧
        obj.client.store.bucketName = "bucket" ∧
        obj.path = "path" ++ "/" ++ "chunks/0000/0x0000000000000001.lsb" ∧
        ∀ data s, (obj.Write data s).2 = ((listS3 "bucket" none).PutObject "bucket"
          ("path" ++ "/" ++ "chunks/0000/0x0000000000000001.lsb") data s).2) ∧
      (∃ obj, s3BlobClient.NewObject { store := st, client := listS3 "bucket" none }
          "store.lsi" = .ok obj ∧
        obj.client.store.bucketName = "bucket" ∧
        obj.path = "path" ++ "/" ++ "store.lsi")) :=
  ⟨by decide,
    (C20_s3_key_layout "bucket" "path" "chunks/0000/0x0000000000000001.lsb" []
      (listS3 "bucket" none) (by decide)).1⟩

/-! ## upsync -/

/-- C13: if opening the remote store fails, or fetching the existing store
index returns a non-zero errno, `upsync` returns a non-nil error and calls
none of `WriteContent`, `FlushStoresSync` and `WriteToURI`, so the version
index is not written to the target path.  `ErrnoToError` is assumed to give
a non-nil error for a non-zero errno. -/
theorem C13_upsync_surfaces_broken_store (env : UpsyncEnv) (args : UpsyncArgs)
    (hErrno : ∀ errno fallback, errno ≠ 0 → env.ErrnoToError errno fallback ≠ none)
    (hfail : env.createBlockStoreForURI ≠ none ∨ env.GetExistingStoreIndexSync ≠ 0) :
    (upsync env args).err ≠ none ∧
    UpsyncCall.WriteContent ∉ (upsync env args).trace ∧
    UpsyncCall.FlushStoresSync ∉ (upsync env args).trace ∧
    ∀ uri, UpsyncCall.WriteToURI uri ∉ (upsync env args).trace := by
  unfold upsync
  rcases h1 : env.MakeRegexPathFilter with _ | e1
  · rcases h2 : env.getCompressionType with _ | e2
    · rcases h3 : env.getHashIdentifier with _ | e3
      · rcases h4 : env.createBlockStoreForURI with _ | e4
        · rcases h5 : env.sourceIndexReaderGet with _ | e5
          · have h6 : env.GetExistingStoreIndexSync ≠ 0 := by
              rcases hfail with h | h
              · exact absurd h4 h
              · exact h
            obtain ⟨e6, he6⟩ := Option.ne_none_iff_exists'.mp
              (hErrno env.GetExistingStoreIndexSync Error.ErrEIO h6)
            by_cases hs : args.sourceIndexPath = "" <;>
              simp [upsyncGetMissingContent, UpsyncResult.call, UpsyncResult.time,
                UpsyncResult.ret, Wrapf, h6, he6, hs]
          · by_cases hs : args.sourceIndexPath = "" <;>
              simp [UpsyncResult.call, UpsyncResult.time, UpsyncResult.ret, hs]
        · by_cases hs : args.sourceIndexPath = "" <;>
            simp [UpsyncResult.call, UpsyncResult.time, UpsyncResult.ret, hs]
      · by_cases hs : args.sourceIndexPath = "" <;>
          simp [UpsyncResult.call, UpsyncResult.time, UpsyncResult.ret, hs]
    · by_cases hs : args.sourceIndexPath = "" <;>
        simp [UpsyncResult.call, UpsyncResult.time, UpsyncResult.ret, hs]
  · simp [UpsyncResult.call, UpsyncResult.ret]

/-- Witness of C13, a run as in `TestUpsyncWithBrokenLSI`: the store opens
and fetching the existing store index fails, here with errno 9. -/
theorem C13_witness :
    (∀ errno fallback, errno ≠ 0 →
      ({ okEnv with GetExistingStoreIndexSync := 9 } : UpsyncEnv).ErrnoToError errno fallback
        ≠ none) ∧
    (({ okEnv with GetExistingStoreIndexSync := 9 } : UpsyncEnv).createBlockStoreForURI ≠ none ∨
      ({ okEnv with GetExistingStoreIndexSync := 9 } : UpsyncEnv).GetExistingStoreIndexSync
        ≠ 0) ∧
    (upsync { okEnv with GetExistingStoreIndexSync := 9 } brokenLSIArgs).err =
      some (Error.Wrapf Error.ErrEIO
        "upsync: longtailutils.GetExistingStoreIndexSync(%s) failed"
        ["fsblob://test/storage"]) ∧
    ((upsync { okEnv with GetExistingStoreIndexSync := 9 } brokenLSIArgs).err ≠ none ∧
      UpsyncCall.WriteContent ∉
        (upsync { okEnv with GetExistingStoreIndexSync := 9 } brokenLSIArgs).trace ∧
      UpsyncCall.FlushStoresSync ∉
        (upsync { okEnv with GetExistingStoreIndexSync := 9 } brokenLSIArgs).trace ∧
      ∀ uri, UpsyncCall.WriteToURI uri ∉
        (upsync { okEnv with GetExistingStoreIndexSync := 9 } brokenLSIArgs).trace) :=
  have hE : ∀ (errno : Int) (fallback : Error), errno ≠ 0 →
      ({ okEnv with GetExistingStoreIndexSync := 9 } : UpsyncEnv).ErrnoToError errno fallback
        ≠ none := by
    intro errno fallback h
    simp [okEnv, h]
  ⟨hE, Or.inr (by decide), by rfl,
    C13_upsync_surfaces_broken_store { okEnv with GetExistingStoreIndexSync := 9 }
      brokenLSIArgs hE (Or.inr (by decide))⟩

/-! ## Dispose and open again -/

theorem put_block_fresh (codec : Codec) (s : RemoteBlockStore) (m : MemBlobStore)
    (B : StoredBlock) (hmode : s.mode = AccessType.ReadWrite)
    (hindex : B.blockHash ∉ StoreIndex.blockHashes s.index)
    (hpending : B.blockHash ∉ StoreIndex.blockHashes s.pendingAdded) :
    put_block codec s m B = (.ok PutResult.Stored,
      { s with pendingAdded := s.pendingAdded ++ [B.indexEntry] },
      m.write (block_path B.blockHash) (codec.encode B)) := by
  simp [put_block, hmode, hindex, hpending]

theorem putBlocks_fresh (codec : Codec) (bs : List StoredBlock) :
    ∀ (s : RemoteBlockStore) (m : MemBlobStore), s.mode = AccessType.ReadWrite →
      (bs.map (fun b => b.blockHash)).Nodup →
      (∀ B ∈ bs, B.blockHash ∉ StoreIndex.blockHashes s.index ∧
        B.blockHash ∉ StoreIndex.blockHashes s.pendingAdded) →
      (putBlocks codec bs (s, m)).1 =
        { s with pendingAdded := s.pendingAdded ++ bs.map (fun b => b.indexEntry) } ∧
      lookupBlob storeIndexKey (putBlocks codec bs (s, m)).2.blobs =
        lookupBlob storeIndexKey m.blobs := by
  induction bs with
  | nil => intro s m _ _ _; simp [putBlocks]
  | cons B rest ih =>
    intro s m hmode hnodup hfresh
    have hB := hfresh B (List.mem_cons_self _ _)
    rw [List.map_cons, List.nodup_cons] at hnodup
    unfold putBlocks
    rw [put_block_fresh codec s m B hmode hB.1 hB.2]
    have hrest := ih { s with pendingAdded := s.pendingAdded ++ [B.indexEntry] }
      (m.write (block_path B.blockHash) (codec.encode B)) hmode hnodup.2
      (by
        intro B2 hB2
        have h2 := hfresh B2 (List.mem_cons_of_mem _ hB2)
        refine ⟨h2.1, ?_⟩
        simp only [StoreIndex.blockHashes, List.map_append, List.mem_append, List.map_cons,
          List.map_nil, List.mem_singleton, not_or]
        refine ⟨h2.2, ?_⟩
        intro heq
        apply hnodup.1
        exact List.mem_map.mpr ⟨B2, hB2, heq⟩)
    refine ⟨?_, ?_⟩
    · rw [hrest.1]
      simp
    · rw [hrest.2]
      simp only [MemBlobStore.write]
      exact lookupBlob_putBlob_other _ _ _ _ (Ne.symm (block_path_ne_storeIndexKey _))

/-- Opening the store again after a dispose: the index is the index of the
disposed store merged with what was pending. -/
theorem openStore_after_dispose (codec : Codec) (s : RemoteBlockStore) (m : MemBlobStore)
    (mode : AccessType)
    (hrt : ∀ I, StoreIndex.Valid I → codec.parse (codec.serialize I) = some I)
    (hvalid : StoreIndex.Valid s.index)
    (hsync : ∃ bytes, m.read storeIndexKey = some bytes ∧ codec.parse bytes = some s.index) :
    openStore codec mode (dispose codec s m) =
      (.ok { index := StoreIndex.merge s.index s.pendingAdded, pendingAdded := [],
             mode := mode }, dispose codec s m) := by
  obtain ⟨bytes, hread, hparse⟩ := hsync
  by_cases hp : s.pendingAdded = []
  · have hd : dispose codec s m = m := by
      unfold dispose flush
      rw [if_pos hp]
    rw [hd, hp]
    unfold openStore
    rw [hread]
    simp only [hparse]
    rfl
  · have hrem : (match m.read storeIndexKey with
        | none => some []
        | some bytes => codec.parse bytes) = some s.index := by
      rw [hread]; exact hparse
    have hd : dispose codec s m = m.write storeIndexKey
        (codec.serialize (StoreIndex.merge s.index s.pendingAdded)) := by
      unfold dispose flush
      rw [if_neg hp, show MaxCasRetries = 9 + 1 from rfl,
        flushLoop_succ codec _ 9 m s.index hrem]
    rw [hd]
    obtain ⟨g, hg⟩ := lookupBlob_putBlob_same storeIndexKey
      (codec.serialize (StoreIndex.merge s.index s.pendingAdded)) m.blobs
    unfold openStore
    simp only [MemBlobStore.read, MemBlobStore.write, hg, Option.map_some',
      hrt _ (StoreIndex.valid_merge _ _ hvalid)]

/-! ## The resolver depends only on the requested chunks that are indexed -/

theorem orderedInsert_congr {α : Type} (r r2 : α → α → Prop) [DecidableRel r]
    [DecidableRel r2] (a : α) (l : List α) (h : ∀ b ∈ l, (r a b ↔ r2 a b)) :
    l.orderedInsert r a = l.orderedInsert r2 a := by
  induction l with
  | nil => rfl
  | cons b bs ih =>
    have hb := h b (List.mem_cons_self _ _)
    have ih2 := ih (fun x hx => h x (List.mem_cons_of_mem _ hx))
    by_cases hr : r a b
    · simp [List.orderedInsert, hr, hb.mp hr]
    · have hr2 : ¬ r2 a b := fun h2 => hr (hb.mpr h2)
      simp [List.orderedInsert, hr, hr2, ih2]

theorem insertionSort_congr {α : Type} (r r2 : α → α → Prop) [DecidableRel r]
    [DecidableRel r2] (l : List α) (h : ∀ a ∈ l, ∀ b ∈ l, (r a b ↔ r2 a b)) :
    l.insertionSort r = l.insertionSort r2 := by
  induction l with
  | nil => rfl
  | cons a as ih =>
    have ih2 := ih (fun x hx y hy =>
      h x (List.mem_cons_of_mem _ hx) y (List.mem_cons_of_mem _ hy))
    rw [List.insertionSort, List.insertionSort, ih2]
    apply orderedInsert_congr
    intro b hb
    have hb2 : b ∈ as := (List.perm_insertionSort r2 as).mem_iff.mp hb
    exact h a (List.mem_cons_self _ _) b (List.mem_cons_of_mem _ hb2)

theorem foldl_congr_mem {α β : Type} (f g : β → α → β) (l : List α)
    (h : ∀ a ∈ l, ∀ st, f st a = g st a) : ∀ st, l.foldl f st = l.foldl g st := by
  induction l with
  | nil => intro st; rfl
  | cons a as ih =>
    intro st
    rw [List.foldl_cons, List.foldl_cons, h a (List.mem_cons_self _ _) st]
    exact ih (fun x hx => h x (List.mem_cons_of_mem _ hx)) _

theorem useful_congr (C C2 : List ChunkHash) (b : BlockIndexEntry)
    (h : ∀ c ∈ b.chunkHashes, (c ∈ C ↔ c ∈ C2)) : useful C b = useful C2 b := by
  unfold useful
  congr 1
  apply List.filter_congr
  intro c hc
  simp [h c hc]

theorem greedyStep_congr (C C2 : List ChunkHash) (b : BlockIndexEntry)
    (h : ∀ c ∈ b.chunkHashes, (c ∈ C ↔ c ∈ C2))
    (st : List BlockIndexEntry × List ChunkHash) :
    greedyStep C st b = greedyStep C2 st b := by
  have hany : b.chunkHashes.any (fun c => decide (c ∈ C) && !decide (c ∈ st.2)) =
      b.chunkHashes.any (fun c => decide (c ∈ C2) && !decide (c ∈ st.2)) := by
    rw [Bool.eq_iff_iff, List.any_eq_true, List.any_eq_true]
    constructor
    · rintro ⟨c, hc, hp⟩
      refine ⟨c, hc, ?_⟩
      simp only [Bool.and_eq_true, decide_eq_true_eq] at hp ⊢
      exact ⟨(h c hc).mp hp.1, hp.2⟩
    · rintro ⟨c, hc, hp⟩
      refine ⟨c, hc, ?_⟩
      simp only [Bool.and_eq_true, decide_eq_true_eq] at hp ⊢
      exact ⟨(h c hc).mpr hp.1, hp.2⟩
  unfold greedyStep
  rw [hany]

theorem greedySelect_congr (C C2 : List ChunkHash) (t : Nat) (a : StoreIndex)
    (h : ∀ b ∈ a, ∀ c ∈ b.chunkHashes, (c ∈ C ↔ c ∈ C2)) :
    greedySelect C t a = greedySelect C2 t a := by
  have hfilter : a.filter (isCandidate C t) = a.filter (isCandidate C2 t) := by
    apply List.filter_congr
    intro b hb
    unfold isCandidate
    rw [useful_congr C C2 b (h b hb)]
  have hsort : (a.filter (isCandidate C2 t)).insertionSort (candidateOrder C) =
      (a.filter (isCandidate C2 t)).insertionSort (candidateOrder C2) := by
    apply insertionSort_congr
    intro x hx y hy
    have hxa := (List.mem_filter.mp hx).1
    have hya := (List.mem_filter.mp hy).1
    unfold candidateOrder
    rw [useful_congr C C2 x (h x hxa), useful_congr C C2 y (h y hya)]
  unfold greedySelect
  rw [hfilter, hsort]
  congr 1
  apply foldl_congr_mem
  intro b hb st
  have hb2 := (List.perm_insertionSort (candidateOrder C2) _).mem_iff.mp hb
  exact greedyStep_congr C C2 b (h b (List.mem_filter.mp hb2).1) st

theorem project_congr (C C2 : List ChunkHash) (t : Nat) (a : StoreIndex)
    (h : ∀ b ∈ a, ∀ c ∈ b.chunkHashes, (c ∈ C ↔ c ∈ C2)) :
    StoreIndex.project a C t = StoreIndex.project a C2 t := by
  unfold StoreIndex.project
  rw [greedySelect_congr C C2 t a h]

theorem project_zero_covers (a : StoreIndex) (C : List ChunkHash) :
    ∀ b ∈ a, ∀ c ∈ b.chunkHashes, c ∈ C →
      ∃ e ∈ StoreIndex.project a C 0, c ∈ e.chunkHashes := by
  intro b hb c hc hreq
  obtain ⟨x, hx, hxc⟩ := greedySelect_covers C 0 a b hb
    ((isCandidate_zero C b).mpr ⟨c, hc, hreq⟩) c hc hreq
  refine ⟨x, ?_, hxc⟩
  unfold StoreIndex.project
  exact List.mem_filter.mpr ⟨(greedySelect_subset C 0 a x hx).1, by simpa using hx⟩

theorem project_zero_mem_of_disjoint (a : StoreIndex) (C : List ChunkHash)
    (hdisj : ∀ b1 ∈ a, ∀ b2 ∈ a, ∀ c ∈ C, c ∈ b1.chunkHashes → c ∈ b2.chunkHashes → b1 = b2) :
    ∀ b ∈ a, (∃ c ∈ b.chunkHashes, c ∈ C) → b ∈ StoreIndex.project a C 0 := by
  intro b hb hex
  obtain ⟨c, hc, hreq⟩ := hex
  obtain ⟨e, he, hec⟩ := project_zero_covers a C b hb c hc hreq
  have hea := StoreIndex.project_subset a C 0 e he
  have : e = b := hdisj e hea b hb c hreq hec hc
  rw [← this]; exact he

/-- A `ReadWrite` open that succeeds leaves `store.lsi` on the backend with
the index of the store. -/
theorem openStore_readWrite_sync (codec : Codec) (m0 m : MemBlobStore) (s : RemoteBlockStore)
    (hrt : ∀ I, StoreIndex.Valid I → codec.parse (codec.serialize I) = some I)
    (hpv : ∀ bytes I, codec.parse bytes = some I → StoreIndex.Valid I)
    (hopen : openStore codec AccessType.ReadWrite m0 = (.ok s, m)) :
    s.mode = AccessType.ReadWrite ∧ s.pendingAdded = [] ∧ StoreIndex.Valid s.index ∧
    ∃ bytes, m.read storeIndexKey = some bytes ∧ codec.parse bytes = some s.index := by
  unfold openStore at hopen
  rcases hread : m0.read storeIndexKey with _ | bytes
  · rw [hread] at hopen
    simp only [Prod.mk.injEq, Except.ok.injEq] at hopen
    obtain ⟨hs, hm⟩ := hopen
    have hv : StoreIndex.Valid (recoveryScan codec m0) :=
      StoreIndex.valid_merge _ [] List.Pairwise.nil
    subst hs
    subst hm
    refine ⟨rfl, rfl, hv, codec.serialize (recoveryScan codec m0), ?_, hrt _ hv⟩
    obtain ⟨g, hg⟩ := lookupBlob_putBlob_same storeIndexKey
      (codec.serialize (recoveryScan codec m0)) m0.blobs
    simp [MemBlobStore.read, MemBlobStore.write, hg]
  · rw [hread] at hopen
    rcases hparse : codec.parse bytes with _ | idx
    · simp [hparse] at hopen
    · simp only [hparse, Prod.mk.injEq, Except.ok.injEq] at hopen
      obtain ⟨hs, hm⟩ := hopen
      subst hs
      subst hm
      exact ⟨rfl, rfl, hpv _ _ hparse, bytes, hread, hparse⟩

/-- Blocks that are all put with the result `Stored` have pairwise
different block hashes, none of them held by the store before. -/
theorem putResults_stored (codec : Codec) (bs : List StoredBlock) :
    ∀ (s : RemoteBlockStore) (m : MemBlobStore),
      (∀ r ∈ putResults codec bs (s, m), r = .ok PutResult.Stored) →
      (bs.map (fun b => b.blockHash)).Nodup ∧
      ∀ B ∈ bs, B.blockHash ∉ StoreIndex.blockHashes s.index ∧
        B.blockHash ∉ StoreIndex.blockHashes s.pendingAdded := by
  induction bs with
  | nil => intro s m _; simp
  | cons B rest ih =>
    intro s m hall
    have h1 : (put_block codec s m B).1 = .ok PutResult.Stored :=
      hall _ (by simp [putResults])
    have hfresh : s.mode ≠ AccessType.ReadOnly ∧
        B.blockHash ∉ StoreIndex.blockHashes s.index ∧
        B.blockHash ∉ StoreIndex.blockHashes s.pendingAdded := by
      unfold put_block at h1
      by_cases hm : s.mode = AccessType.ReadOnly
      · simp [hm] at h1
      · by_cases hin : B.blockHash ∈ StoreIndex.blockHashes s.index ∨
            B.blockHash ∈ StoreIndex.blockHashes s.pendingAdded
        · simp [hm, hin] at h1
        · exact ⟨hm, not_or.mp hin⟩
    have hstate : (put_block codec s m B).2 =
        ({ s with pendingAdded := s.pendingAdded ++ [B.indexEntry] },
          m.write (block_path B.blockHash) (codec.encode B)) := by
      unfold put_block
      simp [hfresh.1, hfresh.2.1, hfresh.2.2]
    have hrest := ih { s with pendingAdded := s.pendingAdded ++ [B.indexEntry] }
      (m.write (block_path B.blockHash) (codec.encode B)) (by
        intro r hr
        apply hall
        simp only [putResults, List.mem_cons]
        right
        rw [hstate]
        exact hr)
    obtain ⟨hnd, hfr⟩ := hrest
    have hpend : ∀ B2 ∈ rest, B2.blockHash ≠ B.blockHash ∧
        B2.blockHash ∉ StoreIndex.blockHashes s.pendingAdded := by
      intro B2 hB2
      have h2 := (hfr B2 hB2).2
      simp only [StoreIndex.blockHashes, List.map_append, List.mem_append, List.map_cons,
        List.map_nil, List.mem_singleton, not_or] at h2
      exact ⟨h2.2, by simpa [StoreIndex.blockHashes] using h2.1⟩
    refine ⟨?_, ?_⟩
    · rw [List.map_cons, List.nodup_cons]
      refine ⟨?_, hnd⟩
      intro hmem
      obtain ⟨B2, hB2, heq⟩ := List.mem_map.mp hmem
      exact (hpend B2 hB2).1 heq
    · intro B2 hB2
      rcases List.mem_cons.mp hB2 with rfl | hB2
      · exact hfresh.2
      · exact ⟨(hfr B2 hB2).1, (hpend B2 hB2).2⟩

set_option maxRecDepth 100000 in
/-- Counterexample to C11, in three parts.  `testBlock 0` and
`sharedChunkBlock` are put into a fresh store, both with the result
`Stored`; the store is disposed without a flush and opened again.  Both
blocks are in the index of the new store and both contain the chunk hash 1,
but `get_existing_content([1], 0)` does not return the second of them, and
`get_existing_content([1], 100)` does not return the first.  A block with
the block hash of `testBlock 0` and the one chunk hash 77, put after
`testBlock 0`, is `AlreadyPresent`; after the dispose the new store returns
no block for the chunk hash 77. -/
theorem C11_counterexample :
    (put_block testCodec (freshStore true).1 (freshStore true).2 (testBlock 0)).1 =
      .ok PutResult.Stored ∧
    (put_block testCodec
      (put_block testCodec (freshStore true).1 (freshStore true).2 (testBlock 0)).2.1
      (put_block testCodec (freshStore true).1 (freshStore true).2 (testBlock 0)).2.2
      sharedChunkBlock).1 = .ok PutResult.Stored ∧
    (openStore testCodec AccessType.ReadWrite
      (dispose testCodec
        (putBlocks testCodec [testBlock 0, sharedChunkBlock] (freshStore true)).1
        (putBlocks testCodec [testBlock 0, sharedChunkBlock] (freshStore true)).2)).1 =
      .ok { index := [(testBlock 0).indexEntry, sharedChunkBlock.indexEntry],
            pendingAdded := [], mode := AccessType.ReadWrite } ∧
    1 ∈ sharedChunkBlock.indexEntry.chunkHashes ∧
    1 ∈ (testBlock 0).indexEntry.chunkHashes ∧
    get_existing_content
      { index := [(testBlock 0).indexEntry, sharedChunkBlock.indexEntry],
        pendingAdded := [], mode := AccessType.ReadWrite } [1] 0 =
      [(testBlock 0).indexEntry] ∧
    sharedChunkBlock.indexEntry ∉ get_existing_content
      { index := [(testBlock 0).indexEntry, sharedChunkBlock.indexEntry],
        pendingAdded := [], mode := AccessType.ReadWrite } [1] 0 ∧
    (testBlock 0).indexEntry ∉ get_existing_content
      { index := [(testBlock 0).indexEntry, sharedChunkBlock.indexEntry],
        pendingAdded := [], mode := AccessType.ReadWrite } [1] 100 ∧
    (put_block testCodec
      (put_block testCodec (freshStore true).1 (freshStore true).2 (testBlock 0)).2.1
      (put_block testCodec (freshStore true).1 (freshStore true).2 (testBlock 0)).2.2
      { testBlock 0 with chunks := [{ hash := 77, size := 1, bytes := [1] }] }).1 =
        .ok PutResult.AlreadyPresent ∧
    (openStore testCodec AccessType.ReadWrite
      (dispose testCodec
        (putBlocks testCodec
          [testBlock 0, { testBlock 0 with chunks := [{ hash := 77, size := 1, bytes := [1] }] }]
          (freshStore true)).1
        (putBlocks testCodec
          [testBlock 0, { testBlock 0 with chunks := [{ hash := 77, size := 1, bytes := [1] }] }]
          (freshStore true)).2)).1 =
      .ok { index := [(testBlock 0).indexEntry], pendingAdded := [],
            mode := AccessType.ReadWrite } ∧
    get_existing_content
      { index := [(testBlock 0).indexEntry], pendingAdded := [],
        mode := AccessType.ReadWrite } [77] 0 = [] := by
  refine ⟨by rfl, by rfl, by rfl, by decide, by decide, by decide, by decide, by decide,
    by rfl, by rfl, by decide⟩

/-- C11, amended: blocks are put, each with the result `Stored`, into a
store that was opened `ReadWrite` on a backend; the store is disposed, with
no call of flush, and a new `ReadWrite` store is opened on the same backend.
The open succeeds and the index of the new store holds every block put;
`get_existing_content` of the new store gives what the disposed store gave;
with `min_block_usage_percent = 0` every requested chunk hash that a put
block contains is contained in a returned block, and when no requested chunk
hash is contained in two indexed blocks every put block that contains a
requested chunk hash is returned; a further requested chunk hash that no
indexed block contains does not change the result.  The index codec reads
back every valid index it wrote and yields only valid indexes. -/
theorem C11_blocks_durable_across_dispose (codec : Codec) (m0 m : MemBlobStore)
    (s : RemoteBlockStore) (bs : List StoredBlock)
    (hrt : ∀ I, StoreIndex.Valid I → codec.parse (codec.serialize I) = some I)
    (hpv : ∀ bytes I, codec.parse bytes = some I → StoreIndex.Valid I)
    (hopen : openStore codec AccessType.ReadWrite m0 = (.ok s, m))
    (hstored : ∀ r ∈ putResults codec bs (s, m), r = .ok PutResult.Stored) :
    ∃ s2, openStore codec AccessType.ReadWrite
        (dispose codec (putBlocks codec bs (s, m)).1 (putBlocks codec bs (s, m)).2) =
          (.ok s2, dispose codec (putBlocks codec bs (s, m)).1
            (putBlocks codec bs (s, m)).2) ∧
      (∀ B ∈ bs, B.indexEntry ∈ s2.index) ∧
      (∀ C t, get_existing_content s2 C t =
        get_existing_content (putBlocks codec bs (s, m)).1 C t) ∧
      (∀ C, ∀ B ∈ bs, ∀ c ∈ B.indexEntry.chunkHashes, c ∈ C →
        ∃ e ∈ get_existing_content s2 C 0, c ∈ e.chunkHashes) ∧
      (∀ C, (∀ b1 ∈ s2.index, ∀ b2 ∈ s2.index, ∀ c ∈ C,
          c ∈ b1.chunkHashes → c ∈ b2.chunkHashes → b1 = b2) →
        ∀ B ∈ bs, (∃ c ∈ B.indexEntry.chunkHashes, c ∈ C) →
          B.indexEntry ∈ get_existing_content s2 C 0) ∧
      (∀ C x t, (∀ b ∈ s2.index, x ∉ b.chunkHashes) →
        get_existing_content s2 (C ++ [x]) t = get_existing_content s2 C t) := by
  obtain ⟨hmode, -, hvalid, hsync⟩ := openStore_readWrite_sync codec m0 m s hrt hpv hopen
  obtain ⟨hnodup, hfresh⟩ := putResults_stored codec bs s m hstored
  obtain ⟨hput, hlsi⟩ := putBlocks_fresh codec bs s m hmode hnodup hfresh
  have hsync2 : ∃ bytes, (putBlocks codec bs (s, m)).2.read storeIndexKey = some bytes ∧
      codec.parse bytes = some (putBlocks codec bs (s, m)).1.index := by
    obtain ⟨bytes, hread, hparse⟩ := hsync
    refine ⟨bytes, ?_, by rw [hput]; exact hparse⟩
    simp only [MemBlobStore.read] at hread ⊢
    rw [hlsi]; exact hread
  have hopen2 := openStore_after_dispose codec (putBlocks codec bs (s, m)).1
    (putBlocks codec bs (s, m)).2 AccessType.ReadWrite hrt (by rw [hput]; exact hvalid) hsync2
  have hmem : ∀ B ∈ bs, B.indexEntry ∈ StoreIndex.merge (putBlocks codec bs (s, m)).1.index
      (putBlocks codec bs (s, m)).1.pendingAdded := by
    intro B hB
    rw [hput]
    apply StoreIndex.mem_merge_of_unique
    · exact List.mem_append_right _ (List.mem_map.mpr ⟨B, hB, rfl⟩)
    · intro y hy hyh
      have hyh2 : y.blockHash = B.blockHash := hyh
      rcases hy with hy | hy
      · exact absurd (hyh2 ▸ List.mem_map.mpr ⟨y, hy, rfl⟩) (hfresh B hB).1
      · rcases List.mem_append.mp hy with hy | hy
        · exact absurd (hyh2 ▸ List.mem_map.mpr ⟨y, hy, rfl⟩) (hfresh B hB).2
        · obtain ⟨B2, hB2, rfl⟩ := List.mem_map.mp hy
          have : B2 = B := List.inj_on_of_nodup_map hnodup hB2 hB hyh2
          rw [this]
  refine ⟨_, hopen2, hmem, ?_, ?_, ?_, ?_⟩
  · intro C t
    rfl
  · intro C B hB c hc hreq
    exact project_zero_covers _ C B.indexEntry (hmem B hB) c hc hreq
  · intro C hdisj B hB hex
    exact project_zero_mem_of_disjoint _ C hdisj B.indexEntry (hmem B hB) hex
  · intro C x t hx
    apply project_congr
    intro b hb c hc
    have hne : c ≠ x := fun h => hx b hb (h ▸ hc)
    simp [hne]

set_option maxRecDepth 100000 in
/-- Witness of the amended C11, the case of `TestRestoreStore`: the blocks of
the seeds 0, 10, 20 put into a store opened `ReadWrite` on an empty
backend. -/
theorem C11_witness :
    (∀ I, StoreIndex.Valid I → testCodec.parse (testCodec.serialize I) = some I) ∧
    (∀ bytes I, testCodec.parse bytes = some I → StoreIndex.Valid I) ∧
    openStore testCodec AccessType.ReadWrite (emptyBackend true) =
      (.ok (freshStore true).1, (freshStore true).2) ∧
    (∀ r ∈ putResults testCodec [testBlock 0, testBlock 10, testBlock 20]
        ((freshStore true).1, (freshStore true).2), r = .ok PutResult.Stored) ∧
    (∃ s2, openStore testCodec AccessType.ReadWrite
        (dispose testCodec
          (putBlocks testCodec [testBlock 0, testBlock 10, testBlock 20]
            ((freshStore true).1, (freshStore true).2)).1
          (putBlocks testCodec [testBlock 0, testBlock 10, testBlock 20]
            ((freshStore true).1, (freshStore true).2)).2) =
          (.ok s2, dispose testCodec
            (putBlocks testCodec [testBlock 0, testBlock 10, testBlock 20]
              ((freshStore true).1, (freshStore true).2)).1
            (putBlocks testCodec [testBlock 0, testBlock 10, testBlock 20]
              ((freshStore true).1, (freshStore true).2)).2) ∧
      (∀ B ∈ [testBlock 0, testBlock 10, testBlock 20], B.indexEntry ∈ s2.index) ∧
      StoreIndex.blockCount (get_existing_content s2 [1, 2, 11, 13] 0) = 2 ∧
      StoreIndex.chunkCount (get_existing_content s2 [1, 2, 11, 13] 0) = 6 ∧
      StoreIndex.blockCount (get_existing_content s2 [1, 2, 11, 13, 31] 0) = 2 ∧
      StoreIndex.chunkCount (get_existing_content s2 [1, 2, 11, 13, 31] 0) = 6) := by
  have hst : ∀ r ∈ putResults testCodec [testBlock 0, testBlock 10, testBlock 20]
      ((freshStore true).1, (freshStore true).2), r = .ok PutResult.Stored := by
    intro r hr
    have hl : putResults testCodec [testBlock 0, testBlock 10, testBlock 20]
        ((freshStore true).1, (freshStore true).2) =
        [.ok PutResult.Stored, .ok PutResult.Stored, .ok PutResult.Stored] := by rfl
    rw [hl] at hr
    simp at hr
    exact hr
  obtain ⟨s2, hopen, hmem, hsame, -, -, -⟩ := C11_blocks_durable_across_dispose testCodec
    (emptyBackend true) (freshStore true).2 (freshStore true).1
    [testBlock 0, testBlock 10, testBlock 20]
    testCodec_parse_serialize testCodec_parse_valid (by rfl) hst
  refine ⟨testCodec_parse_serialize, testCodec_parse_valid, by rfl, hst,
    s2, hopen, hmem, ?_, ?_, ?_, ?_⟩
  · rw [hsame]; decide
  · rw [hsame]; decide
  · rw [hsame]; decide
  · rw [hsame]; decide

/-! ## readBlobWithRetry: a vanished object, and failures before the read -/

/-- Counterexample to C23: the object exists and its `Read` returns
`(nil, nil)`; `readBlobWithRetry` makes that one `Read` and returns nil data
with a nil error and retry count 0, not `ErrENOENT`. -/
theorem C23_counterexample :
    (scriptedObject true Error.ErrEIO).Exists [(none, none)] =
      ((true, none), [(none, none)]) ∧
    ((scriptedObject true Error.ErrEIO).Read [(none, none)]).1 = (none, none) ∧
    (readBlobWithRetry (scriptedClient true Error.ErrEIO) "chunks/0001/0x0001.lsb"
        [(none, none)]).blobData = none ∧
    (readBlobWithRetry (scriptedClient true Error.ErrEIO) "chunks/0001/0x0001.lsb"
        [(none, none)]).retryCount = 0 ∧
    (readBlobWithRetry (scriptedClient true Error.ErrEIO) "chunks/0001/0x0001.lsb"
        [(none, none)]).err = none ∧
    (readBlobWithRetry (scriptedClient true Error.ErrEIO) "chunks/0001/0x0001.lsb"
        [(none, none)]).err ≠ some Error.ErrENOENT ∧
    reads (readBlobWithRetry (scriptedClient true Error.ErrEIO) "chunks/0001/0x0001.lsb"
        [(none, none)]).trace = [(none, none)] := by
  refine ⟨by rfl, by rfl, by rfl, by rfl, by rfl, by decide, by rfl⟩

/-- C23, amended: `readBlobWithRetry` does not look at the data that `Read`
returns.  When `Exists` answers `(true, nil)` and the first `Read` answers
`(nil, nil)`, it returns nil data, retry count 0 and a nil error after that
one `Read`.  Whenever it returns a nil error, the bytes it returns are the
ones that the last `Read` of the call returned together with a nil error;
so they are non-nil when no `Read` of the call returned `(nil, nil)`. -/
theorem C23_readBlobWithRetry_returns_last_read {σ : Type} (client : BlobClient σ)
    (key : String) (s : σ) :
    (∀ s1 s2 s3 obj, client.NewObject key s = (.ok obj, s1) →
      obj.Exists s1 = ((true, none), s2) →
      obj.Read s2 = ((none, none), s3) →
      (readBlobWithRetry client key s).blobData = none ∧
      (readBlobWithRetry client key s).retryCount = 0 ∧
      (readBlobWithRetry client key s).err = none ∧
      reads (readBlobWithRetry client key s).trace = [(none, none)]) ∧
    ((readBlobWithRetry client key s).err = none →
      ∃ earlier, reads (readBlobWithRetry client key s).trace =
        earlier ++ [((readBlobWithRetry client key s).blobData, none)]) ∧
    ((readBlobWithRetry client key s).err = none →
      (∀ x ∈ reads (readBlobWithRetry client key s).trace, x ≠ (none, none)) →
      (readBlobWithRetry client key s).blobData ≠ none) := by
  have hlast : (readBlobWithRetry client key s).err = none →
      ∃ earlier, reads (readBlobWithRetry client key s).trace =
        earlier ++ [((readBlobWithRetry client key s).blobData, none)] := by
    rcases hn : client.NewObject key s with ⟨e | obj, s1⟩
    · rw [readBlobWithRetry_newObject_error client key s s1 e hn]
      intro h
      cases h
    · rcases hx : obj.Exists s1 with ⟨⟨ok, _ | e⟩, s2⟩
      · cases ok
        · rw [readBlobWithRetry_absent client key s s1 s2 obj hn hx]
          intro h
          cases h
        · obtain ⟨r1, r2, r3, r4, -, h⟩ :=
            readBlobWithRetry_present client key s s1 s2 obj hn hx
          intro herr
          rcases h with ⟨h1, hd, -, -, hr, -⟩ | ⟨-, h2, hd, -, -, hr, -⟩ |
            ⟨-, -, h3, hd, -, -, hr, -⟩ | ⟨-, -, -, hd, -, he, hr, -⟩
          · exact ⟨[], by rw [hr, hd, ← h1]; rfl⟩
          · exact ⟨[r1], by rw [hr, hd, ← h2]; rfl⟩
          · exact ⟨[r1, r2], by rw [hr, hd, ← h3]; rfl⟩
          · have h4 : r4.2 = none := by rw [← he]; exact herr
            exact ⟨[r1, r2, r3], by rw [hr, hd, if_pos h4, ← h4]; rfl⟩
      · rw [readBlobWithRetry_exists_error client key s s1 s2 obj ok e hn hx]
        intro h
        cases h
  refine ⟨?_, hlast, ?_⟩
  · intro s1 s2 s3 obj hn hx hr
    unfold readBlobWithRetry
    simp [hn, hx, hr, retryRead, reads]
  · intro herr hall hnone
    obtain ⟨earlier, he⟩ := hlast herr
    refine hall ((readBlobWithRetry client key s).blobData, none) ?_ ?_
    · rw [he]
      simp
    · rw [hnone]

/-- C25: only `Read` is retried.  When `NewObject` fails with `e`, or the
handle is made and `Exists` returns the error `e` (with either boolean),
`readBlobWithRetry` returns nil data, retry count 0 and the error `e`
itself, and its trace has no `Read` and no `Sleep`. -/
theorem C25_readBlobWithRetry_early_errors {σ : Type} (client : BlobClient σ)
    (key : String) (s : σ) (e : Error)
    (h : (∃ s1, client.NewObject key s = (.error e, s1)) ∨
         (∃ obj s1 ok s2, client.NewObject key s = (.ok obj, s1) ∧
            obj.Exists s1 = ((ok, some e), s2))) :
    (readBlobWithRetry client key s).blobData = none ∧
    (readBlobWithRetry client key s).retryCount = 0 ∧
    (readBlobWithRetry client key s).err = some e ∧
    reads (readBlobWithRetry client key s).trace = [] ∧
    sleeps (readBlobWithRetry client key s).trace = [] ∧
    schedule (readBlobWithRetry client key s).trace = [] := by
  rcases h with ⟨s1, hn⟩ | ⟨obj, s1, ok, s2, hn, hx⟩
  · rw [readBlobWithRetry_newObject_error client key s s1 e hn]
    exact ⟨rfl, rfl, rfl, rfl, rfl, rfl⟩
  · rw [readBlobWithRetry_exists_error client key s s1 s2 obj ok e hn hx]
    exact ⟨rfl, rfl, rfl, rfl, rfl, rfl⟩

/-- C25 at a client whose `Exists` fails with `EIO`. -/
theorem C25_witness :
    (readBlobWithRetry (brokenClient none true Error.ErrEIO) "store.lsi" ()).blobData = none ∧
    (readBlobWithRetry (brokenClient none true Error.ErrEIO) "store.lsi" ()).retryCount = 0 ∧
    (readBlobWithRetry (brokenClient none true Error.ErrEIO) "store.lsi" ()).err =
      some Error.ErrEIO ∧
    reads (readBlobWithRetry (brokenClient none true Error.ErrEIO) "store.lsi" ()).trace = [] ∧
    sleeps (readBlobWithRetry (brokenClient none true Error.ErrEIO) "store.lsi" ()).trace = [] ∧
    schedule (readBlobWithRetry (brokenClient none true Error.ErrEIO) "store.lsi" ()).trace
      = [] :=
  C25_readBlobWithRetry_early_errors (brokenClient none true Error.ErrEIO) "store.lsi" ()
    Error.ErrEIO (Or.inr ⟨_, (), true, (), rfl, rfl⟩)

/-! ## s3Store.go: the listing and the prefix -/

theorem sliceFrom_drop (p key : String) (h : p.data <+: key.data) :
    sliceFrom key p.length = some (String.mk (key.data.drop p.length)) ∧
    p ++ String.mk (key.data.drop p.length) = key := by
  obtain ⟨t, ht⟩ := h
  have hlen : p.length ≤ key.length := by
    rw [String.length, String.length, ← ht]
    simp
  refine ⟨by rw [sliceFrom, if_pos hlen], ?_⟩
  apply String.ext
  rw [String.data_append, ← ht]
  show p.data ++ List.drop p.data.length (p.data ++ t) = p.data ++ t
  rw [List.drop_left]

theorem getObjects_fold (n : Nat) (cs : List S3Object) (acc : List BlobProperties)
    (hk : ∀ o ∈ cs, n ≤ o.Key.length) :
    cs.foldl
      (fun (items : Option (List BlobProperties)) object =>
        match items with
        | none => none
        | some items =>
          match sliceFrom object.Key n with
          | none => none
          | some itemName => some (items ++ [{ Size := object.Size, Name := itemName }]))
      (some acc) =
    some (acc ++ cs.map
      (fun o => { Size := o.Size, Name := String.mk (o.Key.data.drop n) })) := by
  induction cs generalizing acc with
  | nil => simp
  | cons c cs ih =>
    have hc : sliceFrom c.Key n = some (String.mk (c.Key.data.drop n)) := by
      rw [sliceFrom, if_pos (hk c (List.mem_cons_self _ _))]
    rw [List.foldl_cons]
    simp only [hc]
    rw [ih _ (fun o ho => hk o (List.mem_cons_of_mem _ ho))]
    simp

theorem getObjects_ok {σ : Type} (blobClient : s3BlobClient σ) (pathPrefix : String)
    (s s1 : σ) (output : ListObjectsV2Output)
    (hl : blobClient.client.ListObjectsV2 blobClient.store.bucketName
      (blobClient.store.pfx ++ pathPrefix) s = (.ok output, s1))
    (hk : ∀ o ∈ output.Contents, blobClient.store.pfx.length ≤ o.Key.length) :
    blobClient.GetObjects pathPrefix s =
      some ((output.Contents.map
        (fun o => { Size := o.Size,
                    Name := String.mk (o.Key.data.drop blobClient.store.pfx.length) }),
        none), s1) := by
  unfold s3BlobClient.GetObjects
  simp only [hl]
  rw [getObjects_fold _ _ _ hk]
  simp

theorem append_slash_ne_empty (P : String) : P ++ "/" ≠ "" := by
  intro h
  have hd := congrArg String.data h
  rw [String.data_append] at hd
  have hl := congrArg List.length hd
  rw [List.length_append] at hl
  change P.data.length + 1 = 0 at hl
  omega

/-- C27: when `ListObjectsV2` answers with `output` and every key of the
response starts with the prefix that was asked for (the store prefix
followed by `pathPrefix`), `GetObjects` does not run out of range and
returns, with a nil error, one entry per object of the response, in the
order of the response and with its size; the `Name` of an entry is the key
without its first `len(prefix)` characters, the store prefix followed by the
`Name` is the key again, and `NewObject(Name)` is the handle of exactly that
key. -/
theorem C27_s3_getobjects_names {σ : Type} (blobClient : s3BlobClient σ)
    (pathPrefix : String) (s s1 : σ) (output : ListObjectsV2Output)
    (hl : blobClient.client.ListObjectsV2 blobClient.store.bucketName
      (blobClient.store.pfx ++ pathPrefix) s = (.ok output, s1))
    (hp : ∀ o ∈ output.Contents,
      (blobClient.store.pfx ++ pathPrefix).data <+: o.Key.data) :
    ∃ items, blobClient.GetObjects pathPrefix s = some ((items, none), s1) ∧
      items.length = output.Contents.length ∧
      items.map (fun it => it.Size) = output.Contents.map (fun o => o.Size) ∧
      items.map (fun it => it.Name) = output.Contents.map
        (fun o => String.mk (o.Key.data.drop blobClient.store.pfx.length)) ∧
      items.map (fun it => blobClient.store.pfx ++ it.Name) =
        output.Contents.map (fun o => o.Key) ∧
      items.map (fun it => blobClient.NewObject it.Name) =
        output.Contents.map (fun o => .ok { client := blobClient, path := o.Key }) := by
  have hpre : ∀ o ∈ output.Contents, blobClient.store.pfx.data <+: o.Key.data := by
    intro o ho
    have h := hp o ho
    rw [String.data_append] at h
    exact (List.prefix_append _ _).trans h
  have hk : ∀ o ∈ output.Contents, blobClient.store.pfx.length ≤ o.Key.length :=
    fun o ho => (hpre o ho).length_le
  have hkey : ∀ o ∈ output.Contents,
      blobClient.store.pfx ++ String.mk (o.Key.data.drop blobClient.store.pfx.length) =
        o.Key :=
    fun o ho => (sliceFrom_drop _ _ (hpre o ho)).2
  refine ⟨_, getObjects_ok blobClient pathPrefix s s1 output hl hk, ?_, ?_, ?_, ?_, ?_⟩
  · simp
  · simp [Function.comp_def]
  · simp [Function.comp_def]
  · rw [List.map_map]
    exact List.map_congr_left (fun o ho => hkey o ho)
  · rw [List.map_map]
    apply List.map_congr_left
    intro o ho
    show Except.ok _ = Except.ok _
    have h := hkey o ho
    simp only [h]

/-- C27 on the service of the examples: the store of `s3://bucket/path`
lists `chunks/` in a bucket of three objects. -/
theorem C27_witness :
    ∃ items,
      s3BlobClient.GetObjects
        { store := { bucketName := "bucket", pfx := "path/", options := ⟨""⟩ },
          client := listS3 "bucket" none } "chunks/"
        [("path/chunks/a.lsb", [1]), ("path/store.lsi", [1, 2]),
         ("path/chunks/b.lsb", [1, 2, 3])] =
        some ((items, none),
          [("path/chunks/a.lsb", [1]), ("path/store.lsi", [1, 2]),
           ("path/chunks/b.lsb", [1, 2, 3])]) ∧
      items.length = 2 ∧
      items.map (fun it => it.Size) = [1, 3] ∧
      items.map (fun it => it.Name) = ["chunks/a.lsb", "chunks/b.lsb"] := by
  obtain ⟨items, h1, h2, h3, h4, _, _⟩ := C27_s3_getobjects_names
    { store := { bucketName := "bucket", pfx := "path/", options := ⟨""⟩ },
      client := listS3 "bucket" none } "chunks/"
    [("path/chunks/a.lsb", [1]), ("path/store.lsi", [1, 2]),
     ("path/chunks/b.lsb", [1, 2, 3])] _
    { Contents := [{ Key := "path/chunks/a.lsb", Size := 1 },
                   { Key := "path/chunks/b.lsb", Size := 3 }],
      IsTruncated := false }
    (by rfl) (by decide)
  exact ⟨items, h1, h2, h3, h4⟩

/-- C28, what the code does: `NewS3BlobStore` drops the first character of
the URL path and appends one `/` to what is left when that is not empty,
without looking at its last character.  For every URL with scheme `s3` the
prefix is empty or ends with `/`; for a URL path that ends with `/`, as in
`s3://B/P/`, the prefix is `P//`, and for `s3://bucket/path/` it is
`path//`. -/
theorem C28_s3_prefix_trailing_slash :
    (∀ (u : URL) (opts : List (S3Options → S3Options)), u.Scheme = "s3" →
      ∃ st, NewS3BlobStore u opts = .ok st ∧ (st.pfx = "" ∨ ∃ q, st.pfx = q ++ "/")) ∧
    (∀ (B P : String) (opts : List (S3Options → S3Options)),
      ∃ st, NewS3BlobStore { Scheme := "s3", Host := B, Path := "/" ++ (P ++ "/") } opts =
          .ok st ∧
        st.pfx = P ++ "/" ++ "/") ∧
    (∃ st, NewS3BlobStore { Scheme := "s3", Host := "bucket", Path := "/path/" } [] = .ok st ∧
      st.pfx = "path//") := by
  refine ⟨?_, ?_, ⟨_, by rfl, by rfl⟩⟩
  · intro u opts hs
    unfold NewS3BlobStore
    simp only [hs, ne_eq, not_true_eq_false, if_false]
    refine ⟨_, rfl, ?_⟩
    generalize (if 0 < u.Path.length then String.mk (u.Path.data.drop 1) else u.Path) = p
    by_cases h : p = ""
    · left
      simp [h]
    · right
      exact ⟨p, by simp [h]⟩
  · intro B P opts
    refine ⟨{ bucketName := B, pfx := P ++ "/" ++ "/",
              options := opts.foldl (fun o opt => opt o) { EndpointResolverURI := "" } }, ?_, rfl⟩
    unfold NewS3BlobStore
    simp only [ne_eq, not_true_eq_false, if_false, length_leading_slash, if_true,
      drop_leading_slash, append_slash_ne_empty, not_false_eq_true]

theorem chunkObjects_filter (n : Nat) :
    (chunkObjects n).filter (fun kv => ("" ++ "chunks/").data.isPrefixOf kv.1.data) =
      chunkObjects n := by
  rw [List.filter_eq_self]
  intro kv hkv
  unfold chunkObjects at hkv
  obtain ⟨i, _, rfl⟩ := List.mem_map.mp hkv
  have h0 : ("" ++ "chunks/" : String) = "chunks/" := by decide
  rw [h0, List.isPrefixOf_iff_prefix, String.data_append]
  exact List.prefix_append _ _

theorem chunkObjects_length (n : Nat) : (chunkObjects n).length = n := by
  simp [chunkObjects]

/-- C22, what the code does: `s3BlobClient.GetObjects` makes one
`ListObjectsV2` call and returns the entries of that one response, whether
or not the response is truncated; it asks for no further page.  On a
service that gives at most 1000 keys per response, a bucket of `n` objects
`chunks/0`, `chunks/1`, ... listed with the path prefix `chunks/` yields
`min 1000 n` entries with a nil error: for 1001 objects the result has 1000
entries and the listing was truncated. -/
theorem C22_s3_getobjects_first_page_only :
    (∀ (σ : Type) (blobClient : s3BlobClient σ) (pathPrefix : String) (s s1 : σ)
        (output : ListObjectsV2Output) r,
      blobClient.client.ListObjectsV2 blobClient.store.bucketName
        (blobClient.store.pfx ++ pathPrefix) s = (.ok output, s1) →
      blobClient.GetObjects pathPrefix s = some r →
      r.1.1.length = output.Contents.length ∧ r.1.2 = none ∧ r.2 = s1) ∧
    (∀ n : Nat, ∃ items,
      s3BlobClient.GetObjects
        { store := { bucketName := "bucket", pfx := "", options := ⟨""⟩ },
          client := pagedS3 "bucket" 1000 } "chunks/" (chunkObjects n) =
        some ((items, none), chunkObjects n) ∧
      items.length = min 1000 n ∧
      ((chunkObjects n).filter
        (fun kv => ("" ++ "chunks/").data.isPrefixOf kv.1.data)).length = n ∧
      (((pagedS3 "bucket" 1000).ListObjectsV2 "bucket" ("" ++ "chunks/")
        (chunkObjects n)).1.toOption.map (fun o => o.IsTruncated)) =
        some (decide (1000 < n))) ∧
    (∃ items,
      s3BlobClient.GetObjects
        { store := { bucketName := "bucket", pfx := "", options := ⟨""⟩ },
          client := pagedS3 "bucket" 1000 } "chunks/" (chunkObjects 1001) =
        some ((items, none), chunkObjects 1001) ∧
      items.length = 1000 ∧ (chunkObjects 1001).length = 1001) := by
  have hgen : ∀ n : Nat, ∃ items,
      s3BlobClient.GetObjects
        { store := { bucketName := "bucket", pfx := "", options := ⟨""⟩ },
          client := pagedS3 "bucket" 1000 } "chunks/" (chunkObjects n) =
        some ((items, none), chunkObjects n) ∧
      items.length = min 1000 n := by
    intro n
    refine ⟨_, getObjects_ok
      { store := { bucketName := "bucket", pfx := "", options := ⟨""⟩ },
        client := pagedS3 "bucket" 1000 } "chunks/" (chunkObjects n) (chunkObjects n)
      { Contents := ((chunkObjects n).take 1000).map
          (fun kv => { Key := kv.1, Size := (kv.2.length : Int) })
        IsTruncated := decide (1000 < (chunkObjects n).length) } ?_ ?_, ?_⟩
    · show (pagedS3 "bucket" 1000).ListObjectsV2 "bucket" ("" ++ "chunks/") (chunkObjects n) = _
      simp only [pagedS3, ne_eq, not_true_eq_false, if_false, chunkObjects_filter]
    · intro o _
      exact Nat.zero_le _
    · simp [chunkObjects_length]
  refine ⟨?_, ?_, ?_⟩
  · intro σ blobClient pathPrefix s s1 output r hl hr
    unfold s3BlobClient.GetObjects at hr
    simp only [hl, Option.map_eq_some'] at hr
    obtain ⟨items, hf, rfl⟩ := hr
    refine ⟨?_, rfl, rfl⟩
    have key : ∀ (cs : List S3Object) (acc items : List BlobProperties),
        cs.foldl
          (fun (items : Option (List BlobProperties)) object =>
            match items with
            | none => none
            | some items =>
              match sliceFrom object.Key blobClient.store.pfx.length with
              | none => none
              | some itemName => some (items ++ [{ Size := object.Size, Name := itemName }]))
          (some acc) = some items → items.length = acc.length + cs.length := by
      intro cs
      induction cs with
      | nil =>
        intro acc items h
        simp at h
        simp [h]
      | cons c cs ih =>
        intro acc items h
        rw [List.foldl_cons] at h
        cases hc : sliceFrom c.Key blobClient.store.pfx.length with
        | none =>
          simp only [hc] at h
          have hnone : ∀ cs : List S3Object, cs.foldl
              (fun (items : Option (List BlobProperties)) object =>
                match items with
                | none => none
                | some items =>
                  match sliceFrom object.Key blobClient.store.pfx.length with
                  | none => none
                  | some itemName =>
                    some (items ++ [{ Size := object.Size, Name := itemName }]))
              none = none := by
            intro cs
            induction cs with
            | nil => rfl
            | cons _ _ ih2 => rw [List.foldl_cons]; exact ih2
          rw [hnone] at h
          cases h
        | some nm =>
          simp only [hc] at h
          have := ih _ _ h
          simp at this
          simp [this]
          omega
    have := key _ _ _ hf
    simpa using this
  · intro n
    obtain ⟨items, h1, h2⟩ := hgen n
    refine ⟨items, h1, h2, ?_, ?_⟩
    · rw [chunkObjects_filter, chunkObjects_length]
    · simp only [pagedS3, ne_eq, not_true_eq_false, if_false, chunkObjects_filter,
        chunkObjects_length]
      rfl
  · obtain ⟨items, h1, h2⟩ := hgen 1001
    exact ⟨items, h1, by simpa using h2, chunkObjects_length 1001⟩

/-! ## blobStore.go: splitURI -/

theorem LastIndex_eq_none (c : Char) (l : List Char) : LastIndex c l = none ↔ c ∉ l := by
  induction l with
  | nil => simp [LastIndex]
  | cons x xs ih =>
    rw [LastIndex]
    cases h : LastIndex c xs with
    | some i =>
      have : c ∈ xs := by
        by_contra hc
        rw [ih.mpr hc] at h
        cases h
      simp [this]
    | none =>
      have hc : c ∉ xs := ih.mp h
      by_cases hx : x = c
      · simp [hx]
      · have hx2 : ¬ c = x := fun e => hx e.symm
        simp [hx, hc, hx2]

theorem LastIndex_eq_some (c : Char) (l : List Char) (i : Nat) (h : LastIndex c l = some i) :
    i < l.length ∧ l = l.take i ++ c :: l.drop (i + 1) ∧ c ∉ l.drop (i + 1) := by
  induction l generalizing i with
  | nil => simp [LastIndex] at h
  | cons x xs ih =>
    rw [LastIndex] at h
    cases hr : LastIndex c xs with
    | some j =>
      rw [hr] at h
      simp only [Option.some.injEq] at h
      subst h
      obtain ⟨h1, h2, h3⟩ := ih j hr
      refine ⟨by simp; omega, ?_, by simpa using h3⟩
      rw [List.take_succ_cons, List.drop_succ_cons, List.cons_append, ← h2]
    | none =>
      rw [hr] at h
      by_cases hx : x = c
      · simp only [hx, if_true, Option.some.injEq] at h
        subst h
        subst hx
        exact ⟨by simp, by simp, by simpa using (LastIndex_eq_none x xs).mp hr⟩
      · simp [hx] at h

theorem splitURI_at (uri : String) (c : Char) (i : Nat)
    (h : LastIndex c uri.data = some i) :
    sliceTo uri i = some (String.mk (uri.data.take i)) ∧
    sliceFrom uri (i + 1) = some (String.mk (uri.data.drop (i + 1))) ∧
    String.mk (uri.data.take i) ++ String.mk [c] ++ String.mk (uri.data.drop (i + 1)) = uri ∧
    c ∉ uri.data.drop (i + 1) := by
  obtain ⟨h1, h2, h3⟩ := LastIndex_eq_some c uri.data i h
  have hlen : uri.length = uri.data.length := rfl
  refine ⟨?_, ?_, ?_, h3⟩
  · rw [sliceTo, if_pos (by omega)]
  · rw [sliceFrom, if_pos (by omega)]
  · apply String.ext
    rw [String.data_append, String.data_append]
    show (uri.data.take i ++ [c]) ++ uri.data.drop (i + 1) = uri.data
    rw [List.append_assoc]
    exact h2.symm

/-- C26: `splitURI` is total and splits at the last `/`: for a `uri` with a
`/` it returns `(parent, name)` with `parent + "/" + name = uri` and no `/`
in `name`, wherever backslashes stand; for a `uri` with no `/` but a
backslash it splits in the same way at the last backslash; for a `uri` with
neither it returns `("", uri)`.  No slice expression is out of range.  The
last part is the split of `a/b\c`, at the `/` before the backslash. -/
theorem C26_splitURI (uri : String) :
    (∃ parent name, splitURI uri = some (parent, name)) ∧
    ('/' ∈ uri.data → ∃ parent name, splitURI uri = some (parent, name) ∧
      parent ++ "/" ++ name = uri ∧ '/' ∉ name.data) ∧
    ('/' ∉ uri.data → '\\' ∈ uri.data → ∃ parent name,
      splitURI uri = some (parent, name) ∧
      parent ++ "\\" ++ name = uri ∧ '\\' ∉ name.data ∧ '/' ∉ name.data) ∧
    ('/' ∉ uri.data → '\\' ∉ uri.data → splitURI uri = some ("", uri)) ∧
    splitURI "a/b\\c" = some ("a", "b\\c") := by
  have hslash : '/' ∈ uri.data → ∃ parent name, splitURI uri = some (parent, name) ∧
      parent ++ "/" ++ name = uri ∧ '/' ∉ name.data := by
    intro hm
    cases hi : LastIndex '/' uri.data with
    | none => exact absurd hm ((LastIndex_eq_none _ _).mp hi)
    | some i =>
      obtain ⟨h1, h2, h3, h4⟩ := splitURI_at uri '/' i hi
      refine ⟨_, _, ?_, h3, h4⟩
      unfold splitURI
      simp [hi, h1, h2]
  have hback : '/' ∉ uri.data → '\\' ∈ uri.data → ∃ parent name,
      splitURI uri = some (parent, name) ∧
      parent ++ "\\" ++ name = uri ∧ '\\' ∉ name.data ∧ '/' ∉ name.data := by
    intro hn hm
    have h0 : LastIndex '/' uri.data = none := (LastIndex_eq_none _ _).mpr hn
    cases hi : LastIndex '\\' uri.data with
    | none => exact absurd hm ((LastIndex_eq_none _ _).mp hi)
    | some i =>
      obtain ⟨h1, h2, h3, h4⟩ := splitURI_at uri '\\' i hi
      refine ⟨_, _, ?_, h3, h4, ?_⟩
      · unfold splitURI
        simp [h0, hi, h1, h2]
      · exact fun hmem => hn (List.mem_of_mem_drop hmem)
  have hnone : '/' ∉ uri.data → '\\' ∉ uri.data → splitURI uri = some ("", uri) := by
    intro hn hb
    unfold splitURI
    simp [(LastIndex_eq_none _ _).mpr hn, (LastIndex_eq_none _ _).mpr hb]
  refine ⟨?_, hslash, hback, hnone, by rfl⟩
  by_cases h1 : '/' ∈ uri.data
  · obtain ⟨p, n, h, _⟩ := hslash h1
    exact ⟨p, n, h⟩
  · by_cases h2 : '\\' ∈ uri.data
    · obtain ⟨p, n, h, _⟩ := hback h1 h2
      exact ⟨p, n, h⟩
    · exact ⟨_, _, hnone h1 h2⟩

/-! ## blobStore.go: createBlobStoreForURI -/

theorem sliceFrom_one_cons (p : String) (c : Char) (rest : List Char)
    (h : p.data = c :: rest) : sliceFrom p 1 = some (String.mk rest) := by
  have hl : 1 ≤ p.length := by
    rw [String.length, h]
    simp
  rw [sliceFrom, if_pos hl, h]
  rfl

theorem sliceFrom_one_empty : sliceFrom "" 1 = none := by
  rfl

/-- C21: `createBlobStoreForURI` chooses the backend by the scheme of the
parsed URI.  With `u` the result of `url.Parse(uri)`: scheme `s3` gives the
S3 store of `NewS3BlobStore(u)`, scheme `gs` what `NewGCSBlobStore(u, false)`
returns, scheme `file` with a path that has a first character what
`NewFSBlobStore` returns for the path without that character, the schemes
`abfs` and `abfss` an error and no store; every other scheme, and a string
that `url.Parse` rejects, gives what `NewFSBlobStore(uri)` returns for the
unmodified string.  The last part is the choice for seven URIs. -/
theorem C21_createBlobStoreForURI_dispatch {β : Type} (bk : Backends β) (uri : String) :
    (∀ u, bk.Parse uri = .ok u → u.Scheme = "s3" →
      ∃ st, NewS3BlobStore u [] = .ok st ∧
        createBlobStoreForURI bk uri = some (.ok (bk.ofS3 st))) ∧
    (∀ u, bk.Parse uri = .ok u → u.Scheme = "gs" →
      createBlobStoreForURI bk uri = some (bk.NewGCSBlobStore u false)) ∧
    (∀ u c rest, bk.Parse uri = .ok u → u.Scheme = "file" → u.Path.data = c :: rest →
      createBlobStoreForURI bk uri = some (bk.NewFSBlobStore (String.mk rest))) ∧
    (∀ u, bk.Parse uri = .ok u → u.Scheme = "abfs" ∨ u.Scheme = "abfss" →
      ∃ e, createBlobStoreForURI bk uri = some (.error e)) ∧
    (∀ u, bk.Parse uri = .ok u → u.Scheme ∉ ["gs", "s3", "abfs", "abfss", "file"] →
      createBlobStoreForURI bk uri = some (bk.NewFSBlobStore uri)) ∧
    (∀ e, bk.Parse uri = .error e →
      createBlobStoreForURI bk uri = some (bk.NewFSBlobStore uri)) ∧
    (createBlobStoreForURI kindBackends "s3://bucket/path" =
        some (.ok (StoreKind.s3 { bucketName := "bucket", pfx := "path/", options := ⟨""⟩ })) ∧
      createBlobStoreForURI kindBackends "gs://bucket/path" =
        some (.ok (StoreKind.gcs { Scheme := "gs", Host := "bucket", Path := "/path" })) ∧
      createBlobStoreForURI kindBackends "file:///tmp/store" =
        some (.ok (StoreKind.fs "tmp/store")) ∧
      createBlobStoreForURI kindBackends "abfs://account/path" =
        some (.error (Error.Other "azure Gen1 storage not yet implemented")) ∧
      createBlobStoreForURI kindBackends "abfss://account/path" =
        some (.error (Error.Other "azure Gen2 storage not yet implemented")) ∧
      createBlobStoreForURI kindBackends "fsblob://test/storage" =
        some (.ok (StoreKind.fs "fsblob://test/storage")) ∧
      createBlobStoreForURI kindBackends "/tmp/store" =
        some (.ok (StoreKind.fs "/tmp/store")) ∧
      createBlobStoreForURI kindBackends "%zz" = some (.ok (StoreKind.fs "%zz"))) := by
  refine ⟨?_, ?_, ?_, ?_, ?_, ?_, ?_⟩
  · intro u hp hs
    have hst : ∃ st, NewS3BlobStore u [] = .ok st := by
      unfold NewS3BlobStore
      simp [hs]
    obtain ⟨st, hst⟩ := hst
    refine ⟨st, hst, ?_⟩
    unfold createBlobStoreForURI
    simp only [hp, hs, hst]
    rfl
  · intro u hp hs
    unfold createBlobStoreForURI
    simp only [hp, hs, if_true]
  · intro u c rest hp hs hd
    unfold createBlobStoreForURI
    simp only [hp, hs, sliceFrom_one_cons u.Path c rest hd]
    rfl
  · intro u hp hs
    unfold createBlobStoreForURI
    rcases hs with hs | hs
    · exact ⟨_, by simp only [hp, hs]; rfl⟩
    · exact ⟨_, by simp only [hp, hs]; rfl⟩
  · intro u hp hs
    simp only [List.mem_cons, List.mem_singleton, List.not_mem_nil, or_false, not_or] at hs
    unfold createBlobStoreForURI
    simp only [hp, hs.1, hs.2.1, hs.2.2.1, hs.2.2.2.1, hs.2.2.2.2, if_false]
  · intro e hp
    unfold createBlobStoreForURI
    simp only [hp]
  · exact ⟨by rfl, by rfl, by rfl, by rfl, by rfl, by rfl, by rfl, by rfl⟩

/-- C29, what the code does: for a URI that parses with scheme `file` and
an empty path, as `file://host` and `file:` do, `createBlobStoreForURI`
evaluates `blobStoreURL.Path[1:]` on the empty string, which is out of
range: the call ends in a run-time panic and returns nothing.  This is the
only way the function fails to return; `NewS3BlobStore` guards the same
slice with `len(u.Path) > 0` and returns a store with an empty prefix for an
empty path. -/
theorem C29_createBlobStoreForURI_empty_file_path :
    (∀ (β : Type) (bk : Backends β) (uri : String),
      createBlobStoreForURI bk uri = none ↔
        ∃ u, bk.Parse uri = .ok u ∧ u.Scheme = "file" ∧ u.Path = "") ∧
    createBlobStoreForURI kindBackends "file://host" = none ∧
    createBlobStoreForURI kindBackends "file:" = none ∧
    (∃ st, NewS3BlobStore { Scheme := "s3", Host := "bucket", Path := "" } [] = .ok st ∧
      st.pfx = "") := by
  refine ⟨?_, by rfl, by rfl, ⟨_, by rfl, by rfl⟩⟩
  intro β bk uri
  unfold createBlobStoreForURI
  cases hp : bk.Parse uri with
  | error e => simp
  | ok u =>
    simp only [Except.ok.injEq, exists_eq_left']
    by_cases h1 : u.Scheme = "gs"
    · simp [h1]
    by_cases h2 : u.Scheme = "s3"
    · simp [h2]
    by_cases h3 : u.Scheme = "abfs"
    · simp [h3]
    by_cases h4 : u.Scheme = "abfss"
    · simp [h4]
    by_cases h5 : u.Scheme = "file"
    · simp only [h1, h2, h3, h4, h5, if_false, if_true, true_and]
      cases hd : u.Path.data with
      | nil =>
        have he : u.Path = "" := String.ext hd
        rw [he, sliceFrom_one_empty]
        simp
      | cons c rest =>
        rw [sliceFrom_one_cons u.Path c rest hd]
        have hne : u.Path ≠ "" := by
          intro he
          rw [he] at hd
          cases hd
        simp [hne]
    · simp [h1, h2, h3, h4, h5]

/-! ## blobStore.go: ReadFromURI and WriteToURI -/

theorem WriteToURI_resolved {σ : Type} (bk : Backends (BlobStore σ)) (uri : String)
    (d : Bytes) (s s1 s2 : σ) (parent name : String) (store : BlobStore σ)
    (client : BlobClient σ) (obj : BlobObject σ)
    (hs : splitURI uri = some (parent, name))
    (hc : createBlobStoreForURI bk parent = some (.ok store))
    (hn : store.NewClient s = (.ok client, s1))
    (ho : client.NewObject name s1 = (.ok obj, s2)) :
    WriteToURI bk uri d s = some ((obj.Write d s2).1.2, client.Close (obj.Write d s2).2) := by
  unfold WriteToURI
  simp only [hs, hc, hn, ho]
  rcases hw : obj.Write d s2 with ⟨⟨b, _ | e⟩, s3⟩ <;> rfl

theorem ReadFromURI_resolved {σ : Type} (bk : Backends (BlobStore σ)) (uri : String)
    (s s1 s2 : σ) (parent name : String) (store : BlobStore σ)
    (client : BlobClient σ) (obj : BlobObject σ)
    (hs : splitURI uri = some (parent, name))
    (hc : createBlobStoreForURI bk parent = some (.ok store))
    (hn : store.NewClient s = (.ok client, s1))
    (ho : client.NewObject name s1 = (.ok obj, s2)) :
    ReadFromURI bk uri s =
      some ((match (obj.Read s2).1.2 with
             | some e => (none, some e)
             | none => ((obj.Read s2).1.1, none)), client.Close (obj.Read s2).2) := by
  unfold ReadFromURI
  simp only [hs, hc, hn, ho]
  rcases hr : obj.Read s2 with ⟨⟨v, _ | e⟩, s3⟩ <;> rfl

theorem WriteToURI_nil_iff {σ : Type} (bk : Backends (BlobStore σ)) (uri : String)
    (d : Bytes) (s s9 : σ) (parent name : String)
    (hs : splitURI uri = some (parent, name)) :
    WriteToURI bk uri d s = some (none, s9) ↔
      ∃ store client s1 obj s2 b s3,
        createBlobStoreForURI bk parent = some (.ok store) ∧
        store.NewClient s = (.ok client, s1) ∧
        client.NewObject name s1 = (.ok obj, s2) ∧
        obj.Write d s2 = ((b, none), s3) ∧ s9 = client.Close s3 := by
  constructor
  · intro h
    unfold WriteToURI at h
    simp only [hs] at h
    rcases hc : createBlobStoreForURI bk parent with _ | (e | store)
    · simp [hc] at h
    · simp [hc] at h
    · simp only [hc] at h
      rcases hn : store.NewClient s with ⟨e | client, s1⟩
      · simp [hn] at h
      · simp only [hn] at h
        rcases ho : client.NewObject name s1 with ⟨e | obj, s2⟩
        · simp [ho] at h
        · simp only [ho] at h
          rcases hw : obj.Write d s2 with ⟨⟨b, _ | e⟩, s3⟩
          · simp only [hw, Option.some.injEq, Prod.mk.injEq, true_and] at h
            exact ⟨store, client, s1, obj, s2, b, s3, rfl, hn, ho, hw, h.symm⟩
          · simp [hw] at h
  · rintro ⟨store, client, s1, obj, s2, b, s3, hc, hn, ho, hw, rfl⟩
    rw [WriteToURI_resolved bk uri d s s1 s2 parent name store client obj hs hc hn ho, hw]

/-- C30: with `(parent, name)` the result of `splitURI(uri)`, `WriteToURI`
and `ReadFromURI` both take the store of `createBlobStoreForURI(parent)`, a
client of it and the object `NewObject(name)`: the one returns the error of
`Write` on that object, the other what `Read` on it returns (nil data with
an error).  `WriteToURI` returns nil exactly when the store resolution,
`NewClient`, `NewObject` and `Write` return no error, whatever the boolean
of `Write` is.  Over a backend on which, after a `Write` of `d` without error
to the object and the `Close` of the client, a new client reads `d` from the
object of the same name, `ReadFromURI(uri)` after a successful
`WriteToURI(uri, d)` returns `(d, nil)`. -/
theorem C30_uri_write_then_read {σ : Type} (bk : Backends (BlobStore σ)) (uri : String)
    (d : Bytes) (s : σ) (parent name : String)
    (hs : splitURI uri = some (parent, name))
    (hback : ∀ store client s1 obj s2 b s3,
      createBlobStoreForURI bk parent = some (.ok store) →
      store.NewClient s = (.ok client, s1) →
      client.NewObject name s1 = (.ok obj, s2) →
      obj.Write d s2 = ((b, none), s3) →
      ∃ client2 s4 obj2 s5 s6,
        store.NewClient (client.Close s3) = (.ok client2, s4) ∧
        client2.NewObject name s4 = (.ok obj2, s5) ∧
        obj2.Read s5 = ((some d, none), s6)) :
    (∀ store client s1 obj s2,
      createBlobStoreForURI bk parent = some (.ok store) →
      store.NewClient s = (.ok client, s1) →
      client.NewObject name s1 = (.ok obj, s2) →
      WriteToURI bk uri d s =
        some ((obj.Write d s2).1.2, client.Close (obj.Write d s2).2) ∧
      ReadFromURI bk uri s =
        some ((match (obj.Read s2).1.2 with
               | some e => (none, some e)
               | none => ((obj.Read s2).1.1, none)), client.Close (obj.Read s2).2)) ∧
    (∀ s9, WriteToURI bk uri d s = some (none, s9) ↔
      ∃ store client s1 obj s2 b s3,
        createBlobStoreForURI bk parent = some (.ok store) ∧
        store.NewClient s = (.ok client, s1) ∧
        client.NewObject name s1 = (.ok obj, s2) ∧
        obj.Write d s2 = ((b, none), s3) ∧ s9 = client.Close s3) ∧
    (∀ s9, WriteToURI bk uri d s = some (none, s9) →
      ∃ s10, ReadFromURI bk uri s9 = some ((some d, none), s10)) := by
  refine ⟨?_, ?_, ?_⟩
  · intro store client s1 obj s2 hc hn ho
    exact ⟨WriteToURI_resolved bk uri d s s1 s2 parent name store client obj hs hc hn ho,
      ReadFromURI_resolved bk uri s s1 s2 parent name store client obj hs hc hn ho⟩
  · intro s9
    exact WriteToURI_nil_iff bk uri d s s9 parent name hs
  · intro s9 hw
    obtain ⟨store, client, s1, obj, s2, b, s3, hc, hn, ho, hwr, rfl⟩ :=
      (WriteToURI_nil_iff bk uri d s s9 parent name hs).mp hw
    obtain ⟨client2, s4, obj2, s5, s6, hn2, ho2, hr2⟩ :=
      hback store client s1 obj s2 b s3 hc hn ho hwr
    refine ⟨client2.Close s6, ?_⟩
    rw [ReadFromURI_resolved bk uri _ s4 s5 parent name store client2 obj2 hs hc hn2 ho2, hr2]

/-- C30 on the in-memory backend: the bytes `[1, 2, 3]` written to
`/tmp/store/store.lsi` are read back. -/
theorem C30_witness :
    splitURI "/tmp/store/store.lsi" = some ("/tmp/store", "store.lsi") ∧
    WriteToURI memBackends "/tmp/store/store.lsi" [1, 2, 3] (emptyBackend false) =
      some (none, (emptyBackend false).write "store.lsi" [1, 2, 3]) ∧
    ∃ s10, ReadFromURI memBackends "/tmp/store/store.lsi"
      ((emptyBackend false).write "store.lsi" [1, 2, 3]) = some ((some [1, 2, 3], none), s10) :=
  ⟨by rfl, by rfl,
    (C30_uri_write_then_read memBackends "/tmp/store/store.lsi" [1, 2, 3] (emptyBackend false)
      "/tmp/store" "store.lsi" (by rfl)
      (by
        intro store client s1 obj s2 b s3 hc hn ho hw
        have hc2 : createBlobStoreForURI memBackends "/tmp/store" = some (.ok memStore) := by
          rfl
        rw [hc2] at hc
        cases hc
        cases hn
        cases ho
        cases hw
        exact ⟨_, _, _, _, _, rfl, rfl, by rfl⟩)).2.2 _ (by rfl)⟩

/-! ## upsync: the order of the calls -/

theorem upsyncWriteGetConfig_append (env : UpsyncEnv) (args : UpsyncArgs) (r : UpsyncResult) :
    (upsyncWriteGetConfig env args r).trace =
      r.trace ++ (upsyncWriteGetConfig env args ⟨[], [], none, []⟩).trace := by
  unfold upsyncWriteGetConfig
  repeat' split
  all_goals simp [UpsyncResult.call, UpsyncResult.ret, UpsyncResult.time]

theorem upsyncWriteGetConfig_late (env : UpsyncEnv) (args : UpsyncArgs) :
    UpsyncCall.WriteContent ∉ (upsyncWriteGetConfig env args ⟨[], [], none, []⟩).trace ∧
    UpsyncCall.FlushStoresSync ∉ (upsyncWriteGetConfig env args ⟨[], [], none, []⟩).trace := by
  unfold upsyncWriteGetConfig
  repeat' split
  all_goals simp [UpsyncResult.call, UpsyncResult.ret, UpsyncResult.time]

theorem upsyncWriteVersionLocalStoreIndex_append (env : UpsyncEnv) (args : UpsyncArgs)
    (r : UpsyncResult) :
    (upsyncWriteVersionLocalStoreIndex env args r).trace =
      r.trace ++ (upsyncWriteVersionLocalStoreIndex env args ⟨[], [], none, []⟩).trace := by
  unfold upsyncWriteVersionLocalStoreIndex
  repeat' split
  all_goals first
    | exact upsyncWriteGetConfig_append _ _ _
    | (rw [upsyncWriteGetConfig_append]
       conv_rhs => rw [upsyncWriteGetConfig_append]
       simp [UpsyncResult.call, UpsyncResult.ret, UpsyncResult.time])
    | simp [UpsyncResult.call, UpsyncResult.ret, UpsyncResult.time]

theorem upsyncWriteVersionLocalStoreIndex_late (env : UpsyncEnv) (args : UpsyncArgs) :
    UpsyncCall.WriteContent ∉
      (upsyncWriteVersionLocalStoreIndex env args ⟨[], [], none, []⟩).trace ∧
    UpsyncCall.FlushStoresSync ∉
      (upsyncWriteVersionLocalStoreIndex env args ⟨[], [], none, []⟩).trace := by
  have h := upsyncWriteGetConfig_late env args
  unfold upsyncWriteVersionLocalStoreIndex
  repeat' split
  all_goals first
    | (rw [upsyncWriteGetConfig_append]
       simp [UpsyncResult.call, UpsyncResult.ret, UpsyncResult.time, h])
    | simp [UpsyncResult.call, UpsyncResult.ret, UpsyncResult.time, h]

theorem upsyncWriteVersionIndex_append (env : UpsyncEnv) (args : UpsyncArgs)
    (r : UpsyncResult) :
    (upsyncWriteVersionIndex env args r).trace =
      r.trace ++ (upsyncWriteVersionIndex env args ⟨[], [], none, []⟩).trace := by
  unfold upsyncWriteVersionIndex
  repeat' split
  all_goals first
    | exact upsyncWriteVersionLocalStoreIndex_append _ _ _
    | (rw [upsyncWriteVersionLocalStoreIndex_append]
       conv_rhs => rw [upsyncWriteVersionLocalStoreIndex_append]
       simp [UpsyncResult.call, UpsyncResult.ret, UpsyncResult.time, UpsyncResult.stat])
    | simp [UpsyncResult.call, UpsyncResult.ret, UpsyncResult.time, UpsyncResult.stat]

theorem upsyncWriteVersionIndex_late (env : UpsyncEnv) (args : UpsyncArgs) :
    UpsyncCall.WriteContent ∉ (upsyncWriteVersionIndex env args ⟨[], [], none, []⟩).trace ∧
    UpsyncCall.FlushStoresSync ∉
      (upsyncWriteVersionIndex env args ⟨[], [], none, []⟩).trace := by
  have h := upsyncWriteVersionLocalStoreIndex_late env args
  unfold upsyncWriteVersionIndex
  repeat' split
  all_goals first
    | (rw [upsyncWriteVersionLocalStoreIndex_append]
       simp [UpsyncResult.call, UpsyncResult.ret, UpsyncResult.time, UpsyncResult.stat, h])
    | simp [UpsyncResult.call, UpsyncResult.ret, UpsyncResult.time, UpsyncResult.stat, h]

theorem upsyncGetMissingContent_trace (env : UpsyncEnv) (args : UpsyncArgs)
    (r : UpsyncResult) :
    (upsyncGetMissingContent env args r).trace =
      r.trace ++
        (if env.GetExistingStoreIndexSync ≠ 0 then [UpsyncCall.GetExistingStoreIndexSync]
         else if env.CreateMissingContent ≠ 0 then
           [UpsyncCall.GetExistingStoreIndexSync, UpsyncCall.CreateMissingContent]
         else if 0 < env.GetBlockCount then
           (if env.WriteContent ≠ 0 then
              [UpsyncCall.GetExistingStoreIndexSync, UpsyncCall.CreateMissingContent,
                UpsyncCall.WriteContent]
            else if env.FlushStoresSync ≠ 0 then
              [UpsyncCall.GetExistingStoreIndexSync, UpsyncCall.CreateMissingContent,
                UpsyncCall.WriteContent, UpsyncCall.FlushStoresSync]
            else
              [UpsyncCall.GetExistingStoreIndexSync, UpsyncCall.CreateMissingContent,
                UpsyncCall.WriteContent, UpsyncCall.FlushStoresSync] ++
              (upsyncWriteVersionIndex env args ⟨[], [], none, []⟩).trace)
         else
           (if env.FlushStoresSync ≠ 0 then
              [UpsyncCall.GetExistingStoreIndexSync, UpsyncCall.CreateMissingContent,
                UpsyncCall.FlushStoresSync]
            else
              [UpsyncCall.GetExistingStoreIndexSync, UpsyncCall.CreateMissingContent,
                UpsyncCall.FlushStoresSync] ++
              (upsyncWriteVersionIndex env args ⟨[], [], none, []⟩).trace)) := by
  unfold upsyncGetMissingContent upsyncWriteContent upsyncFlush
  by_cases h1 : env.GetExistingStoreIndexSync = 0 <;>
  by_cases h2 : env.CreateMissingContent = 0 <;>
  by_cases h3 : 0 < env.GetBlockCount <;>
  by_cases h4 : env.WriteContent = 0 <;>
  by_cases h5 : env.FlushStoresSync = 0 <;>
  first
    | (simp only [h1, h2, h3, h4, h5, ne_eq, not_true_eq_false, not_false_eq_true,
         if_true, if_false]
       rw [upsyncWriteVersionIndex_append]
       simp [UpsyncResult.call, UpsyncResult.ret, UpsyncResult.time])
    | simp [h1, h2, h3, h4, h5, UpsyncResult.call, UpsyncResult.ret, UpsyncResult.time]

theorem upsync_trace_cases (env : UpsyncEnv) (args : UpsyncArgs) :
    ∃ head, (∀ uri, UpsyncCall.WriteToURI uri ∉ head) ∧ UpsyncCall.WriteContent ∉ head ∧
      UpsyncCall.FlushStoresSync ∉ head ∧ UpsyncCall.CreateMissingContent ∉ head ∧
      ((upsync env args).trace = head ∨
       ∃ r : UpsyncResult, r.trace = head ∧
         (upsync env args).trace = (upsyncGetMissingContent env args r).trace) := by
  unfold upsync
  repeat' split
  all_goals first
    | (refine ⟨_, ?_, ?_, ?_, ?_, Or.inr ⟨_, rfl, rfl⟩⟩ <;>
        simp [UpsyncResult.call, UpsyncResult.ret, UpsyncResult.time])
    | (refine ⟨_, ?_, ?_, ?_, ?_, Or.inl rfl⟩ <;>
        simp [UpsyncResult.call, UpsyncResult.ret, UpsyncResult.time])

theorem mem_of_append_eq {α : Type} (H E pre post : List α) (w : α) (hw : w ∉ H)
    (h : H ++ E = pre ++ w :: post) : (∀ c ∈ H, c ∈ pre) ∧ E ≠ [] := by
  rcases List.append_eq_append_iff.mp h with ⟨a, h1, h2⟩ | ⟨c, h1, h2⟩
  · refine ⟨fun x hx => ?_, ?_⟩
    · rw [h1]
      exact List.mem_append_left _ hx
    · rw [h2]
      simp
  · cases c with
    | nil =>
      simp only [List.append_nil, List.nil_append] at h1 h2
      refine ⟨fun x hx => h1 ▸ hx, ?_⟩
      rw [← h2]
      simp
    | cons x c =>
      simp only [List.cons_append, List.cons.injEq] at h2
      exact absurd (by rw [h1, ← h2.1]; simp) hw

theorem upsync_trace_shape (env : UpsyncEnv) (args : UpsyncArgs) :
    ∃ H E, (upsync env args).trace = H ++ E ∧
      (∀ uri, UpsyncCall.WriteToURI uri ∉ H) ∧
      UpsyncCall.WriteContent ∉ E ∧
      H.count UpsyncCall.WriteContent ≤ 1 ∧
      (UpsyncCall.WriteContent ∈ H → 0 < env.GetBlockCount) ∧
      (UpsyncCall.CreateMissingContent ∈ H → env.CreateMissingContent = 0 →
        0 < env.GetBlockCount → UpsyncCall.WriteContent ∈ H) ∧
      (E ≠ [] → UpsyncCall.FlushStoresSync ∈ H ∧ env.FlushStoresSync = 0 ∧
        (0 < env.GetBlockCount → UpsyncCall.WriteContent ∈ H ∧ env.WriteContent = 0)) := by
  obtain ⟨head, hW, hWC, hF, hCMC, hT | ⟨r, hr, hT⟩⟩ := upsync_trace_cases env args
  · refine ⟨head, [], by simp [hT], hW, by simp, ?_, ?_, ?_, by simp⟩
    · rw [List.count_eq_zero.mpr hWC]
      omega
    · exact fun h => absurd h hWC
    · exact fun h => absurd h hCMC
  · have hc0 : head.count UpsyncCall.WriteContent = 0 := List.count_eq_zero.mpr hWC
    have hlate := upsyncWriteVersionIndex_late env args
    rw [upsyncGetMissingContent_trace, hr] at hT
    by_cases h1 : env.GetExistingStoreIndexSync = 0
    · by_cases h2 : env.CreateMissingContent = 0
      · by_cases h3 : 0 < env.GetBlockCount
        · by_cases h4 : env.WriteContent = 0
          · by_cases h5 : env.FlushStoresSync = 0
            · simp only [h1, h2, h3, h4, h5, ne_eq, not_true_eq_false, if_true, if_false,
                ← List.append_assoc] at hT
              exact ⟨_, _, hT, by simp [hW], hlate.1, by simp [hc0], by simp [h3],
                by simp, by simp [h5, h4]⟩
            · simp only [h1, h2, h3, h4, h5, ne_eq, not_true_eq_false, not_false_eq_true,
                if_true, if_false] at hT
              exact ⟨_, [], by simpa using hT, by simp [hW], by simp, by simp [hc0],
                by simp [h3], by simp, by simp⟩
          · simp only [h1, h2, h3, h4, ne_eq, not_true_eq_false, not_false_eq_true,
              if_true, if_false] at hT
            exact ⟨_, [], by simpa using hT, by simp [hW], by simp, by simp [hc0],
              by simp [h3], by simp, by simp⟩
        · by_cases h5 : env.FlushStoresSync = 0
          · simp only [h1, h2, h3, h5, ne_eq, not_true_eq_false, if_true, if_false,
              ← List.append_assoc] at hT
            exact ⟨_, _, hT, by simp [hW], hlate.1, by simp [hc0], by simp [hWC],
              by simp [h3], by simp [h5, h3]⟩
          · simp only [h1, h2, h3, h5, ne_eq, not_true_eq_false, not_false_eq_true,
              if_true, if_false] at hT
            exact ⟨_, [], by simpa using hT, by simp [hW], by simp, by simp [hc0],
              by simp [hWC], by simp [h3], by simp⟩
      · simp only [h1, h2, ne_eq, not_true_eq_false, not_false_eq_true,
          if_true, if_false] at hT
        exact ⟨_, [], by simpa using hT, by simp [hW], by simp, by simp [hc0],
          by simp [hWC], by simp [h2], by simp⟩
    · simp only [h1, ne_eq, not_false_eq_true, if_true] at hT
      exact ⟨_, [], by simpa using hT, by simp [hW], by simp, by simp [hc0],
        by simp [hWC], by simp [hCMC], by simp⟩

/-- C24: in every run of `upsync`, a call of `WriteToURI` (the one for
`targetFilePath` or any other) comes after the call of `FlushStoresSync`,
which returned errno 0, and, when the missing-content index has at least
one block, after the call of `WriteContent`, which returned errno 0.
`WriteContent` is called at most once, only when the block count is not 0,
and, once `CreateMissingContent` has returned errno 0, whenever the block
count is not 0.  The last part is the run in which every call succeeds: it
writes the version index. -/
theorem C24_upsync_publish_after_content (env : UpsyncEnv) (args : UpsyncArgs) :
    (∀ pre post uri, (upsync env args).trace = pre ++ UpsyncCall.WriteToURI uri :: post →
      UpsyncCall.FlushStoresSync ∈ pre ∧ env.FlushStoresSync = 0 ∧
      (0 < env.GetBlockCount → UpsyncCall.WriteContent ∈ pre ∧ env.WriteContent = 0)) ∧
    (upsync env args).trace.count UpsyncCall.WriteContent ≤ 1 ∧
    (UpsyncCall.WriteContent ∈ (upsync env args).trace → 0 < env.GetBlockCount) ∧
    (UpsyncCall.CreateMissingContent ∈ (upsync env args).trace →
      env.CreateMissingContent = 0 →
      (UpsyncCall.WriteContent ∈ (upsync env args).trace ↔ 0 < env.GetBlockCount)) ∧
    UpsyncCall.WriteToURI brokenLSIArgs.targetFilePath ∈ (upsync okEnv brokenLSIArgs).trace := by
  obtain ⟨H, E, hT, hW, hWCE, hcount, hpos, hcmc, hE⟩ := upsync_trace_shape env args
  have hmemWC : UpsyncCall.WriteContent ∈ (upsync env args).trace →
      UpsyncCall.WriteContent ∈ H := by
    intro h
    rw [hT, List.mem_append] at h
    exact h.resolve_right hWCE
  refine ⟨?_, ?_, fun h => hpos (hmemWC h), ?_, by decide⟩
  · intro pre post uri h
    rw [hT] at h
    obtain ⟨hsub, hne⟩ := mem_of_append_eq H E pre post _ (hW uri) h
    obtain ⟨h1, h2, h3⟩ := hE hne
    exact ⟨hsub _ h1, h2, fun hp => ⟨hsub _ (h3 hp).1, (h3 hp).2⟩⟩
  · rw [hT, List.count_append, List.count_eq_zero.mpr hWCE]
    omega
  · intro hc h0
    refine ⟨fun h => hpos (hmemWC h), fun hp => ?_⟩
    rw [hT, List.mem_append] at hc
    rcases hc with hc | hc
    · rw [hT]
      exact List.mem_append_left _ (hcmc hc h0 hp)
    · have hne : E ≠ [] := by
        intro he
        rw [he] at hc
        simp at hc
      rw [hT]
      exact List.mem_append_left _ ((hE hne).2.2 hp).1

end Longtail
